import Mathlib

/-!
# biz-panel: project registry, deployment orchestration and container statistics

A shallow embedding of the Go sources

* `backend/internal/models/project.go` (data model),
* `backend/internal/api/projects.go` (project registry and deploy handlers),
* `backend/internal/api/handlers.go` (`addActivity`),
* `backend/internal/docker/client.go` (`GetContainerStats`),

followed by theorems about them.

Conventions.  Handlers become pure functions on an explicit `State`; everything a
handler reads from outside (the decoded request body, the clock, fresh identifiers,
the answers of the container runtime) is an explicit argument.  Unsigned 64-bit
counters are natural numbers reduced modulo `2 ^ 64`.  Go `float64` arithmetic is
modelled exactly: a finite binary64 value is an integer significand times a power of
two, and every operation rounds the exact result to nearest, ties to even.
-/

namespace BizPanel

/-! ## binary64 arithmetic -/

/-- Auxiliary for `floorLog2`: halve `n` until it drops below two, at most `fuel` times. -/
def log2Fuel : Nat → Nat → Nat
  | 0, _ => 0
  | fuel + 1, n => if n < 2 then 0 else log2Fuel fuel (n / 2) + 1

/-- The position of the highest set bit of `n` (and `0` for `n = 0`). -/
def floorLog2 (n : Nat) : Nat := log2Fuel n n

/-- The integer `e` with `2 ^ e ≤ a / b < 2 ^ (e + 1)`, for positive `a` and `b`. -/
def ilog2 (a b : Nat) : Int :=
  let e0 : Int := (floorLog2 a : Int) - (floorLog2 b : Int)
  if b * 2 ^ e0.toNat ≤ a * 2 ^ (-e0).toNat then e0 else e0 - 1

/-- The quotient `a / b` rounded to the nearest integer, ties to the even neighbour. -/
def roundHalfEven (a b : Nat) : Nat :=
  let q := a / b
  let r := a % b
  if 2 * r < b then q
  else if b < 2 * r then q + 1
  else if q % 2 = 0 then q else q + 1

/-- A finite binary64 value: `mant * 2 ^ exp`.  Infinities and NaN are not
represented; the functions embedded below never produce them on the inputs
they are stated for (magnitudes stay far below `2 ^ 1024` and every division is
guarded or has a non-zero constant divisor). -/
structure F64 where
  mant : Int
  exp : Int
deriving DecidableEq

namespace F64

/-- The rational number a binary64 value stands for. -/
def toRat (x : F64) : ℚ := (x.mant : ℚ) * (2 : ℚ) ^ x.exp

/-- Positive zero. -/
def zero : F64 := ⟨0, 0⟩

/-- Exponent of the unit in the last place of the binary64 numbers around `a / b`:
53 significant bits for normal numbers, `2 ^ (-1074)` in the subnormal range. -/
def quantum (a b : Nat) : Int := max (ilog2 a b - 52) (-1074)

/-- Round-to-nearest-even of the exact ratio `± a / b` into binary64
(IEEE 754 `roundTiesToEven`). -/
def ofRatio (neg : Bool) (a b : Nat) : F64 :=
  if a = 0 then zero
  else
    let s := quantum a b
    let m : Int := roundHalfEven (a * 2 ^ (-s).toNat) (b * 2 ^ s.toNat)
    ⟨if neg then -m else m, s⟩

/-- Go conversion `float64(n)` of a non-negative integer. -/
def ofNat (n : Nat) : F64 := ofRatio false n 1

/-- Go conversion `float64(i)` of a signed integer. -/
def ofInt (i : Int) : F64 := ofRatio (decide (i < 0)) i.natAbs 1

/-- The sign bit of a product or quotient. -/
def signXor (x y : F64) : Bool := decide (x.mant < 0) != decide (y.mant < 0)

/-- Go `x / y` on `float64`, for `y ≠ 0`. -/
def div (x y : F64) : F64 :=
  ofRatio (signXor x y)
    (x.mant.natAbs * 2 ^ (x.exp - y.exp).toNat)
    (y.mant.natAbs * 2 ^ (y.exp - x.exp).toNat)

/-- Go `x * y` on `float64`. -/
def mul (x y : F64) : F64 :=
  ofRatio (signXor x y)
    (x.mant.natAbs * y.mant.natAbs * 2 ^ (x.exp + y.exp).toNat)
    (2 ^ (-(x.exp + y.exp)).toNat)

/-- Go `x + y` on `float64`. -/
def add (x y : F64) : F64 :=
  let e := min x.exp y.exp
  let m : Int := x.mant * 2 ^ (x.exp - e).toNat + y.mant * 2 ^ (y.exp - e).toNat
  ofRatio (decide (m < 0)) (m.natAbs * 2 ^ e.toNat) (2 ^ (-e).toNat)

/-- Go comparison `x > 0` on `float64`. -/
def isPos (x : F64) : Bool := decide (0 < x.mant)

/-- Go conversion `int64(x)`: the fraction is discarded (truncation toward zero).
Stated for values within the `int64` range. -/
def toInt64 (x : F64) : Int :=
  if 0 ≤ x.exp then x.mant * 2 ^ x.exp.toNat else Int.tdiv x.mant (2 ^ (-x.exp).toNat)

end F64

/-! ## Container statistics (`docker/client.go`) -/

/-- Go `a - b` on `uint64`: subtraction modulo `2 ^ 64`. -/
def u64Sub (a b : Nat) : Nat := (a + (2 ^ 64 - b % 2 ^ 64)) % 2 ^ 64

/-- Go `a + b` on `uint64`: addition modulo `2 ^ 64`. -/
def u64Add (a b : Nat) : Nat := (a + b) % 2 ^ 64

/-- The fields of `types.NetworkStats` read by `GetContainerStats`. -/
structure NetworkStats where
  rxBytes : Nat
  txBytes : Nat
deriving DecidableEq

/-- The runtime's `types.BlkioStatEntry`. -/
structure BlkioStatEntry where
  major : Nat
  minor : Nat
  op : String
  value : Nat
deriving DecidableEq

/-- The fields of the runtime's `types.StatsJSON` read by `GetContainerStats`.
`totalUsage`, `percpuUsage`, `systemUsage` are `CPUStats.CPUUsage.TotalUsage`,
`CPUStats.CPUUsage.PercpuUsage`, `CPUStats.SystemUsage`; the `pre` fields are the same
counters of `PreCPUStats`.  All counters are `uint64`. -/
structure StatsJSON where
  totalUsage : Nat
  percpuUsage : List Nat
  systemUsage : Nat
  preTotalUsage : Nat
  preSystemUsage : Nat
  memoryUsage : Nat
  memoryLimit : Nat
  networks : List (String × NetworkStats)
  ioServiceBytesRecursive : List BlkioStatEntry
deriving DecidableEq

/-- The counters of a sample that enter the CPU computation fit in 64 bits. -/
def StatsJSON.cpuWellFormed (s : StatsJSON) : Prop :=
  s.totalUsage < 2 ^ 64 ∧ s.preTotalUsage < 2 ^ 64 ∧
  s.systemUsage < 2 ^ 64 ∧ s.preSystemUsage < 2 ^ 64 ∧ s.percpuUsage.length < 2 ^ 63

/-- `ContainerStats` of `docker/client.go`. -/
structure ContainerStats where
  cpuPercent : F64
  memoryUsage : Nat
  memoryLimit : Nat
  memoryPercent : F64
  networkRx : Nat
  networkTx : Nat
  blockRead : Nat
  blockWrite : Nat
deriving DecidableEq

/-- The `cpuPercent` computed by `GetContainerStats`:
`cpuDelta := float64(total - preTotal)`, `systemDelta := float64(system - preSystem)`
(both subtractions on `uint64`), and, when `systemDelta > 0`,
`(cpuDelta / systemDelta) * float64(len(percpu)) * 100.0`, else `0.0`. -/
def cpuPercent (s : StatsJSON) : F64 :=
  let cpuDelta := F64.ofNat (u64Sub s.totalUsage s.preTotalUsage)
  let systemDelta := F64.ofNat (u64Sub s.systemUsage s.preSystemUsage)
  if systemDelta.isPos then
    F64.mul (F64.mul (F64.div cpuDelta systemDelta) (F64.ofNat s.percpuUsage.length))
      (F64.ofNat 100)
  else F64.zero

/-- The `memoryPercent` computed by `GetContainerStats`. -/
def memoryPercent (s : StatsJSON) : F64 :=
  if 0 < s.memoryLimit then
    F64.mul (F64.div (F64.ofNat s.memoryUsage) (F64.ofNat s.memoryLimit)) (F64.ofNat 100)
  else F64.zero

/-- The two block-I/O accumulators of `GetContainerStats` after one more entry. -/
def blockStep (acc : Nat × Nat) (io : BlkioStatEntry) : Nat × Nat :=
  if io.op = "Read" then (u64Add acc.1 io.value, acc.2)
  else if io.op = "Write" then (acc.1, u64Add acc.2 io.value)
  else acc

/-- `Client.GetContainerStats` after the runtime call: `r` is the decoded sample, or the
error of the call or of the decoding. -/
def getContainerStats (r : Except String StatsJSON) : Except String ContainerStats :=
  match r with
  | .error e => .error e
  | .ok s =>
    let net := s.networks.foldl
      (fun (acc : Nat × Nat) n => (u64Add acc.1 n.2.rxBytes, u64Add acc.2 n.2.txBytes)) (0, 0)
    let blk := s.ioServiceBytesRecursive.foldl blockStep (0, 0)
    .ok {
      cpuPercent := cpuPercent s
      memoryUsage := s.memoryUsage
      memoryLimit := s.memoryLimit
      memoryPercent := memoryPercent s
      networkRx := net.1
      networkTx := net.2
      blockRead := blk.1
      blockWrite := blk.2 }

/-! ## Data model (`models/project.go`, `models/core.go`) -/

/-- Go `time.Time` as read from the process clock: nanoseconds on the monotonic
timeline that `Time.Sub` uses for two readings of `time.Now()`. -/
abbrev Time := Int

/-- Go `map[string]string`; `none` is the nil map. -/
abbrev StringMap := Option (List (String × String))

/-- `ProjectType` is a string type; its values arrive in request bodies. -/
abbrev ProjectType := String

/-- `ProjectTypeGit`. -/
def ProjectTypeGit : ProjectType := "git"

/-- `ProjectTypeDocker`. -/
def ProjectTypeDocker : ProjectType := "docker"

/-- `ProjectTypeStatic`. -/
def ProjectTypeStatic : ProjectType := "static"

/-- `ProjectStatus`: the six declared constants (a status is only ever assigned from
one of them). -/
inductive ProjectStatus where
  | idle | building | deploying | running | stopped | failed
deriving DecidableEq

/-- `DeployStatus`: the six declared constants. -/
inductive DeployStatus where
  | pending | building | deploying | success | failed | cancelled
deriving DecidableEq

/-- `GitRepository`. -/
structure GitRepository where
  url : String
  branch : String
  privateKey : String
  autoDeploy : Bool
deriving DecidableEq

/-- `PortConfig` (`uint16` ports). -/
structure PortConfig where
  host : Nat
  container : Nat
  protocol : String
deriving DecidableEq

/-- `VolumeConfig`. -/
structure VolumeConfig where
  source : String
  target : String
  type : String
deriving DecidableEq

/-- `DockerConfig`. -/
structure DockerConfig where
  image : String
  dockerfile : String
  dockerCompose : String
  buildArgs : StringMap
  command : List String
  entrypoint : List String
  ports : List PortConfig
  volumes : List VolumeConfig
  labels : StringMap
deriving DecidableEq

/-- `ResourceLimits`. -/
structure ResourceLimits where
  cpuLimit : F64
  memoryLimit : Int
  cpuUsage : F64
  memoryUsage : Int
deriving DecidableEq

/-- The zero value of `ResourceLimits`, which a JSON body without `resources` decodes to. -/
def ResourceLimits.zero : ResourceLimits := ⟨F64.zero, 0, F64.zero, 0⟩

/-- `DeployInfo`; `finishedAt` is the `*time.Time`, `none` for nil. -/
structure DeployInfo where
  id : String
  status : DeployStatus
  startedAt : Time
  finishedAt : Option Time
  duration : Int
  logs : List String
  commitSHA : String
  author : String
  message : String
deriving DecidableEq

/-- `Project`; pointer fields are options, `none` for nil. -/
structure Project where
  id : String
  name : String
  description : String
  type : ProjectType
  status : ProjectStatus
  repository : Option GitRepository
  docker : Option DockerConfig
  environment : StringMap
  networkID : String
  domain : String
  ssl : Bool
  resources : ResourceLimits
  containers : List String
  createdAt : Time
  updatedAt : Time
  lastDeploy : Option DeployInfo
deriving DecidableEq

/-- `CreateProjectRequest`, as decoded from the JSON body. -/
structure CreateProjectRequest where
  name : String
  description : String
  type : ProjectType
  repository : Option GitRepository
  docker : Option DockerConfig
  environment : StringMap
  domain : String
  ssl : Bool
  resources : ResourceLimits
deriving DecidableEq

/-- `UpdateProjectRequest`, as decoded from the JSON body. -/
structure UpdateProjectRequest where
  name : String
  description : String
  repository : Option GitRepository
  docker : Option DockerConfig
  environment : StringMap
  domain : String
  ssl : Bool
  resources : ResourceLimits
deriving DecidableEq

/-- `Activity` of `models/core.go` (its `Metadata` map is never set by the code
embedded here and is left out). -/
structure Activity where
  id : String
  type : String
  title : String
  description : String
  status : String
  projectID : String
  userID : String
  timestamp : Time
deriving DecidableEq

/-- `docker.ContainerInfo`, without its `Created`, `Ports`, `Mounts` and `Stats`
fields; `networks` lists the network names in the order the map of the runtime was
iterated. -/
structure ContainerInfo where
  id : String
  name : String
  image : String
  status : String
  state : String
  projectID : String
  labels : StringMap := none
  networks : List String := []
deriving DecidableEq

/-! ## Registry state and collaborators -/

/-- The package-level stores of `package api`: `projectStore` (a Go map, here a
partial function on keys) and `activityStore`. -/
structure State where
  projectStore : String → Option Project
  activityStore : List Activity

/-- The state at process start. -/
def State.init : State := ⟨fun _ => none, []⟩

/-- Go `m[k] = v`. -/
def storeSet (m : String → Option Project) (k : String) (v : Project) :
    String → Option Project :=
  fun j => if j = k then some v else m j

/-- Go `delete(m, k)`. -/
def storeDelete (m : String → Option Project) (k : String) : String → Option Project :=
  fun j => if j = k then none else m j

/-- The answers of the container runtime to the calls the project handlers make
through `*docker.Client`.  `ListContainers` indexes `ctr.ID[:12]` and `ctr.Names[0]`
for every container of the runtime's listing: its answer `none` is the panic of such
an expression, `some` the error or the list it returns. -/
structure DockerClient where
  createProjectNetwork : String → String → Except String String
  removeNetwork : String → Except String Unit
  connectContainerToNetwork : String → String → Except String Unit
  listContainers : String → Option (Except String (List ContainerInfo))

/-- The JSON payload of a response. -/
inductive Body where
  | project (p : Project)
  | error (msg : String)
  | fields (kv : List (String × String))
  | containers (cs : List ContainerInfo)
  | deployLogs (deployID : Option String) (status : Option DeployStatus) (logs : List String)
  | empty

/-- What a handler writes with `c.JSON`: HTTP status code and payload. -/
structure Response where
  code : Nat
  body : Body

/-- `http.StatusOK`. -/
def StatusOK : Nat := 200

/-- `http.StatusCreated`. -/
def StatusCreated : Nat := 201

/-- `http.StatusBadRequest`. -/
def StatusBadRequest : Nat := 400

/-- `http.StatusNotFound`. -/
def StatusNotFound : Nat := 404

/-- `http.StatusConflict`. -/
def StatusConflict : Nat := 409

/-- `http.StatusInternalServerError`. -/
def StatusInternalServerError : Nat := 500

/-- `http.StatusServiceUnavailable`. -/
def StatusServiceUnavailable : Nat := 503

/-- `addActivity` of `handlers.go`: append, then keep only the last 100 entries. -/
def addActivity (log : List Activity) (a : Activity) : List Activity :=
  let l := log ++ [a]
  if 100 < l.length then l.drop (l.length - 100) else l

/-- A call issued to the container runtime. -/
inductive DockerCall where
  | createProjectNetwork (projectID projectName : String)
  | removeNetwork (networkID : String)
  | connectContainerToNetwork (containerID networkID : String)
  | listContainers (projectID : String)
  | stopContainer (containerID : String)
  | removeContainer (containerID : String) (force : Bool)
deriving DecidableEq

/-- Outcome of a handler: the stores afterwards, the response written, and the
runtime calls issued, in order. -/
structure Result where
  state : State
  response : Response
  calls : List DockerCall

/-- The message of the validator for a field that fails `binding:"required"`. -/
def requiredError (key field : String) : String :=
  "Key: '" ++ key ++ "' Error:Field validation for '" ++ field ++ "' failed on the 'required' tag"

/-- The `binding:"required"` tags of `CreateProjectRequest` (`Name` and `Type`): a
required string must differ from the zero value `""`. -/
def createRequiredErrors (req : CreateProjectRequest) : List String :=
  (if req.name = "" then [requiredError "CreateProjectRequest.Name" "Name"] else []) ++
  (if req.type = "" then [requiredError "CreateProjectRequest.Type" "Type"] else [])

/-- `c.ShouldBindJSON(&req)` for `CreateProjectRequest`: `body` is the decoded JSON (or
the decoding error); decoding is followed by validation of the `binding` tags. -/
def bindCreateProjectRequest (body : Except String CreateProjectRequest) :
    Except String CreateProjectRequest :=
  match body with
  | .error e => .error e
  | .ok req =>
    if createRequiredErrors req = [] then .ok req
    else .error (String.intercalate "\n" (createRequiredErrors req))

/-- Handler `CreateProject`.  `newID` and `activityID` are the two fresh
`uuid.New().String()[:8]`, `now` is `time.Now()`, `docker` is `dockerClientGlobal`
(`none` for nil). -/
def CreateProject (st : State) (body : Except String CreateProjectRequest) (now : Time)
    (newID activityID : String) (docker : Option DockerClient) : Result :=
  match bindCreateProjectRequest body with
  | .error e => ⟨st, ⟨StatusBadRequest, .error e⟩, []⟩
  | .ok req =>
    let projectType := if req.type = "" then ProjectTypeDocker else req.type
    let project : Project := {
      id := newID
      name := req.name
      description := req.description
      type := projectType
      status := .idle
      repository := req.repository
      docker := req.docker
      environment := req.environment
      networkID := ""
      domain := req.domain
      ssl := req.ssl
      resources := req.resources
      containers := []
      createdAt := now
      updatedAt := now
      lastDeploy := none }
    let networkName := "biz-panel-" ++ project.id
    let project := { project with networkID := networkName }
    let created : Project × List DockerCall :=
      match docker with
      | none => (project, [])
      | some d =>
        match d.createProjectNetwork project.id project.name with
        | .error _ => (project, [.createProjectNetwork project.id project.name])
        | .ok networkID =>
          ({ project with networkID := networkID },
            [.createProjectNetwork project.id project.name])
    let project := created.1
    let store := storeSet st.projectStore project.id project
    let activities := addActivity st.activityStore {
      id := activityID
      type := "create"
      title := "Project Created"
      description :=
        "Project '" ++ project.name ++ "' was created with isolated network '" ++
          networkName ++ "'"
      status := "success"
      projectID := project.id
      userID := ""
      timestamp := now }
    ⟨⟨store, activities⟩, ⟨StatusCreated, .project project⟩, created.2⟩

/-- Handler `GetProject`: refreshes `project.Containers` in place from the runtime's
listing when the runtime is available and the listing succeeds.  A panic of
`ListContainers` unwinds the handler before it writes anything; the `Recovery`
middleware of `gin.Default()` (`main.go`) then aborts the request with status 500 and
no payload. -/
def GetProject (st : State) (id : String) (docker : Option DockerClient) : Result :=
  match st.projectStore id with
  | none => ⟨st, ⟨StatusNotFound, .error "Project not found"⟩, []⟩
  | some project =>
    match docker with
    | none => ⟨st, ⟨StatusOK, .project project⟩, []⟩
    | some d =>
      match d.listContainers project.id with
      | none => ⟨st, ⟨StatusInternalServerError, .empty⟩, [.listContainers project.id]⟩
      | some (.error _) => ⟨st, ⟨StatusOK, .project project⟩, [.listContainers project.id]⟩
      | some (.ok containers) =>
        let project := { project with containers := containers.map (fun ctr => ctr.id) }
        ⟨{ st with projectStore := storeSet st.projectStore id project },
          ⟨StatusOK, .project project⟩, [.listContainers project.id]⟩

/-- Handler `UpdateProject`; `now` is `time.Now()`. -/
def UpdateProject (st : State) (id : String) (body : Except String UpdateProjectRequest)
    (now : Time) : Result :=
  match st.projectStore id with
  | none => ⟨st, ⟨StatusNotFound, .error "Project not found"⟩, []⟩
  | some project =>
    match body with
    | .error e => ⟨st, ⟨StatusBadRequest, .error e⟩, []⟩
    | .ok req =>
      let project := if req.name ≠ "" then { project with name := req.name } else project
      let project :=
        if req.description ≠ "" then { project with description := req.description }
        else project
      let project :=
        if req.repository ≠ none then { project with repository := req.repository }
        else project
      let project := if req.docker ≠ none then { project with docker := req.docker } else project
      let project :=
        if req.environment ≠ none then { project with environment := req.environment }
        else project
      let project := if req.domain ≠ "" then { project with domain := req.domain } else project
      let project := { project with ssl := req.ssl }
      let project := { project with resources := req.resources }
      let project := { project with updatedAt := now }
      ⟨{ st with projectStore := storeSet st.projectStore id project },
        ⟨StatusOK, .project project⟩, []⟩

/-- Handler `DeleteProject`; the result of `RemoveNetwork` is only printed. -/
def DeleteProject (st : State) (id : String) (now : Time) (activityID : String)
    (docker : Option DockerClient) : Result :=
  match st.projectStore id with
  | none => ⟨st, ⟨StatusNotFound, .error "Project not found"⟩, []⟩
  | some project =>
    let store := storeDelete st.projectStore id
    let calls : List DockerCall :=
      match docker with
      | none => []
      | some _ => if project.networkID ≠ "" then [.removeNetwork project.networkID] else []
    let activities := addActivity st.activityStore {
      id := activityID
      type := "delete"
      title := "Project Deleted"
      description := "Project '" ++ project.name ++ "' was deleted"
      status := "success"
      projectID := id
      userID := ""
      timestamp := now }
    ⟨⟨store, activities⟩,
      ⟨StatusOK, .fields [("message", "Project deleted"), ("id", id)]⟩, calls⟩

/-- Handler returned by `AddContainerToProject(dockerClient)`; `body` is the decoded
`containerId` of the request (or the decoding error), a `binding:"required"` field. -/
def AddContainerToProject (docker : Option DockerClient) (st : State) (projectID : String)
    (body : Except String String) : Result :=
  match body with
  | .error e => ⟨st, ⟨StatusBadRequest, .error e⟩, []⟩
  | .ok containerID =>
    if containerID = "" then
      ⟨st, ⟨StatusBadRequest, .error (requiredError "ContainerID" "ContainerID")⟩, []⟩
    else
      match st.projectStore projectID with
      | none => ⟨st, ⟨StatusNotFound, .error "Project not found"⟩, []⟩
      | some project =>
        match docker with
        | none => ⟨st, ⟨StatusServiceUnavailable, .error "Docker not available"⟩, []⟩
        | some d =>
          match d.connectContainerToNetwork containerID project.networkID with
          | .error e =>
            ⟨st, ⟨StatusInternalServerError, .error e⟩,
              [.connectContainerToNetwork containerID project.networkID]⟩
          | .ok _ =>
            let project := { project with containers := project.containers ++ [containerID] }
            ⟨{ st with projectStore := storeSet st.projectStore projectID project },
              ⟨StatusOK, .fields [("message", "Container added to project"),
                ("containerId", containerID), ("projectId", projectID),
                ("network", project.networkID)]⟩,
              [.connectContainerToNetwork containerID project.networkID]⟩

/-- Handler `DeployProject`, up to the point where it returns: the synchronous part
that records the new deploy.  The goroutine it starts is `deployCompletion`.
`deployID` and `activityID` are fresh `uuid.New().String()[:8]`, `now` is `time.Now()`. -/
def DeployProject (st : State) (id : String) (now : Time) (deployID activityID : String) :
    Result :=
  match st.projectStore id with
  | none => ⟨st, ⟨StatusNotFound, .error "Project not found"⟩, []⟩
  | some project =>
    let project := { project with status := .deploying }
    let project := { project with lastDeploy := some {
      id := deployID
      status := .building
      startedAt := now
      finishedAt := none
      duration := 0
      logs := ["Starting deployment...", "Using network: " ++ project.networkID]
      commitSHA := ""
      author := ""
      message := "" } }
    let project := { project with updatedAt := now }
    let activities := addActivity st.activityStore {
      id := activityID
      type := "deploy"
      title := "Deployment Started"
      description := "Deployment started for '" ++ project.name ++ "'"
      status := "pending"
      projectID := id
      userID := ""
      timestamp := now }
    ⟨⟨storeSet st.projectStore id project, activities⟩,
      ⟨StatusOK, .fields [("message", "Deployment started"), ("deployId", deployID),
        ("network", project.networkID)]⟩, []⟩

/-- Go `t.Sub(u)`: the difference in nanoseconds, saturated to the `int64` range of
`time.Duration`. -/
def timeSub (t u : Time) : Int := max (-(2 ^ 63)) (min (2 ^ 63 - 1) (t - u))

/-- Go `Duration.Seconds`: `sec := d / Second; nsec := d % Second;
return float64(sec) + float64(nsec)/1e9`, with Go's truncating integer division. -/
def durationSeconds (d : Int) : F64 :=
  F64.add (F64.ofInt (Int.tdiv d 1000000000))
    (F64.div (F64.ofInt (Int.tmod d 1000000000)) (F64.ofNat 1000000000))

/-- The log lines appended by the completion of a deploy. -/
def completionLogs (networkID : String) : List String :=
  ["Building image...",
   "Pulling base image...",
   "Installing dependencies...",
   "Connecting to network: " ++ networkID,
   "Building application...",
   "Creating container...",
   "Starting container...",
   "✓ Deployment successful!"]

/-- The goroutine started by `DeployProject`, after its `time.Sleep`: the completion
step, run under the write lock; `finishedAt` is its `time.Now()`.  The result is
`none` when the step dereferences a nil `LastDeploy` (a panic). -/
def deployCompletion (st : State) (id : String) (finishedAt : Time) : Option State :=
  match st.projectStore id with
  | none => some st
  | some p =>
    let p := { p with status := .running }
    match p.lastDeploy with
    | none => none
    | some d =>
      let d := { d with status := .success }
      let d := { d with finishedAt := some finishedAt }
      let d := { d with
        duration := F64.toInt64 (durationSeconds (timeSub finishedAt d.startedAt)) }
      let d := { d with logs := d.logs ++ completionLogs p.networkID }
      some { st with projectStore := storeSet st.projectStore id { p with lastDeploy := some d } }

/-- Handler `GetProjectLogs`: the logs of the last deploy; a project that was never
deployed answers `{"logs": []}`, without `deployId` and `status`. -/
def GetProjectLogs (st : State) (id : String) : Result :=
  match st.projectStore id with
  | none => ⟨st, ⟨StatusNotFound, .error "Project not found"⟩, []⟩
  | some project =>
    match project.lastDeploy with
    | none => ⟨st, ⟨StatusOK, .deployLogs none none []⟩, []⟩
    | some d => ⟨st, ⟨StatusOK, .deployLogs (some d.id) (some d.status) d.logs⟩, []⟩

/-- Handler returned by `GetProjectContainers(dockerClient)`: the runtime's listing
for the project; a panic of `ListContainers` is answered by the `Recovery` middleware
with status 500 and no payload. -/
def GetProjectContainers (dockerClient : Option DockerClient) (st : State)
    (projectID : String) : Result :=
  match st.projectStore projectID with
  | none => ⟨st, ⟨StatusNotFound, .error "Project not found"⟩, []⟩
  | some _ =>
    match dockerClient with
    | none => ⟨st, ⟨StatusServiceUnavailable, .error "Docker not available"⟩, []⟩
    | some d =>
      match d.listContainers projectID with
      | none => ⟨st, ⟨StatusInternalServerError, .empty⟩, [.listContainers projectID]⟩
      | some (.error e) =>
        ⟨st, ⟨StatusInternalServerError, .error e⟩, [.listContainers projectID]⟩
      | some (.ok containers) =>
        ⟨st, ⟨StatusOK, .containers containers⟩, [.listContainers projectID]⟩

/-- Handler `ListActivities` of `handlers.go`: status 200 with
`activityStore[start:]`, the last 50 entries of the log. -/
def ListActivities (st : State) : Nat × List Activity :=
  let start := if 50 < st.activityStore.length then st.activityStore.length - 50 else 0
  (StatusOK, st.activityStore.drop start)

/-- The value the specification gives for `cpuPercent`, in exact rational arithmetic:
`(containerDelta / systemDelta) * n * 100`. -/
def cpuPercentExact (s : StatsJSON) : ℚ :=
  (((s.totalUsage : ℚ) - s.preTotalUsage) / ((s.systemUsage : ℚ) - s.preSystemUsage))
    * s.percpuUsage.length * 100

/-! ## Operations and reachable states of the registry -/

/-- The edges of the deployment state machine of the specification (§4.4):
`idle → building → deploying → running` and `building → failed`. -/
def SpecEdge : ProjectStatus → ProjectStatus → Prop
  | .idle, .building => True
  | .building, .deploying => True
  | .deploying, .running => True
  | .building, .failed => True
  | _, _ => False

instance : DecidableRel SpecEdge := fun a b => by
  cases a <;> cases b <;> unfold SpecEdge <;> infer_instance

/-- The status changes the handlers make: a deploy trigger moves an idle or running
project to `deploying`, a completion moves a deploying project to `running`. -/
def CodeEdge : ProjectStatus → ProjectStatus → Prop
  | .idle, .deploying => True
  | .running, .deploying => True
  | .deploying, .running => True
  | _, _ => False

instance : DecidableRel CodeEdge := fun a b => by
  cases a <;> cases b <;> unfold CodeEdge <;> infer_instance

/-- One operation of the registry.  `create` carries the assumption that the
identifier drawn from `uuid.New()` is not the key of a stored project; `complete` is
a completion step that does not panic. -/
inductive Step : State → State → Prop where
  | create (st : State) (body : Except String CreateProjectRequest) (now : Time)
      (newID activityID : String) (docker : Option DockerClient)
      (fresh : st.projectStore newID = none) :
      Step st (CreateProject st body now newID activityID docker).state
  | get (st : State) (id : String) (docker : Option DockerClient) :
      Step st (GetProject st id docker).state
  | update (st : State) (id : String) (body : Except String UpdateProjectRequest)
      (now : Time) :
      Step st (UpdateProject st id body now).state
  | delete (st : State) (id : String) (now : Time) (activityID : String)
      (docker : Option DockerClient) :
      Step st (DeleteProject st id now activityID docker).state
  | attach (docker : Option DockerClient) (st : State) (projectID : String)
      (body : Except String String) :
      Step st (AddContainerToProject docker st projectID body).state
  | deploy (st : State) (id : String) (now : Time) (deployID activityID : String) :
      Step st (DeployProject st id now deployID activityID).state
  | complete (st st' : State) (id : String) (finishedAt : Time)
      (h : deployCompletion st id finishedAt = some st') :
      Step st st'

/-- The states reachable from process start by registry operations. -/
inductive Reachable : State → Prop where
  | init : Reachable State.init
  | step (st st' : State) (h : Reachable st) (s : Step st st') : Reachable st'

/-- Invariant of the reachable states: a project that was never deployed is idle, a
project with a deploy is deploying or running. -/
def StatusInv (st : State) : Prop :=
  ∀ id p, st.projectStore id = some p →
    (p.lastDeploy = none ∧ p.status = .idle) ∨
    (p.lastDeploy ≠ none ∧ (p.status = .deploying ∨ p.status = .running))


/-- What an operation from `st` to `st'` may do to statuses: it keeps `StatusInv`,
and a project stored before and after keeps its status or moves along `CodeEdge`. -/
def StatusStep (st st' : State) : Prop :=
  StatusInv st' ∧
  ∀ id p p', st.projectStore id = some p → st'.projectStore id = some p' →
    p'.status = p.status ∨ CodeEdge p.status p'.status

/-! ## Engine client adapter (`docker/client.go`, `api/docker.go`) -/

deriving instance DecidableEq for Except

/-- Go `m[k]` on a `map[string]string`: the zero value `""` for a missing key or a
nil map. -/
def mapGet (m : StringMap) (k : String) : String :=
  match m with
  | none => ""
  | some kv => (kv.lookup k).getD ""

/-- Go `s[:n]`, which panics (`none`) when `n > len(s)`.  Stated for ASCII strings,
such as the hexadecimal identifiers of the runtime, where bytes and characters
coincide. -/
def sliceTo (s : String) (n : Nat) : Option String :=
  if n ≤ s.length then some (s.take n) else none

/-- Go `strings.TrimPrefix(s, pre)`. -/
def TrimPrefix (s pre : String) : String :=
  if pre.data.isPrefixOf s.data then String.mk (s.data.drop pre.data.length) else s

/-- Auxiliary for Go `strings.Split(s, sep)` with a one-character separator, on the
characters of `s`: the pieces between the separators (one piece more than there are
separators). -/
def splitChars (sep : Char) : List Char → List (List Char)
  | [] => [[]]
  | c :: cs =>
    if c = sep then [] :: splitChars sep cs
    else
      match splitChars sep cs with
      | [] => [[c]]
      | piece :: pieces => (c :: piece) :: pieces

/-- Go `strings.Split(s, ":")`. -/
def splitColon (s : String) : List String :=
  (splitChars ':' s.data).map String.mk

/-- `types.Container`, the runtime's container summary, as read by `ListContainers`;
`networks` are the keys of `NetworkSettings.Networks` in iteration order. -/
structure Container where
  id : String
  names : List String
  image : String
  status : String
  state : String
  labels : StringMap
  networks : List String
deriving DecidableEq

/-- `types.ContainerJSON`, the runtime's inspection result, as read by
`GetContainer`: `image` and `labels` are those of `Config`, `status` is
`State.Status`. -/
structure ContainerJSON where
  id : String
  name : String
  image : String
  status : String
  labels : StringMap
  networks : List String
deriving DecidableEq

/-- `container.ListOptions`: the `All` flag and the filter arguments, each a filter
name with one value. -/
structure ListOptions where
  all : Bool
  filters : List (String × String)
deriving DecidableEq

/-- `nat.PortBinding`. -/
structure PortBinding where
  hostIP : String
  hostPort : String
deriving DecidableEq

/-- `mount.Mount`; `type` is `bind` (`mount.TypeBind`) or `volume`
(`mount.TypeVolume`). -/
structure Mount where
  type : String
  source : String
  target : String
deriving DecidableEq

/-- `container.Config` as filled by `CreateContainer`; `exposedPorts` are the keys of
the port set. -/
structure ContainerConfig where
  image : String
  env : List String
  exposedPorts : List String
  labels : StringMap
  cmd : List String
deriving DecidableEq

/-- `container.HostConfig` as filled by `CreateContainer`; `restartPolicy` is the name
of the restart policy. -/
structure HostConfig where
  portBindings : List (String × List PortBinding)
  mounts : List Mount
  restartPolicy : String
deriving DecidableEq

/-- `CreateContainerOptions`. -/
structure CreateContainerOptions where
  name : String
  image : String
  ports : List String
  volumes : List String
  environment : List String
  labels : StringMap
  network : String
  cmd : List String
deriving DecidableEq

/-- The container runtime behind `c.cli`, as a machine with states `σ`: what each
remote call answers in a state and, for the calls that change the runtime, the state
afterwards. -/
structure Engine (σ : Type) where
  containerList : σ → ListOptions → Except String (List Container)
  containerInspect : σ → String → Except String ContainerJSON
  imageInspect : σ → String → Except String Unit
  imagePull : σ → String → Except String Unit × σ
  containerCreate : σ → ContainerConfig → HostConfig → String → Except String String × σ
  networkConnect : σ → String → String → Except String Unit × σ
  networkRemove : σ → String → Except String Unit × σ

/-- Go `m[k] = v` on a map kept as an association list. -/
def mapSet {β : Type} (m : List (String × β)) (k : String) (v : β) : List (String × β) :=
  m.filter (fun kv => kv.1 ≠ k) ++ [(k, v)]

/-- The port loop of `CreateContainer`: the exposed-port set and the port map after
the given port specs. -/
def portStep (acc : List String × List (String × List PortBinding)) (portMapping : String) :
    List String × List (String × List PortBinding) :=
  match splitColon portMapping with
  | [hostPort, containerPart] =>
    let containerPort := containerPart ++ "/tcp"
    (acc.1.filter (fun k => k ≠ containerPort) ++ [containerPort],
      mapSet acc.2 containerPort [⟨"0.0.0.0", hostPort⟩])
  | _ => acc

/-- The volume loop of `CreateContainer`: the mounts appended for one volume spec. -/
def volumeStep (mounts : List Mount) (vol : String) : List Mount :=
  match splitColon vol with
  | source :: target :: _ =>
    let mountType := if "/".data.isPrefixOf source.data then "bind" else "volume"
    mounts ++ [⟨mountType, source, target⟩]
  | _ => mounts

namespace Client

/-- The options `ListContainers` sends to the runtime. -/
def listOptions (projectID : String) : ListOptions :=
  if projectID ≠ "" then ⟨true, [("label", "biz-panel.project=" ++ projectID)]⟩
  else ⟨true, []⟩

/-- The `ContainerInfo` built by `ListContainers` for one container of the listing;
`none` when `ctr.ID[:12]` or `ctr.Names[0]` panics. -/
def infoOfContainer (ctr : Container) : Option ContainerInfo :=
  match sliceTo ctr.id 12, ctr.names with
  | some id, name :: _ =>
    some {
      id := id
      name := TrimPrefix name "/"
      image := ctr.image
      status := ctr.status
      state := ctr.state
      projectID := mapGet ctr.labels "biz-panel.project"
      labels := ctr.labels
      networks := ctr.networks }
  | _, _ => none

/-- The loop of `ListContainers` over the listing. -/
def infosOfContainers : List Container → Option (List ContainerInfo)
  | [] => some []
  | ctr :: rest =>
    match infoOfContainer ctr, infosOfContainers rest with
    | some info, some infos => some (info :: infos)
    | _, _ => none

/-- `Client.ListContainers`: `none` when the method panics, else the returned
error or list. -/
def ListContainers {σ : Type} (cli : Engine σ) (s : σ) (projectID : String) :
    Option (Except String (List ContainerInfo)) :=
  match cli.containerList s (listOptions projectID) with
  | .error e => some (.error e)
  | .ok containers =>
    match infosOfContainers containers with
    | none => none
    | some result => some (.ok result)

/-- `Client.GetContainer`: `none` when `ctr.ID[:12]` panics, else the returned error
or projection. -/
def GetContainer {σ : Type} (cli : Engine σ) (s : σ) (id : String) :
    Option (Except String ContainerInfo) :=
  match cli.containerInspect s id with
  | .error e => some (.error e)
  | .ok ctr =>
    match sliceTo ctr.id 12 with
    | none => none
    | some short =>
      some (.ok {
        id := short
        name := TrimPrefix ctr.name "/"
        image := ctr.image
        status := ctr.status
        state := ctr.status
        projectID := mapGet ctr.labels "biz-panel.project"
        labels := ctr.labels
        networks := ctr.networks })

/-- The `container.Config` built by `CreateContainer`. -/
def containerConfig (opts : CreateContainerOptions) : ContainerConfig :=
  { image := opts.image
    env := opts.environment
    exposedPorts := (opts.ports.foldl portStep ([], [])).1
    labels := opts.labels
    cmd := if 0 < opts.cmd.length then opts.cmd else [] }

/-- The `container.HostConfig` built by `CreateContainer`. -/
def hostConfig (opts : CreateContainerOptions) : HostConfig :=
  { portBindings := (opts.ports.foldl portStep ([], [])).2
    mounts := opts.volumes.foldl volumeStep []
    restartPolicy := "unless-stopped" }

/-- `Client.CreateContainer`: the returned id or error, and the state of the runtime
afterwards. -/
def CreateContainer {σ : Type} (cli : Engine σ) (s : σ) (opts : CreateContainerOptions) :
    Except String String × σ :=
  let pulled : Except String Unit × σ :=
    match cli.imageInspect s opts.image with
    | .ok _ => (.ok (), s)
    | .error _ => cli.imagePull s opts.image
  match pulled with
  | (.error e, s1) => (.error ("failed to pull image: " ++ e), s1)
  | (.ok _, s1) =>
    match cli.containerCreate s1 (containerConfig opts) (hostConfig opts) opts.name with
    | (.error e, s2) => (.error ("failed to create container: " ++ e), s2)
    | (.ok id, s2) =>
      if opts.network ≠ "" then (.ok id, (cli.networkConnect s2 opts.network id).2)
      else (.ok id, s2)

/-- `Client.RemoveNetwork`: the answer of the runtime, unchanged. -/
def RemoveNetwork {σ : Type} (cli : Engine σ) (s : σ) (id : String) :
    Except String Unit × σ :=
  cli.networkRemove s id

end Client

/-- Handler returned by `RemoveNetwork(dockerClient)` of `api/docker.go`. -/
def RemoveNetwork (dockerClient : Option DockerClient) (st : State) (id : String) : Result :=
  match dockerClient with
  | none => ⟨st, ⟨StatusServiceUnavailable, .error "Docker not available"⟩, []⟩
  | some d =>
    match d.removeNetwork id with
    | .error e => ⟨st, ⟨StatusInternalServerError, .error e⟩, [.removeNetwork id]⟩
    | .ok _ =>
      ⟨st, ⟨StatusOK, .fields [("message", "Network removed"), ("id", id)]⟩,
        [.removeNetwork id]⟩

/-- The labels `DeployTemplate` gives to the container it creates for project
`projectID` from template `templateID`. -/
def templateLabels (templateID projectID : String) : StringMap :=
  some [("biz-panel.managed", "true"), ("biz-panel.template", templateID),
    ("biz-panel.project", projectID)]

/-! ## A reference runtime

The claims about listings and round trips are stated for a runtime that honours
label filters, stores the configuration it is given and reports a missing network
as an error.  `dockerd` is such a runtime. -/

/-- A container held by the reference runtime. -/
structure StoredContainer where
  id : String
  name : String
  config : ContainerConfig
  hostConfig : HostConfig
  networks : List String
  status : String
deriving DecidableEq

/-- State of the reference runtime: its containers, the ids of its networks, its
local images, and the identifier it gives to the `n`-th container it creates. -/
structure Host where
  containers : List StoredContainer
  networks : List String
  images : List String
  idGen : Nat → String

/-- A filter value `key` or `key=value` cut at the first `=`. -/
def splitFirstEq (arg : String) : String × Option String :=
  match arg.data.span (fun c => c ≠ '=') with
  | (key, []) => (String.mk key, none)
  | (key, _ :: value) => (String.mk key, some (String.mk value))

/-- The runtime's test of a `label` filter value against the labels of an object:
the key must be present and, when a value is given, equal to it. -/
def labelFilterMatches (labels : StringMap) (arg : String) : Bool :=
  match labels with
  | none => false
  | some kv =>
    match kv.lookup (splitFirstEq arg).1, (splitFirstEq arg).2 with
    | none, _ => false
    | some _, none => true
    | some v, some w => v == w

/-- The summary the reference runtime lists for a container. -/
def StoredContainer.summary (c : StoredContainer) : Container :=
  { id := c.id
    names := ["/" ++ c.name]
    image := c.config.image
    status := c.status
    state := c.status
    labels := c.config.labels
    networks := c.networks }

/-- The inspection result of the reference runtime for a container. -/
def StoredContainer.inspect (c : StoredContainer) : ContainerJSON :=
  { id := c.id
    name := "/" ++ c.name
    image := c.config.image
    status := c.status
    labels := c.config.labels
    networks := c.networks }

/-- The reference runtime. -/
def dockerd : Engine Host where
  containerList h opts :=
    if opts.filters.all (fun f => f.1 == "label") then
      .ok (((h.containers.filter (fun c => opts.all || c.status == "running")).filter
        (fun c => opts.filters.all (fun f => labelFilterMatches c.config.labels f.2))).map
          StoredContainer.summary)
    else .error "invalid filter"
  containerInspect h id :=
    match h.containers.find? (fun c => c.id == id) with
    | some c => .ok c.inspect
    | none => .error ("No such container: " ++ id)
  imageInspect h image :=
    if image ∈ h.images then .ok () else .error ("No such image: " ++ image)
  imagePull h image := (.ok (), { h with images := image :: h.images })
  containerCreate h config hostConfig name :=
    (.ok (h.idGen h.containers.length),
      { h with containers := h.containers ++
          [⟨h.idGen h.containers.length, name, config, hostConfig, [], "created"⟩] })
  networkConnect h network id :=
    if network ∈ h.networks ∧ h.containers.any (fun c => c.id == id) then
      (.ok (), { h with containers := h.containers.map (fun c =>
        if c.id = id then { c with networks := c.networks ++ [network] } else c) })
    else (.error ("No such network or container: " ++ network), h)
  networkRemove h id :=
    if id ∈ h.networks then (.ok (), { h with networks := h.networks.filter (fun n => n ≠ id) })
    else (.error ("No such network: " ++ id), h)

/-- The projection `ListContainers` builds for a container of the reference runtime
whose id has at least 12 characters. -/
def storedInfo (c : StoredContainer) : ContainerInfo :=
  { id := c.id.take 12
    name := TrimPrefix ("/" ++ c.name) "/"
    image := c.config.image
    status := c.status
    state := c.status
    projectID := mapGet c.config.labels "biz-panel.project"
    labels := c.config.labels
    networks := c.networks }

/-- The container carries the label `biz-panel.project` with value `projectID`. -/
def hasProjectLabel (projectID : String) (c : StoredContainer) : Bool :=
  match c.config.labels with
  | none => false
  | some kv => kv.lookup "biz-panel.project" == some projectID

/-! ## Operations that keep a project in the store -/

/-- The operations that write to a stored project other than through a refresh from
the runtime: update, attach, deploy trigger and (non-panicking) deploy completion. -/
inductive MutStep : State → State → Prop where
  | update (st : State) (id : String) (body : Except String UpdateProjectRequest)
      (now : Time) :
      MutStep st (UpdateProject st id body now).state
  | attach (docker : Option DockerClient) (st : State) (projectID : String)
      (body : Except String String) :
      MutStep st (AddContainerToProject docker st projectID body).state
  | deploy (st : State) (id : String) (now : Time) (deployID activityID : String) :
      MutStep st (DeployProject st id now deployID activityID).state
  | complete (st st' : State) (id : String) (finishedAt : Time)
      (h : deployCompletion st id finishedAt = some st') :
      MutStep st st'

/-- The operations other than create and delete: those of `MutStep` and get. -/
inductive KeepStep : State → State → Prop where
  | write (st st' : State) (h : MutStep st st') : KeepStep st st'
  | get (st : State) (id : String) (docker : Option DockerClient) :
      KeepStep st (GetProject st id docker).state

/-- Every project is stored under its own id. -/
def KeyInv (st : State) : Prop :=
  ∀ k p, st.projectStore k = some p → p.id = k

/-- Every running project holds a successful deploy. -/
def RunInv (st : State) : Prop :=
  ∀ k p, st.projectStore k = some p → p.status = .running →
    ∃ d, p.lastDeploy = some d ∧ d.status = .success

/-- The fields of a project that no operation changes once it is stored. -/
def SameIdentity (p p' : Project) : Prop :=
  p'.id = p.id ∧ p'.networkID = p.networkID ∧ p'.createdAt = p.createdAt ∧
    p'.type = p.type

/-- What the status and deploy of a stored project may become in one operation:
unchanged, or `deploying`, or `running` with a successful deploy. -/
def DeployEffect (p p' : Project) : Prop :=
  (p'.status = p.status ∧ p'.lastDeploy = p.lastDeploy) ∨ p'.status = .deploying ∨
    (p'.status = .running ∧ ∃ d, p'.lastDeploy = some d ∧ d.status = .success)

/-! ## Concrete registry states used in examples -/

/-- A well-formed creation request: name `demo`, type `docker`, with ssl and a
resource block (one CPU, 512 MiB). -/
def demoRequest : CreateProjectRequest :=
  ⟨"demo", "", "docker", none, none, none, "", true, ⟨⟨1, 0⟩, 536870912, F64.zero, 0⟩⟩

/-- The registry after creating `demo` without a container runtime. -/
def demoState : State :=
  (CreateProject State.init (.ok demoRequest) 1000 "ab12cd34" "act00001" none).state

/-- The registry after triggering a deploy of `demo`. -/
def demoDeploying : State :=
  (DeployProject demoState "ab12cd34" 2000 "dep00001" "act00002").state

/-- A runtime on which every call fails. -/
def failingDocker : DockerClient :=
  ⟨fun _ _ => .error "daemon unreachable", fun _ => .error "daemon unreachable",
   fun _ _ => .error "daemon unreachable", fun _ => some (.error "daemon unreachable")⟩

/-- A runtime on which every call succeeds; created networks get the id `net-1`. -/
def workingDocker : DockerClient :=
  ⟨fun _ _ => .ok "net-1", fun _ => .ok (), fun _ _ => .ok (), fun _ => some (.ok [])⟩

/-- An update request that sets only the name. -/
def renameRequest : UpdateProjectRequest :=
  ⟨"renamed", "", none, none, none, "", false, ResourceLimits.zero⟩

/-! ## Concrete samples used in examples -/

/-- The sample of the specification: containerDelta = 200000000 ns,
systemDelta = 1000000000 ns, four cores. -/
def specSample : StatsJSON := ⟨200000000, [0, 0, 0, 0], 1000000000, 0, 0, 0, 0, [], []⟩

/-- A sample with containerDelta = 1, systemDelta = 3, one core. -/
def thirdSample : StatsJSON := ⟨1, [0], 3, 0, 0, 0, 0, [], []⟩

/-- A sample whose system counter went down by one while the container used CPU. -/
def decreasingSample : StatsJSON := ⟨1, [0], 0, 0, 1, 0, 0, [], []⟩

/-! ## Concrete registry states and runtimes used in examples (continued) -/

/-- The registry after attaching container `c1` to `demo` on a working runtime. -/
def demoAttached : State :=
  (AddContainerToProject (some workingDocker) demoState "ab12cd34" (.ok "c1")).state

/-- The registry after the deploy of `demo` completed, two seconds after its start. -/
def demoRunning : State :=
  (deployCompletion demoDeploying "ab12cd34" 2000002000).getD demoDeploying

/-- A runtime identifier of 64 hexadecimal characters. -/
def idX : String := "0123456789abcdef0123456789abcdef0123456789abcdef0123456789abcdef"

/-- A second runtime identifier. -/
def idY : String := "f123456789abcdef0123456789abcdef0123456789abcdef0123456789abcdef"

/-- A host with the network `net-1` and two running containers: `web`, labelled
`biz-panel.project=X`, and `other`, labelled `project=X`. -/
def hostX : Host :=
  ⟨[⟨idX, "web", ⟨"nginx", [], [], some [("biz-panel.project", "X")], []⟩,
      ⟨[], [], "unless-stopped"⟩, [], "running"⟩,
    ⟨idY, "other", ⟨"nginx", [], [], some [("project", "X")], []⟩,
      ⟨[], [], "unless-stopped"⟩, [], "running"⟩],
   ["net-1"], ["nginx"], fun _ => "a" ++ idX.drop 1⟩

/-- The options with which `DeployTemplate` would create a container of template
`nginx` for project `X`. -/
def templateOpts : CreateContainerOptions :=
  ⟨"demo-web", "nginx", ["8080:80"], [], [], templateLabels "nginx" "X", "", []⟩

/-- A host like `hostX` whose two containers belong to the project `ab12cd34`: `web`
is labelled `biz-panel.project=ab12cd34`, `other` is labelled `project=ab12cd34`. -/
def hostDemo : Host :=
  ⟨[⟨idX, "web", ⟨"nginx", [], [], some [("biz-panel.project", "ab12cd34")], []⟩,
      ⟨[], [], "unless-stopped"⟩, [], "running"⟩,
    ⟨idY, "other", ⟨"nginx", [], [], some [("project", "ab12cd34")], []⟩,
      ⟨[], [], "unless-stopped"⟩, [], "running"⟩],
   ["net-1"], ["nginx"], fun _ => "a" ++ idX.drop 1⟩

/-- A client whose listing for a project is what `ListContainers` returns for it on
the runtime `cli` in state `s`, a panic included; its other calls succeed. -/
def listingClient {σ : Type} (cli : Engine σ) (s : σ) : DockerClient :=
  { workingDocker with
    listContainers := fun projectID => Client.ListContainers cli s projectID }

/-- A client whose listings are those of `ListContainers` on `hostDemo`. -/
def listingDocker : DockerClient := listingClient dockerd hostDemo

/-- A runtime that answers every listing with `containers` and fails every other
call. -/
def fixedListing (containers : List Container) : Engine Unit where
  containerList _ _ := .ok containers
  containerInspect _ id := .error ("No such container: " ++ id)
  imageInspect _ image := .error ("No such image: " ++ image)
  imagePull _ image := (.error ("pull access denied for " ++ image), ())
  containerCreate _ _ _ _ := (.error "daemon unreachable", ())
  networkConnect _ _ _ := (.error "daemon unreachable", ())
  networkRemove _ _ := (.error "daemon unreachable", ())

/-- A listing with one container of project `ab12cd34` that has a full identifier
and no name. -/
def namelessListing : List Container :=
  [⟨idX, [], "nginx", "Up 2 minutes", "running",
    some [("biz-panel.project", "ab12cd34")], []⟩]

/-- A listing with one named container of project `ab12cd34` whose identifier has
three characters. -/
def shortIDListing : List Container :=
  [⟨"abc", ["/web"], "nginx", "Up 2 minutes", "running",
    some [("biz-panel.project", "ab12cd34")], []⟩]

/-- A client on which `RemoveNetwork` reports that the network does not exist. -/
def goneDocker : DockerClient :=
  { workingDocker with removeNetwork := fun id => .error ("No such network: " ++ id) }

/-- A sample with two interfaces, the first with a receive counter of `2 ^ 64 - 1`,
and four block entries with `Op` equal to `Read`, `Write`, `Sync` and `read`. -/
def mixedSample : StatsJSON :=
  ⟨0, [0], 0, 0, 0, 0, 0, [("eth0", ⟨2 ^ 64 - 1, 7⟩), ("eth1", ⟨3, 5⟩)],
    [⟨8, 0, "Read", 10⟩, ⟨8, 0, "Write", 20⟩, ⟨8, 0, "Sync", 40⟩, ⟨8, 16, "read", 80⟩]⟩

/-- The sample `mixedSample` with its interfaces and block entries in reverse order. -/
def mixedSampleReversed : StatsJSON :=
  { mixedSample with
    networks := mixedSample.networks.reverse
    ioServiceBytesRecursive := mixedSample.ioServiceBytesRecursive.reverse }

/-- The port spec `H:C` for host port `H` and container port `C`. -/
def portSpec (q : String × String) : String := q.1 ++ ":" ++ q.2

/-- The mount the specification gives for one volume spec: none for a spec with
fewer than two colon-separated parts, else source = first part, target = second
part, type `bind` when the source starts with `/` and `volume` otherwise. -/
def mountOfSpec (vol : String) : Option Mount :=
  match splitColon vol with
  | source :: target :: _ =>
    some ⟨if "/".data.isPrefixOf source.data then "bind" else "volume", source, target⟩
  | _ => none

/-- Options with two port specs for the same container port 80. -/
def twoHostPorts : CreateContainerOptions :=
  ⟨"web", "nginx", ["8080:80", "9090:80"], [], [], none, "", []⟩

/-- Options with a bind mount with a mode, a managed volume, a spec without a colon
and a second bind mount. -/
def mixedVolumes : CreateContainerOptions :=
  ⟨"web", "nginx", [], ["/srv/www:/usr/share/nginx/html:ro", "data:/var/lib/data", "scratch",
    "/etc/app:/etc/app"], [], none, "", []⟩

/-- Go `unicode.IsSpace`: the white space of Latin-1 (`\t`, `\n`, `\v`, `\f`, `\r`,
space, U+0085, U+00A0) and the other code points with the property White_Space. -/
def isSpace (c : Char) : Bool :=
  let n := c.toNat
  (9 ≤ n && n ≤ 13) || n = 32 || n = 0x85 || n = 0xA0 || n = 0x1680 ||
  (0x2000 ≤ n && n ≤ 0x200A) || n = 0x2028 || n = 0x2029 || n = 0x202F || n = 0x205F ||
  n = 0x3000

/-- Go `strings.TrimSpace` on the characters of a string. -/
def trimSpaceChars (cs : List Char) : List Char :=
  ((cs.dropWhile isSpace).reverse.dropWhile isSpace).reverse

/-- Go `strings.TrimSpace`. -/
def TrimSpace (s : String) : String := String.mk (trimSpaceChars s.data)

/-- Go `strings.Split(s, "\n")`. -/
def splitLines (s : String) : List String :=
  (splitChars '\n' s.data).map String.mk

/-- The UTF-8 encoding of a character, as a list of bytes. -/
def utf8Bytes (c : Char) : List Nat :=
  let n := c.toNat
  if n < 0x80 then [n]
  else if n < 0x800 then [0xC0 + n / 64, 0x80 + n % 64]
  else if n < 0x10000 then [0xE0 + n / 4096, 0x80 + n / 64 % 64, 0x80 + n % 64]
  else [0xF0 + n / 262144, 0x80 + n / 4096 % 64, 0x80 + n / 64 % 64, 0x80 + n % 64]

/-- The bytes of a Go string, which Go's `len`, indexing and slicing work on. -/
def bytesOf (s : String) : List Nat :=
  (s.data.map utf8Bytes).flatten

/-- Go `s[i]` on the bytes of a string; `none` when the index is out of range
(a panic). -/
def byteAt (s : List Nat) (i : Nat) : Option Nat :=
  if i < s.length then some (s.getD i 0) else none

/-- Go `s[lo:hi]` on the bytes of a string; `none` when the slice bounds are out of
range (a panic). -/
def byteSlice (s : List Nat) (lo hi : Nat) : Option (List Nat) :=
  if lo ≤ hi ∧ hi ≤ s.length then some ((s.take hi).drop lo) else none

/-- Go `a && b` for operands that may panic: `b` is evaluated only when `a` is true. -/
def andAlso (a b : Option Bool) : Option Bool :=
  match a with
  | none => none
  | some false => some false
  | some true => b

/-- Go `strings.Index(s, sep)` for a one-byte `sep`: the index of its first
occurrence, or `-1`. -/
def Index (s : List Nat) (b : Nat) : Int :=
  if s.indexOf b < s.length then (s.indexOf b : Int) else -1

/-- `extractTimestamp` of `logs.go` on the bytes of the line; the empty list is the
empty string, `none` is a panic (an index or slice expression out of range).  The
bytes 32, 45, 91, 93 are the space, `-`, `[` and `]`. -/
def extractTimestamp (line : List Nat) : Option (List Nat) :=
  match andAlso (some (decide (15 ≤ line.length)))
      (andAlso ((byteAt line 3).map (fun b => decide (b = 32)))
        ((byteSlice line 6 7).map (fun s => decide (s = [32])))) with
  | none => none
  | some true => byteSlice line 0 15
  | some false =>
    match andAlso (some (decide (19 ≤ line.length)))
        (andAlso ((byteAt line 4).map (fun b => decide (b = 45)))
          ((byteAt line 10).map (fun b => decide (b = 32)))) with
    | none => none
    | some true => byteSlice line 0 19
    | some false =>
      match andAlso ((byteAt line 0).map (fun b => decide (b = 91)))
          (some (decide (20 < line.length))) with
      | none => none
      | some true =>
        if 0 < Index line 93 then byteSlice line 1 (Index line 93).toNat else some []
      | some false => some []

/-- `LogEntry` of `logs.go`; `timestamp` is kept as bytes, since a slice of the line
may cut a character. -/
structure LogEntry where
  timestamp : List Nat
  level : String
  message : String
  source : String
deriving DecidableEq

/-- The loop of `parseLogLines` over the lines of the text.  `detectLogLevel` is the
level the function of that name gives to a line (it iterates over a Go map, so its
answer for a line with patterns of several levels is not fixed by the line). -/
def parseLogLinesLoop (detectLogLevel : String → String) (source : String) :
    List String → Option (List LogEntry)
  | [] => some []
  | raw :: rest =>
    let line := TrimSpace raw
    if line = "" then parseLogLinesLoop detectLogLevel source rest
    else
      let timestamp : Option (List Nat) :=
        if 15 < (bytesOf line).length then extractTimestamp (bytesOf line) else some []
      match timestamp, parseLogLinesLoop detectLogLevel source rest with
      | some ts, some entries => some (⟨ts, detectLogLevel line, line, source⟩ :: entries)
      | _, _ => none

/-- `parseLogLines` of `logs.go`: `none` when an index or slice expression is out of
range, else the entries. -/
def parseLogLines (detectLogLevel : String → String) (text source : String) :
    Option (List LogEntry) :=
  parseLogLinesLoop detectLogLevel source (splitLines text)

/-- A log text with a syslog line, a blank line, a padded bracketed line, an ISO
line and a short line. -/
def sampleLog : String :=
  "Jan 18 10:30:45 host sshd: error\n\n  [2026-01-18T10:30:45] started  \n" ++
    "2026-01-18 10:30:45 warn disk\nshort"

/-- Go conversion of an integer to `int64`: wrap-around modulo `2 ^ 64`. -/
def wrapInt64 (x : Int) : Int := (x + 2 ^ 63) % 2 ^ 64 - 2 ^ 63

/-- `time.Minute`, in nanoseconds. -/
def Minute : Int := 60 * 1000000000

/-- `visitor` of `ratelimit.go`. -/
structure visitor where
  tokens : Int
  lastReset : Time
deriving DecidableEq

/-- `RateLimiter` of `ratelimit.go`: `visitors` is a Go map, `window` a
`time.Duration` in nanoseconds. -/
structure RateLimiter where
  visitors : String → Option visitor
  rate : Int
  window : Int

/-- `NewRateLimiter`; the cleanup goroutine it starts is `RateLimiter.cleanup`. -/
def NewRateLimiter (rate window : Int) : RateLimiter := ⟨fun _ => none, rate, window⟩

/-- Go `m[k] = v` on the visitors map. -/
def visitorsSet (m : String → Option visitor) (k : String) (v : visitor) :
    String → Option visitor :=
  fun j => if j = k then some v else m j

/-- `RateLimiter.getVisitor`; `now` is the reading of the clock during the call. -/
def RateLimiter.getVisitor (rl : RateLimiter) (ip : String) (now : Time) :
    RateLimiter × visitor :=
  let v : visitor :=
    match rl.visitors ip with
    | some v => v
    | none => ⟨rl.rate, now⟩
  let v : visitor := if rl.window < timeSub now v.lastReset then ⟨rl.rate, now⟩ else v
  ({ rl with visitors := visitorsSet rl.visitors ip v }, v)

/-- `RateLimiter.allow`: the limiter afterwards and the decision. -/
def RateLimiter.allow (rl : RateLimiter) (ip : String) (now : Time) : RateLimiter × Bool :=
  let got := rl.getVisitor ip now
  if 0 < got.2.tokens then
    ({ got.1 with
        visitors := visitorsSet got.1.visitors ip { got.2 with tokens := got.2.tokens - 1 } },
      true)
  else (got.1, false)

/-- One round of the loop of `RateLimiter.cleanup`, after its sleep; `now` is its
`time.Now()`. -/
def RateLimiter.cleanup (rl : RateLimiter) (now : Time) : RateLimiter :=
  { rl with
    visitors := fun ip =>
      match rl.visitors ip with
      | some v => if wrapInt64 (rl.window * 2) < timeSub now v.lastReset then none else some v
      | none => none }

/-- `LoginRateLimiter`: 5 attempts per minute. -/
def LoginRateLimiter : RateLimiter := NewRateLimiter 5 Minute

/-- `APIRateLimiter`: 100 requests per minute. -/
def APIRateLimiter : RateLimiter := NewRateLimiter 100 Minute

/-- What happens to a limiter: a request of a client IP passes the middleware, or the
cleanup goroutine runs a round; each with the reading of the clock. -/
inductive LimiterEvent where
  | request (ip : String) (now : Time)
  | cleanup (now : Time)
deriving DecidableEq

/-- The clock reading of an event. -/
def LimiterEvent.time : LimiterEvent → Time
  | .request _ now => now
  | .cleanup now => now

/-- The number of requests of `ip` with a clock reading in `[a, b]` that the limiter
allows along a sequence of events. -/
def allowedIn (ip : String) (a b : Time) : RateLimiter → List LimiterEvent → Nat
  | _, [] => 0
  | rl, .cleanup now :: rest => allowedIn ip a b (rl.cleanup now) rest
  | rl, .request ip' now :: rest =>
    (if (rl.allow ip' now).2 = true ∧ ip' = ip ∧ a ≤ now ∧ now ≤ b then 1 else 0) +
      allowedIn ip a b (rl.allow ip' now).1 rest

/-- The events that concern `ip`: its own requests and the cleanup rounds. -/
def concerns (ip : String) : LimiterEvent → Bool
  | .request ip' _ => ip' = ip
  | .cleanup _ => true

/-- What `allow` does to the visitor of the requesting IP, and its decision. -/
def visitorStep (rate window : Int) (o : Option visitor) (now : Time) : visitor × Bool :=
  let v : visitor :=
    match o with
    | some v => v
    | none => ⟨rate, now⟩
  let v : visitor := if window < timeSub now v.lastReset then ⟨rate, now⟩ else v
  if 0 < v.tokens then ({ v with tokens := v.tokens - 1 }, true) else (v, false)

/-- What a cleanup round does to the visitor of an IP. -/
def visitorCleanup (window : Int) (o : Option visitor) (now : Time) : Option visitor :=
  match o with
  | some v => if wrapInt64 (window * 2) < timeSub now v.lastReset then none else some v
  | none => none

/-- The count of `allowedIn`, computed on the visitor of `ip` alone. -/
def allowedOf (rate window : Int) (ip : String) (a b : Time) :
    Option visitor → List LimiterEvent → Nat
  | _, [] => 0
  | o, .cleanup now :: rest => allowedOf rate window ip a b (visitorCleanup window o now) rest
  | o, .request ip' now :: rest =>
    if ip' = ip then
      (if (visitorStep rate window o now).2 = true ∧ a ≤ now ∧ now ≤ b then 1 else 0) +
        allowedOf rate window ip a b (some (visitorStep rate window o now).1) rest
    else allowedOf rate window ip a b o rest

/-- The tokens a visitor entry holds, none for a missing entry. -/
def budget (o : Option visitor) : Nat :=
  match o with
  | none => 0
  | some v => v.tokens.toNat

/-- One login attempt at time 0, four after exactly one minute and five one
nanosecond later, all from the same IP. -/
def burstEvents : List LimiterEvent :=
  [.request "10.0.0.1" 0,
   .request "10.0.0.1" 60000000000, .request "10.0.0.1" 60000000000,
   .request "10.0.0.1" 60000000000, .request "10.0.0.1" 60000000000,
   .request "10.0.0.1" 60000000001, .request "10.0.0.1" 60000000001,
   .request "10.0.0.1" 60000000001, .request "10.0.0.1" 60000000001,
   .request "10.0.0.1" 60000000001]

/-- What a handler does to the registry lock `projectMu` and to the data it guards,
in program order: lock operations, a lookup in `projectStore`, a write to the map
(`projectStore[id] = p` or `delete`), and a write to a field of a stored project. -/
inductive RegistryAccess where
  | rLock
  | rUnlock
  | lock
  | unlock
  | readMap
  | writeMap
  | writeField (field : String)
deriving DecidableEq

/-- Whether every write of a sequence of accesses happens while the write lock is
held; `held` tells whether it is held at the start. -/
def writesLocked (held : Bool) : List RegistryAccess → Bool
  | [] => true
  | .lock :: rest => writesLocked true rest
  | .unlock :: rest => writesLocked false rest
  | .writeMap :: rest => held && writesLocked held rest
  | .writeField _ :: rest => held && writesLocked held rest
  | _ :: rest => writesLocked held rest

/-- The accesses of `CreateProject`: the project is built before it is stored, the
store happens under the write lock. -/
def CreateProjectAccesses (body : Except String CreateProjectRequest) : List RegistryAccess :=
  match bindCreateProjectRequest body with
  | .error _ => []
  | .ok _ => [.lock, .writeMap, .unlock]

/-- The accesses of `GetProject`: the lookup under the read lock, then, when the
listing of the runtime succeeds, the assignment to `project.Containers`. -/
def GetProjectAccesses (st : State) (id : String) (docker : Option DockerClient) :
    List RegistryAccess :=
  [.rLock, .readMap, .rUnlock] ++
    match st.projectStore id with
    | none => []
    | some project =>
      match docker with
      | none => []
      | some d =>
        match d.listContainers project.id with
        | some (.ok _) => [.writeField "Containers"]
        | _ => []

/-- The accesses of `UpdateProject`: the lookup under the read lock, the assignments
to the fields of the project found, then `projectStore[id] = project` under the
write lock. -/
def UpdateProjectAccesses (st : State) (id : String)
    (body : Except String UpdateProjectRequest) : List RegistryAccess :=
  [.rLock, .readMap, .rUnlock] ++
    match st.projectStore id with
    | none => []
    | some _ =>
      match body with
      | .error _ => []
      | .ok req =>
        (if req.name ≠ "" then [.writeField "Name"] else []) ++
        (if req.description ≠ "" then [.writeField "Description"] else []) ++
        (if req.repository ≠ none then [.writeField "Repository"] else []) ++
        (if req.docker ≠ none then [.writeField "Docker"] else []) ++
        (if req.environment ≠ none then [.writeField "Environment"] else []) ++
        (if req.domain ≠ "" then [.writeField "Domain"] else []) ++
        [.writeField "SSL", .writeField "Resources", .writeField "UpdatedAt",
          .lock, .writeMap, .unlock]

/-- The accesses of `DeleteProject`. -/
def DeleteProjectAccesses (st : State) (id : String) : List RegistryAccess :=
  [.lock, .readMap] ++
    (match st.projectStore id with
      | none => []
      | some _ => [.writeMap]) ++
    [.unlock]

/-- The accesses of the handler returned by `AddContainerToProject`. -/
def AddContainerToProjectAccesses (docker : Option DockerClient) (st : State)
    (projectID : String) (body : Except String String) : List RegistryAccess :=
  match body with
  | .error _ => []
  | .ok containerID =>
    if containerID = "" then []
    else
      [.rLock, .readMap, .rUnlock] ++
        match st.projectStore projectID with
        | none => []
        | some project =>
          match docker with
          | none => []
          | some d =>
            match d.connectContainerToNetwork containerID project.networkID with
            | .error _ => []
            | .ok _ => [.lock, .writeField "Containers", .unlock]

/-- The accesses of `DeployProject` up to its return. -/
def DeployProjectAccesses (st : State) (id : String) : List RegistryAccess :=
  [.lock, .readMap] ++
    match st.projectStore id with
    | none => [.unlock]
    | some _ =>
      [.writeField "Status", .writeField "LastDeploy", .writeField "UpdatedAt", .unlock]

/-- The accesses of the completion goroutine of `DeployProject`; its deferred unlock
runs also when the step panics on a nil `LastDeploy`. -/
def deployCompletionAccesses (st : State) (id : String) : List RegistryAccess :=
  [.lock, .readMap] ++
    (match st.projectStore id with
      | none => []
      | some p =>
        .writeField "Status" ::
          match p.lastDeploy with
          | none => []
          | some _ =>
            [.writeField "LastDeploy.Status", .writeField "LastDeploy.FinishedAt",
              .writeField "LastDeploy.Duration", .writeField "LastDeploy.Logs"]) ++
    [.unlock]

/-- An update request that sets the name and the description. -/
def retitleRequest : UpdateProjectRequest :=
  ⟨"renamed", "a new description", none, none, none, "", false, ResourceLimits.zero⟩

/-- Go `strings.HasPrefix`. -/
def HasPrefix (s pre : String) : Bool := pre.data.isPrefixOf s.data

/-- Go `strings.Cut` on characters: the parts before and after the first `sep`. -/
def cutAt (sep : Char) : List Char → Option (List Char × List Char)
  | [] => none
  | c :: cs =>
    if c = sep then some ([], cs)
    else (cutAt sep cs).map (fun p => (c :: p.1, p.2))

/-- Go `strings.SplitN(s, "=", 2)`. -/
def splitEq2 (s : String) : List String :=
  match cutAt '=' s.data with
  | none => [s]
  | some (a, b) => [String.mk a, String.mk b]

/-- Auxiliary for Go `strings.Join(lines, "\n")`, on characters. -/
def joinLines : List (List Char) → List Char
  | [] => []
  | [l] => l
  | l :: rest => l ++ '\n' :: joinLines rest

/-- Go `strings.Join(lines, "\n")`. -/
def Join (lines : List String) : String :=
  String.mk (joinLines (lines.map String.data))

/-- `bufio.MaxScanTokenSize`: the size of the buffer of a `bufio.Scanner`. -/
def MaxScanTokenSize : Nat := 64 * 1024

/-- The `dropCR` of `bufio.ScanLines`: a line without its final `\r`. -/
def dropCR (cs : List Char) : List Char :=
  if cs.getLast? = some '\r' then cs.dropLast else cs

/-- The lines `scanner.Scan()`/`scanner.Text()` deliver for a file content with
`bufio.ScanLines` and the default buffer: the pieces between the line feeds, without
an empty piece after the last line feed, each without its final `\r`; scanning stops
at the first line that does not fit the buffer, one of `MaxScanTokenSize` bytes or
more. -/
def scanLines (content : String) : List String :=
  let lines := splitLines content
  let lines := if lines.getLast? = some "" then lines.dropLast else lines
  (lines.takeWhile (fun l => (bytesOf l).length < MaxScanTokenSize)).map
    (fun l => String.mk (dropCR l.data))

/-- The test both INI functions make on a line: its trimmed form starts with the key
followed by a space or by `=`. -/
def iniMatches (key line : String) : Bool :=
  HasPrefix (TrimSpace line) (key ++ " ") || HasPrefix (TrimSpace line) (key ++ "=")

/-- The loop of `getINIValue` over the scanned lines. -/
def getINIValueLoop (key defaultValue : String) : List String → String
  | [] => defaultValue
  | text :: rest =>
    if iniMatches key text then
      match splitEq2 (TrimSpace text) with
      | [_, v] => TrimSpace v
      | _ => getINIValueLoop key defaultValue rest
    else getINIValueLoop key defaultValue rest

/-- `getINIValue` of `php.go`; `file` is the content of the file at `path`, or the
error of opening it. -/
def getINIValue (file : Except String String) (key defaultValue : String) : String :=
  match file with
  | .error _ => defaultValue
  | .ok content => getINIValueLoop key defaultValue (scanLines content)

/-- `setINIValue` of `php.go`: the content it writes to the file, or the error of
reading it. -/
def setINIValue (file : Except String String) (key value : String) : Except String String :=
  match file with
  | .error e => .error e
  | .ok input =>
    let lines := splitLines input
    let found := lines.any (iniMatches key)
    let lines := lines.map (fun line => if iniMatches key line then key ++ " = " ++ value else line)
    let lines := if found then lines else lines ++ [key ++ " = " ++ value]
    .ok (Join lines)

/-- Go `strings.TrimSpace` at the right end only. -/
def trimRight (cs : List Char) : List Char :=
  (cs.reverse.dropWhile isSpace).reverse

/-- A value of `MaxScanTokenSize` characters `x`. -/
def longValue : String := String.mk (List.replicate MaxScanTokenSize 'x')

/-- A small INI file with a commented and an active `memory_limit`. -/
def sampleINI : String :=
  "[PHP]\n; memory_limit = 64M\n  memory_limit=128M\r\nupload_max_filesize = 2M\n"

/-! ## Theorems -/

/-! ### Store lemmas -/

@[simp] theorem storeSet_same (m : String → Option Project) (k : String) (v : Project) :
    storeSet m k v k = some v := by
  simp [storeSet]

@[simp] theorem storeSet_other (m : String → Option Project) (k j : String) (v : Project)
    (h : j ≠ k) : storeSet m k v j = m j := by
  simp [storeSet, h]

@[simp] theorem storeDelete_same (m : String → Option Project) (k : String) :
    storeDelete m k k = none := by
  simp [storeDelete]

@[simp] theorem storeDelete_other (m : String → Option Project) (k j : String)
    (h : j ≠ k) : storeDelete m k j = m j := by
  simp [storeDelete, h]

/-- The completion step does nothing when the project is no longer stored. -/
theorem deployCompletion_absent (st : State) (id : String) (t : Time)
    (h : st.projectStore id = none) : deployCompletion st id t = some st := by
  simp [deployCompletion, h]

/-! ### binary64 rounding -/

theorem log2Fuel_spec (fuel n : Nat) (h : n ≤ fuel) (hn : 0 < n) :
    2 ^ log2Fuel fuel n ≤ n ∧ n < 2 ^ (log2Fuel fuel n + 1) := by
  induction fuel generalizing n with
  | zero => omega
  | succ fuel ih =>
    unfold log2Fuel
    by_cases h2 : n < 2
    · simp only [h2, if_true]
      constructor <;> simp <;> omega
    · simp only [h2, if_false]
      have hdiv : n / 2 ≤ fuel := by omega
      have hpos : 0 < n / 2 := by omega
      obtain ⟨l, u⟩ := ih (n / 2) hdiv hpos
      rw [pow_succ] at u
      constructor
      · rw [pow_succ]; omega
      · rw [pow_succ, pow_succ]; omega

theorem floorLog2_spec (n : Nat) (hn : 0 < n) :
    2 ^ floorLog2 n ≤ n ∧ n < 2 ^ (floorLog2 n + 1) :=
  log2Fuel_spec n n (le_refl n) hn

/-- A power of two with integer exponent as a quotient of two natural powers. -/
theorem zpow_two_split (e : Int) :
    (2 : ℚ) ^ e = (2 : ℚ) ^ e.toNat / (2 : ℚ) ^ (-e).toNat := by
  rcases le_total 0 e with h | h
  · have h1 : (-e).toNat = 0 := by omega
    have h2 : ((e.toNat : Int)) = e := Int.toNat_of_nonneg h
    rw [h1, pow_zero, div_one]
    conv_lhs => rw [← h2]
    rw [zpow_natCast]
  · have h1 : e.toNat = 0 := by omega
    have h2 : (((-e).toNat : Int)) = -e := Int.toNat_of_nonneg (by omega)
    rw [h1, pow_zero, one_div, ← zpow_natCast, h2, zpow_neg, inv_inv]

theorem ilog2_spec (a b : Nat) (ha : 0 < a) (hb : 0 < b) :
    (2 : ℚ) ^ ilog2 a b ≤ (a : ℚ) / b ∧ (a : ℚ) / b < (2 : ℚ) ^ (ilog2 a b + 1) := by
  obtain ⟨la, ua⟩ := floorLog2_spec a ha
  obtain ⟨lb, ub⟩ := floorLog2_spec b hb
  have hbq : (0 : ℚ) < b := by exact_mod_cast hb
  have haq : (0 : ℚ) < a := by exact_mod_cast ha
  have la' : (2 : ℚ) ^ (floorLog2 a : Int) ≤ a := by
    rw [zpow_natCast]; exact_mod_cast la
  have ua' : (a : ℚ) < (2 : ℚ) ^ ((floorLog2 a : Int) + 1) := by
    rw [show ((floorLog2 a : Int) + 1) = ((floorLog2 a + 1 : Nat) : Int) by push_cast; rfl,
      zpow_natCast]; exact_mod_cast ua
  have lb' : (2 : ℚ) ^ (floorLog2 b : Int) ≤ b := by
    rw [zpow_natCast]; exact_mod_cast lb
  have ub' : (b : ℚ) < (2 : ℚ) ^ ((floorLog2 b : Int) + 1) := by
    rw [show ((floorLog2 b : Int) + 1) = ((floorLog2 b + 1 : Nat) : Int) by push_cast; rfl,
      zpow_natCast]; exact_mod_cast ub
  have two_pos : ∀ k : Int, (0 : ℚ) < (2 : ℚ) ^ k := fun k => zpow_pos (by norm_num) k
  -- a / b < 2 ^ (e0 + 1) and 2 ^ (e0 - 1) < a / b
  have hup : (a : ℚ) / b < (2 : ℚ) ^ ((floorLog2 a : Int) - floorLog2 b + 1) := by
    rw [div_lt_iff₀ hbq]
    calc (a : ℚ) < (2 : ℚ) ^ ((floorLog2 a : Int) + 1) := ua'
      _ = (2 : ℚ) ^ ((floorLog2 a : Int) - floorLog2 b + 1) * (2 : ℚ) ^ (floorLog2 b : Int) := by
          rw [← zpow_add₀ (by norm_num : (2 : ℚ) ≠ 0)]; congr 1; ring
      _ ≤ (2 : ℚ) ^ ((floorLog2 a : Int) - floorLog2 b + 1) * b :=
          mul_le_mul_of_nonneg_left lb' (le_of_lt (two_pos _))
  have hlow : (2 : ℚ) ^ ((floorLog2 a : Int) - floorLog2 b - 1) ≤ (a : ℚ) / b := by
    rw [le_div_iff₀ hbq]
    calc (2 : ℚ) ^ ((floorLog2 a : Int) - floorLog2 b - 1) * b
        ≤ (2 : ℚ) ^ ((floorLog2 a : Int) - floorLog2 b - 1) * (2 : ℚ) ^ ((floorLog2 b : Int) + 1) :=
          mul_le_mul_of_nonneg_left (le_of_lt ub') (le_of_lt (two_pos _))
      _ = (2 : ℚ) ^ (floorLog2 a : Int) := by
          rw [← zpow_add₀ (by norm_num : (2 : ℚ) ≠ 0)]; congr 1; ring
      _ ≤ a := la'
  unfold ilog2
  simp only
  by_cases htest : b * 2 ^ ((floorLog2 a : Int) - (floorLog2 b : Int)).toNat
      ≤ a * 2 ^ (-((floorLog2 a : Int) - (floorLog2 b : Int))).toNat
  · rw [if_pos htest]
    refine ⟨?_, hup⟩
    rw [zpow_two_split, le_div_iff₀ hbq, div_mul_eq_mul_div,
      div_le_iff₀ (pow_pos (by norm_num) _)]
    have : ((b * 2 ^ ((floorLog2 a : Int) - (floorLog2 b : Int)).toNat : Nat) : ℚ)
        ≤ ((a * 2 ^ (-((floorLog2 a : Int) - (floorLog2 b : Int))).toNat : Nat) : ℚ) := by
      exact_mod_cast htest
    push_cast at this
    linarith
  · rw [if_neg htest]
    refine ⟨hlow, ?_⟩
    rw [sub_add_cancel, zpow_two_split, div_lt_iff₀ hbq, div_mul_eq_mul_div,
      lt_div_iff₀ (pow_pos (by norm_num) _)]
    have : ((a * 2 ^ (-((floorLog2 a : Int) - (floorLog2 b : Int))).toNat : Nat) : ℚ)
        < ((b * 2 ^ ((floorLog2 a : Int) - (floorLog2 b : Int)).toNat : Nat) : ℚ) := by
      exact_mod_cast Nat.lt_of_not_le htest
    push_cast at this
    linarith

theorem roundHalfEven_floor_le (a b : Nat) : a / b ≤ roundHalfEven a b := by
  unfold roundHalfEven
  simp only
  split_ifs <;> omega

/-- Rounding to nearest moves a quotient by at most one half. -/
theorem roundHalfEven_error (a b : Nat) (hb : 0 < b) :
    |(roundHalfEven a b : ℚ) - (a : ℚ) / b| ≤ 1 / 2 := by
  have hbq : (0 : ℚ) < b := by exact_mod_cast hb
  have hdm : (a : ℚ) = (b : ℚ) * ((a / b : Nat) : ℚ) + ((a % b : Nat) : ℚ) := by
    exact_mod_cast (Nat.div_add_mod a b).symm
  have hr : a % b < b := Nat.mod_lt a hb
  have hrq : ((a % b : Nat) : ℚ) < b := by exact_mod_cast hr
  have hr0 : (0 : ℚ) ≤ ((a % b : Nat) : ℚ) := Nat.cast_nonneg _
  have hquot : (a : ℚ) / b = ((a / b : Nat) : ℚ) + ((a % b : Nat) : ℚ) / b := by
    rw [div_eq_iff (ne_of_gt hbq), add_mul, div_mul_cancel₀ _ (ne_of_gt hbq)]
    linarith
  rw [abs_le]
  unfold roundHalfEven
  simp only
  split_ifs with h1 h2 h3
  · -- remainder below one half
    have h1q : (2 : ℚ) * ((a % b : Nat) : ℚ) < b := by exact_mod_cast h1
    have : ((a % b : Nat) : ℚ) / b < 1 / 2 := by
      rw [div_lt_iff₀ hbq]; linarith
    have : (0 : ℚ) ≤ ((a % b : Nat) : ℚ) / b := div_nonneg hr0 (le_of_lt hbq)
    rw [hquot]; constructor <;> linarith
  · have h2q : (b : ℚ) < 2 * ((a % b : Nat) : ℚ) := by exact_mod_cast h2
    have : 1 / 2 < ((a % b : Nat) : ℚ) / b := by
      rw [lt_div_iff₀ hbq]; linarith
    have : ((a % b : Nat) : ℚ) / b < 1 := by
      rw [div_lt_iff₀ hbq]; linarith
    rw [hquot]; push_cast; constructor <;> linarith
  · have heq : 2 * (a % b) = b := by omega
    have heqq : (2 : ℚ) * ((a % b : Nat) : ℚ) = b := by exact_mod_cast heq
    have : ((a % b : Nat) : ℚ) / b = 1 / 2 := by
      rw [div_eq_iff (ne_of_gt hbq)]; linarith
    rw [hquot]; constructor <;> linarith
  · have heq : 2 * (a % b) = b := by omega
    have heqq : (2 : ℚ) * ((a % b : Nat) : ℚ) = b := by exact_mod_cast heq
    have : ((a % b : Nat) : ℚ) / b = 1 / 2 := by
      rw [div_eq_iff (ne_of_gt hbq)]; linarith
    rw [hquot]; push_cast; constructor <;> linarith

namespace F64

theorem toRat_zero : toRat zero = 0 := by simp [toRat, zero]

/-- The value of a rounded positive ratio: the rounded significand times the quantum. -/
theorem toRat_ofRatio_pos (a b : Nat) (ha : 0 < a) :
    toRat (ofRatio false a b) =
      (roundHalfEven (a * 2 ^ (-(quantum a b)).toNat) (b * 2 ^ (quantum a b).toNat) : ℚ)
        * (2 : ℚ) ^ quantum a b := by
  have : a ≠ 0 := by omega
  simp [ofRatio, this, toRat]

/-- Rounding into binary64 moves a positive ratio by at most half a quantum. -/
theorem ofRatio_abs_error (a b : Nat) (ha : 0 < a) (hb : 0 < b) :
    |toRat (ofRatio false a b) - (a : ℚ) / b| ≤ (2 : ℚ) ^ quantum a b / 2 := by
  rw [toRat_ofRatio_pos a b ha]
  set s := quantum a b with hs
  have hpos : (0 : ℚ) < (2 : ℚ) ^ s := zpow_pos (by norm_num) s
  have hB : 0 < b * 2 ^ s.toNat := Nat.mul_pos hb (pow_pos (by norm_num) _)
  have herr := roundHalfEven_error (a * 2 ^ (-s).toNat) (b * 2 ^ s.toNat) hB
  have hbq : (0 : ℚ) < b := by exact_mod_cast hb
  have hquot : (((a * 2 ^ (-s).toNat : Nat) : ℚ)) / ((b * 2 ^ s.toNat : Nat) : ℚ)
      = (a : ℚ) / b / (2 : ℚ) ^ s := by
    rw [zpow_two_split s]
    push_cast
    field_simp
  rw [hquot] at herr
  have key : (roundHalfEven (a * 2 ^ (-s).toNat) (b * 2 ^ s.toNat) : ℚ) * (2 : ℚ) ^ s
      - (a : ℚ) / b
      = ((roundHalfEven (a * 2 ^ (-s).toNat) (b * 2 ^ s.toNat) : ℚ)
          - (a : ℚ) / b / (2 : ℚ) ^ s) * (2 : ℚ) ^ s := by
    rw [sub_mul, div_mul_cancel₀ _ (ne_of_gt hpos)]
  rw [key, abs_mul, abs_of_pos hpos]
  calc |(roundHalfEven (a * 2 ^ (-s).toNat) (b * 2 ^ s.toNat) : ℚ)
          - (a : ℚ) / b / (2 : ℚ) ^ s| * (2 : ℚ) ^ s
      ≤ 1 / 2 * (2 : ℚ) ^ s := mul_le_mul_of_nonneg_right herr (le_of_lt hpos)
    _ = (2 : ℚ) ^ s / 2 := by ring

/-- The unit roundoff of binary64. -/
theorem ofRatio_rel_error (a b : Nat) (ha : 0 < a) (hb : 0 < b)
    (hlo : (2 : ℚ) ^ (-1022 : Int) ≤ (a : ℚ) / b) :
    |toRat (ofRatio false a b) - (a : ℚ) / b| ≤ (a : ℚ) / b / 2 ^ 53 := by
  obtain ⟨hl, hu⟩ := ilog2_spec a b ha hb
  have he : (-1022 : Int) ≤ ilog2 a b := by
    have h1 : (2 : ℚ) ^ (-1022 : Int) < (2 : ℚ) ^ (ilog2 a b + 1) := lt_of_le_of_lt hlo hu
    have := (zpow_lt_zpow_iff_right₀ (by norm_num : (1 : ℚ) < 2)).mp h1
    omega
  have hq : quantum a b = ilog2 a b - 52 := by
    unfold quantum; omega
  have habs := ofRatio_abs_error a b ha hb
  rw [hq] at habs
  calc |toRat (ofRatio false a b) - (a : ℚ) / b|
      ≤ (2 : ℚ) ^ (ilog2 a b - 52) / 2 := habs
    _ = (2 : ℚ) ^ ilog2 a b / 2 ^ 53 := by
        rw [zpow_sub₀ (by norm_num : (2 : ℚ) ≠ 0)]
        norm_num
        ring
    _ ≤ (a : ℚ) / b / 2 ^ 53 := by
        apply div_le_div_of_nonneg_right hl
        positivity

theorem toRat_pos_iff (x : F64) : 0 < toRat x ↔ 0 < x.mant := by
  unfold toRat
  have hp : (0 : ℚ) < (2 : ℚ) ^ x.exp := zpow_pos (by norm_num) _
  constructor
  · intro h
    have : (0 : ℚ) < (x.mant : ℚ) := by
      by_contra hc
      push_neg at hc
      have := mul_nonpos_of_nonpos_of_nonneg hc (le_of_lt hp)
      linarith
    exact_mod_cast this
  · intro h
    have : (0 : ℚ) < (x.mant : ℚ) := by exact_mod_cast h
    exact mul_pos this hp

theorem ofRatio_mant_nonneg (a b : Nat) : 0 ≤ (ofRatio false a b).mant := by
  unfold ofRatio
  by_cases h : a = 0
  · simp [h, zero]
  · simp [h]

theorem ofRatio_zero (neg : Bool) (b : Nat) : ofRatio neg 0 b = zero := by
  simp [ofRatio]

/-- Relative form of the rounding error, with the sign of the result. -/
theorem ofRatio_rounds (a b : Nat) (ha : 0 < a) (hb : 0 < b)
    (hlo : (2 : ℚ) ^ (-1022 : Int) ≤ (a : ℚ) / b) :
    (1 - 1 / 2 ^ 53) * ((a : ℚ) / b) ≤ toRat (ofRatio false a b) ∧
    toRat (ofRatio false a b) ≤ (1 + 1 / 2 ^ 53) * ((a : ℚ) / b) ∧
    0 < (ofRatio false a b).mant := by
  have h := ofRatio_rel_error a b ha hb hlo
  rw [abs_le] at h
  have hq : (0 : ℚ) < (a : ℚ) / b := by
    have : (0 : ℚ) < a := by exact_mod_cast ha
    have : (0 : ℚ) < b := by exact_mod_cast hb
    positivity
  have h1 : (1 - 1 / 2 ^ 53) * ((a : ℚ) / b) ≤ toRat (ofRatio false a b) := by
    have : (1 - 1 / 2 ^ 53) * ((a : ℚ) / b) = (a : ℚ) / b - (a : ℚ) / b / 2 ^ 53 := by ring
    linarith [h.1]
  refine ⟨h1, ?_, ?_⟩
  · have : (1 + 1 / 2 ^ 53) * ((a : ℚ) / b) = (a : ℚ) / b + (a : ℚ) / b / 2 ^ 53 := by ring
    linarith [h.2]
  · rw [← toRat_pos_iff]
    have : (0 : ℚ) < (1 - 1 / 2 ^ 53) * ((a : ℚ) / b) := by
      apply mul_pos _ hq
      norm_num
    linarith

/-- A quotient of non-negative binary64 values is the rounding of a ratio of naturals
that equals the exact quotient. -/
theorem div_eq_ofRatio (x y : F64) (hx : 0 ≤ x.mant) (hy : 0 < y.mant) :
    ∃ A B : Nat, div x y = ofRatio false A B ∧ 0 < B ∧
      (A : ℚ) / B = toRat x / toRat y ∧ (0 < x.mant → 0 < A) ∧ (x.mant = 0 → A = 0) := by
  refine ⟨x.mant.natAbs * 2 ^ (x.exp - y.exp).toNat,
    y.mant.natAbs * 2 ^ (y.exp - x.exp).toNat, ?_, ?_, ?_, ?_, ?_⟩
  · have h1 : ¬ x.mant < 0 := by omega
    have h2 : ¬ y.mant < 0 := by omega
    simp [div, signXor, h1, h2]
  · apply Nat.mul_pos _ (pow_pos (by norm_num) _)
    omega
  · have hxm : ((x.mant.natAbs : Nat) : ℚ) = (x.mant : ℚ) := by
      rw [Nat.cast_natAbs, abs_of_nonneg hx]
    have hym : ((y.mant.natAbs : Nat) : ℚ) = (y.mant : ℚ) := by
      rw [Nat.cast_natAbs, abs_of_nonneg (le_of_lt hy)]
    have hy0 : (y.mant : ℚ) ≠ 0 := by
      have : (0 : ℚ) < (y.mant : ℚ) := by exact_mod_cast hy
      exact ne_of_gt this
    have hsplit := zpow_two_split (x.exp - y.exp)
    rw [neg_sub] at hsplit
    have hsub : (2 : ℚ) ^ (x.exp - y.exp) = (2 : ℚ) ^ x.exp / (2 : ℚ) ^ y.exp :=
      zpow_sub₀ (by norm_num) _ _
    have hpy : (2 : ℚ) ^ y.exp ≠ 0 := ne_of_gt (zpow_pos (by norm_num) _)
    have hpd : (2 : ℚ) ^ (y.exp - x.exp).toNat ≠ 0 := ne_of_gt (pow_pos (by norm_num) _)
    unfold toRat
    push_cast
    rw [hxm, hym]
    have : (x.mant : ℚ) * 2 ^ (x.exp - y.exp).toNat / ((y.mant : ℚ) * 2 ^ (y.exp - x.exp).toNat)
        = (x.mant : ℚ) / y.mant * ((2 : ℚ) ^ (x.exp - y.exp).toNat / 2 ^ (y.exp - x.exp).toNat) := by
      field_simp
    rw [this, ← hsplit, hsub]
    field_simp
  · intro h
    apply Nat.mul_pos _ (pow_pos (by norm_num) _)
    omega
  · intro h
    simp [h]

/-- A product of non-negative binary64 values is the rounding of a ratio of naturals
that equals the exact product. -/
theorem mul_eq_ofRatio (x y : F64) (hx : 0 ≤ x.mant) (hy : 0 ≤ y.mant) :
    ∃ A B : Nat, mul x y = ofRatio false A B ∧ 0 < B ∧
      (A : ℚ) / B = toRat x * toRat y ∧
      (0 < x.mant → 0 < y.mant → 0 < A) ∧ (x.mant = 0 ∨ y.mant = 0 → A = 0) := by
  refine ⟨x.mant.natAbs * y.mant.natAbs * 2 ^ (x.exp + y.exp).toNat,
    2 ^ (-(x.exp + y.exp)).toNat, ?_, ?_, ?_, ?_, ?_⟩
  · have h1 : ¬ x.mant < 0 := by omega
    have h2 : ¬ y.mant < 0 := by omega
    simp [mul, signXor, h1, h2]
  · exact pow_pos (by norm_num) _
  · have hxm : ((x.mant.natAbs : Nat) : ℚ) = (x.mant : ℚ) := by
      rw [Nat.cast_natAbs, abs_of_nonneg hx]
    have hym : ((y.mant.natAbs : Nat) : ℚ) = (y.mant : ℚ) := by
      rw [Nat.cast_natAbs, abs_of_nonneg hy]
    have hsplit := zpow_two_split (x.exp + y.exp)
    have hadd : (2 : ℚ) ^ (x.exp + y.exp) = (2 : ℚ) ^ x.exp * (2 : ℚ) ^ y.exp :=
      zpow_add₀ (by norm_num) _ _
    unfold toRat
    push_cast
    rw [hxm, hym, mul_div_assoc, ← hsplit, hadd]
    ring
  · intro h1 h2
    apply Nat.mul_pos (Nat.mul_pos _ _) (pow_pos (by norm_num) _) <;> omega
  · intro h
    rcases h with h | h <;> simp [h]

theorem tiny_le : (2 : ℚ) ^ (-1022 : Int) ≤ 1 / 2 ^ 70 := by
  rw [zpow_neg, ← one_div]
  apply one_div_le_one_div_of_le (by positivity)
  rw [show (1022 : Int) = ((1022 : Nat) : Int) by rfl, zpow_natCast]
  exact pow_le_pow_right₀ (by norm_num) (by norm_num)

theorem ofNat_rounds (n : Nat) (hn : 0 < n) :
    (1 - 1 / 2 ^ 53) * (n : ℚ) ≤ toRat (ofNat n) ∧
    toRat (ofNat n) ≤ (1 + 1 / 2 ^ 53) * (n : ℚ) ∧ 0 < (ofNat n).mant := by
  have h1 : (1 : ℚ) ≤ (n : ℚ) := by exact_mod_cast hn
  have hlo : (2 : ℚ) ^ (-1022 : Int) ≤ ((n : ℚ)) / ((1 : Nat) : ℚ) := by
    have := tiny_le
    have h70 : (1 : ℚ) / 2 ^ 70 ≤ 1 := by norm_num
    rw [Nat.cast_one, div_one]
    exact le_trans this (le_trans h70 h1)
  have := ofRatio_rounds n 1 hn (by norm_num) hlo
  simpa [ofNat] using this

theorem div_rounds (x y : F64) (hx : 0 < x.mant) (hy : 0 < y.mant)
    (hlo : (2 : ℚ) ^ (-1022 : Int) ≤ toRat x / toRat y) :
    (1 - 1 / 2 ^ 53) * (toRat x / toRat y) ≤ toRat (div x y) ∧
    toRat (div x y) ≤ (1 + 1 / 2 ^ 53) * (toRat x / toRat y) ∧ 0 < (div x y).mant := by
  obtain ⟨A, B, hd, hB, hq, hA, -⟩ := div_eq_ofRatio x y (le_of_lt hx) hy
  rw [hd, ← hq]
  rw [← hq] at hlo
  exact ofRatio_rounds A B (hA hx) hB hlo

theorem mul_rounds (x y : F64) (hx : 0 < x.mant) (hy : 0 < y.mant)
    (hlo : (2 : ℚ) ^ (-1022 : Int) ≤ toRat x * toRat y) :
    (1 - 1 / 2 ^ 53) * (toRat x * toRat y) ≤ toRat (mul x y) ∧
    toRat (mul x y) ≤ (1 + 1 / 2 ^ 53) * (toRat x * toRat y) ∧ 0 < (mul x y).mant := by
  obtain ⟨A, B, hd, hB, hq, hA, -⟩ := mul_eq_ofRatio x y (le_of_lt hx) (le_of_lt hy)
  rw [hd, ← hq]
  rw [← hq] at hlo
  exact ofRatio_rounds A B (hA hx hy) hB hlo

theorem div_zero_left (x y : F64) (hx : x.mant = 0) (hy : 0 < y.mant) : div x y = zero := by
  obtain ⟨A, B, hd, -, -, -, hA⟩ := div_eq_ofRatio x y (le_of_eq hx.symm) hy
  rw [hd, hA hx, ofRatio_zero]

theorem mul_zero_left (x y : F64) (hx : x.mant = 0) (hy : 0 ≤ y.mant) : mul x y = zero := by
  obtain ⟨A, B, hd, -, -, -, hA⟩ := mul_eq_ofRatio x y (le_of_eq hx.symm) hy
  rw [hd, hA (Or.inl hx), ofRatio_zero]

theorem mul_zero_right (x y : F64) (hx : 0 ≤ x.mant) (hy : y.mant = 0) : mul x y = zero := by
  obtain ⟨A, B, hd, -, -, -, hA⟩ := mul_eq_ofRatio x y hx (le_of_eq hy.symm)
  rw [hd, hA (Or.inr hy), ofRatio_zero]

set_option maxRecDepth 100000 in
theorem ofNat_hundred : ofNat 100 = ⟨7036874417766400, -46⟩ := by decide

theorem toRat_hundred : toRat (ofNat 100) = 100 := by
  rw [ofNat_hundred]
  norm_num [toRat]

end F64

/-! ### Interval bookkeeping for chains of roundings -/

theorem within_mul {l1 h1 X x l2 h2 Y y : ℚ}
    (hx : l1 * X ≤ x ∧ x ≤ h1 * X) (hy : l2 * Y ≤ y ∧ y ≤ h2 * Y)
    (hl1 : 0 ≤ l1) (hl2 : 0 ≤ l2) (hX : 0 ≤ X) (hY : 0 ≤ Y) :
    l1 * l2 * (X * Y) ≤ x * y ∧ x * y ≤ h1 * h2 * (X * Y) := by
  have hx0 : 0 ≤ x := le_trans (mul_nonneg hl1 hX) hx.1
  have hy0 : 0 ≤ y := le_trans (mul_nonneg hl2 hY) hy.1
  constructor
  · calc l1 * l2 * (X * Y) = l1 * X * (l2 * Y) := by ring
      _ ≤ x * y := mul_le_mul hx.1 hy.1 (mul_nonneg hl2 hY) hx0
  · calc x * y ≤ h1 * X * (h2 * Y) :=
          mul_le_mul hx.2 hy.2 hy0 (le_trans hx0 hx.2)
      _ = h1 * h2 * (X * Y) := by ring

theorem within_div {l1 h1 X x l2 h2 Y y : ℚ}
    (hx : l1 * X ≤ x ∧ x ≤ h1 * X) (hy : l2 * Y ≤ y ∧ y ≤ h2 * Y)
    (hl1 : 0 ≤ l1) (hl2 : 0 < l2) (hh2 : 0 < h2) (hX : 0 ≤ X) (hY : 0 < Y) :
    l1 / h2 * (X / Y) ≤ x / y ∧ x / y ≤ h1 / l2 * (X / Y) := by
  have hx0 : 0 ≤ x := le_trans (mul_nonneg hl1 hX) hx.1
  have hy0 : 0 < y := lt_of_lt_of_le (mul_pos hl2 hY) hy.1
  constructor
  · calc l1 / h2 * (X / Y) = l1 * X / (h2 * Y) := by field_simp
      _ ≤ x / y := div_le_div₀ hx0 hx.1 hy0 hy.2
  · calc x / y ≤ h1 * X / (l2 * Y) :=
          div_le_div₀ (le_trans hx0 hx.2) hx.2 (mul_pos hl2 hY) hy.1
      _ = h1 / l2 * (X / Y) := by field_simp

theorem within_round {lo hi X q r : ℚ}
    (hq : lo * X ≤ q ∧ q ≤ hi * X)
    (hr : (1 - 1 / 2 ^ 53) * q ≤ r ∧ r ≤ (1 + 1 / 2 ^ 53) * q) :
    (1 - 1 / 2 ^ 53) * lo * X ≤ r ∧ r ≤ (1 + 1 / 2 ^ 53) * hi * X := by
  constructor
  · calc (1 - 1 / 2 ^ 53) * lo * X = (1 - 1 / 2 ^ 53) * (lo * X) := by ring
      _ ≤ (1 - 1 / 2 ^ 53) * q := mul_le_mul_of_nonneg_left hq.1 (by norm_num)
      _ ≤ r := hr.1
  · calc r ≤ (1 + 1 / 2 ^ 53) * q := hr.2
      _ ≤ (1 + 1 / 2 ^ 53) * (hi * X) := mul_le_mul_of_nonneg_left hq.2 (by norm_num)
      _ = (1 + 1 / 2 ^ 53) * hi * X := by ring

section Float

open F64

theorem u64Sub_of_le (a b : Nat) (ha : a < 2 ^ 64) (hb : b ≤ a) : u64Sub a b = a - b := by
  unfold u64Sub
  have h1 : b % 2 ^ 64 = b := Nat.mod_eq_of_lt (by omega)
  rw [h1]
  have h2 : a + (2 ^ 64 - b) = (a - b) + 2 ^ 64 := by omega
  rw [h2, Nat.add_mod_right]
  exact Nat.mod_eq_of_lt (by omega)

theorem range_ok {lo X q : ℚ} (h : lo * X ≤ q) (hlo : 1 / 2 ≤ lo) (hX : 1 / 2 ^ 64 ≤ X) :
    (2 : ℚ) ^ (-1022 : Int) ≤ q := by
  have h1 : (1 : ℚ) / 2 ^ 70 ≤ 1 / 2 * (1 / 2 ^ 64) := by norm_num
  have h2 : (1 : ℚ) / 2 * (1 / 2 ^ 64) ≤ lo * X :=
    mul_le_mul hlo hX (by norm_num) (le_trans (by norm_num) hlo)
  exact le_trans tiny_le (le_trans h1 (le_trans h2 h))

theorem F64.ofNat_mant_nonneg (n : Nat) : 0 ≤ (ofNat n).mant := ofRatio_mant_nonneg n 1

/-- The chain of roundings of `(cpuDelta / systemDelta) * n * 100`. -/
theorem cpu_chain (c sd n : Nat) (hsd : 0 < sd) (hsd64 : sd < 2 ^ 64) :
    |toRat (mul (mul (div (ofNat c) (ofNat sd)) (ofNat n)) (ofNat 100))
        - (c : ℚ) / sd * n * 100| ≤ (c : ℚ) / sd * n * 100 / 2 ^ 50 := by
  obtain ⟨hS1, hS2, hSpos⟩ := ofNat_rounds sd hsd
  have hsdq : (0 : ℚ) < sd := by exact_mod_cast hsd
  rcases Nat.eq_zero_or_pos c with hc | hc
  · subst hc
    have h0 : ofNat 0 = zero := ofRatio_zero _ _
    rw [h0, div_zero_left zero _ rfl hSpos, mul_zero_left zero _ rfl (ofNat_mant_nonneg _),
      mul_zero_left zero _ rfl (ofNat_mant_nonneg _), toRat_zero]
    simp
  rcases Nat.eq_zero_or_pos n with hn | hn
  · subst hn
    have h0 : ofNat 0 = zero := ofRatio_zero _ _
    obtain ⟨A, B, hd, -⟩ := div_eq_ofRatio (ofNat c) (ofNat sd) (ofNat_mant_nonneg _) hSpos
    rw [h0, mul_zero_right _ zero (by rw [hd]; exact ofRatio_mant_nonneg _ _) rfl,
      mul_zero_left zero _ rfl (ofNat_mant_nonneg _), toRat_zero]
    simp
  obtain ⟨hC1, hC2, hCpos⟩ := ofNat_rounds c hc
  obtain ⟨hN1, hN2, hNpos⟩ := ofNat_rounds n hn
  have hcq : (1 : ℚ) ≤ c := by exact_mod_cast hc
  have hnq : (1 : ℚ) ≤ n := by exact_mod_cast hn
  have hsdle : (sd : ℚ) ≤ 2 ^ 64 := by exact_mod_cast (le_of_lt hsd64)
  have hX1 : (1 : ℚ) / 2 ^ 64 ≤ (c : ℚ) / sd := by
    exact div_le_div₀ (le_trans zero_le_one hcq) hcq hsdq hsdle
  have hX1' : (0 : ℚ) ≤ (c : ℚ) / sd := by positivity
  -- the quotient
  have hq1 := within_div (X := (c : ℚ)) (Y := (sd : ℚ)) ⟨hC1, hC2⟩ ⟨hS1, hS2⟩
    (by norm_num) (by norm_num) (by norm_num) (by positivity) hsdq
  obtain ⟨hD1, hD2, hDpos⟩ := div_rounds (ofNat c) (ofNat sd) hCpos hSpos
    (range_ok hq1.1 (by norm_num) hX1)
  have hD := within_round hq1 ⟨hD1, hD2⟩
  -- times the number of cores
  have hq2 := within_mul hD ⟨hN1, hN2⟩ (by norm_num) (by norm_num) hX1' (by positivity)
  have hX2 : (1 : ℚ) / 2 ^ 64 ≤ (c : ℚ) / sd * n :=
    le_trans hX1 (le_mul_of_one_le_right hX1' hnq)
  obtain ⟨hP1, hP2, hPpos⟩ := mul_rounds _ (ofNat n) hDpos hNpos
    (range_ok hq2.1 (by norm_num) hX2)
  have hP := within_round hq2 ⟨hP1, hP2⟩
  -- times one hundred
  have hH : (1 : ℚ) * 100 ≤ toRat (ofNat 100) ∧ toRat (ofNat 100) ≤ 1 * 100 := by
    rw [toRat_hundred]; norm_num
  have hHpos : 0 < (ofNat 100).mant := by rw [ofNat_hundred]; norm_num
  have hq3 := within_mul hP hH (by norm_num) (by norm_num) (by positivity) (by norm_num)
  have hX3 : (1 : ℚ) / 2 ^ 64 ≤ (c : ℚ) / sd * n * 100 :=
    le_trans hX2 (le_mul_of_one_le_right (le_trans (by norm_num) hX2) (by norm_num))
  obtain ⟨hR1, hR2, -⟩ := mul_rounds _ (ofNat 100) hPpos hHpos
    (range_ok hq3.1 (by norm_num) hX3)
  have hR := within_round hq3 ⟨hR1, hR2⟩
  have hX0 : (0 : ℚ) ≤ (c : ℚ) / sd * n * 100 := by positivity
  have hlo : (1 - 1 / 2 ^ 50) * ((c : ℚ) / sd * n * 100)
      ≤ toRat (mul (mul (div (ofNat c) (ofNat sd)) (ofNat n)) (ofNat 100)) :=
    le_trans (mul_le_mul_of_nonneg_right (by norm_num) hX0) hR.1
  have hhi : toRat (mul (mul (div (ofNat c) (ofNat sd)) (ofNat n)) (ofNat 100))
      ≤ (1 + 1 / 2 ^ 50) * ((c : ℚ) / sd * n * 100) :=
    le_trans hR.2 (mul_le_mul_of_nonneg_right (by norm_num) hX0)
  generalize toRat (mul (mul (div (ofNat c) (ofNat sd)) (ofNat n)) (ofNat 100)) = r at hlo hhi ⊢
  generalize (c : ℚ) / sd * n * 100 = X at hlo hhi ⊢
  rw [abs_le]
  constructor <;> linarith

namespace F64

/-- The quantum of a ratio below `2 ^ t`. -/
theorem quantum_le (a b : Nat) (ha : 0 < a) (hb : 0 < b) (t : Int)
    (h : (a : ℚ) / b < (2 : ℚ) ^ t) : quantum a b ≤ max (t - 53) (-1074) := by
  obtain ⟨hl, -⟩ := ilog2_spec a b ha hb
  have h1 : (2 : ℚ) ^ ilog2 a b < (2 : ℚ) ^ t := lt_of_le_of_lt hl h
  have := (zpow_lt_zpow_iff_right₀ (by norm_num : (1 : ℚ) < 2)).mp h1
  unfold quantum
  omega

/-- Rounding never goes below a natural number that the exact value reaches, when the
quantum is at most one. -/
theorem ofRatio_ge_nat (a b k : Nat) (ha : 0 < a) (hb : 0 < b) (hk : k * b ≤ a)
    (hs : quantum a b ≤ 0) : (k : ℚ) ≤ toRat (ofRatio false a b) := by
  rw [toRat_ofRatio_pos a b ha]
  set s := quantum a b with hsdef
  have h0 : s.toNat = 0 := by omega
  rw [h0, pow_zero, Nat.mul_one]
  have hfl := roundHalfEven_floor_le (a * 2 ^ (-s).toNat) b
  have hdiv : k * 2 ^ (-s).toNat ≤ a * 2 ^ (-s).toNat / b := by
    rw [Nat.le_div_iff_mul_le hb]
    calc k * 2 ^ (-s).toNat * b = k * b * 2 ^ (-s).toNat := by ring
      _ ≤ a * 2 ^ (-s).toNat := Nat.mul_le_mul_right _ hk
  have hm : ((k * 2 ^ (-s).toNat : Nat) : ℚ)
      ≤ (roundHalfEven (a * 2 ^ (-s).toNat) b : ℚ) := by
    exact_mod_cast le_trans hdiv hfl
  have hsplit := zpow_two_split s
  rw [h0, pow_zero, one_div] at hsplit
  have hpos : (0 : ℚ) < (2 : ℚ) ^ (-s).toNat := pow_pos (by norm_num) _
  calc (k : ℚ) = ((k * 2 ^ (-s).toNat : Nat) : ℚ) * (2 : ℚ) ^ s := by
        rw [hsplit]; push_cast; field_simp
    _ ≤ (roundHalfEven (a * 2 ^ (-s).toNat) b : ℚ) * (2 : ℚ) ^ s :=
        mul_le_mul_of_nonneg_right hm (le_of_lt (zpow_pos (by norm_num) _))

/-- Integers below `2 ^ 53` convert to binary64 without rounding. -/
theorem toRat_ofNat_exact (k : Nat) (hk : k < 2 ^ 53) : toRat (ofNat k) = k := by
  rcases Nat.eq_zero_or_pos k with h | h
  · subst h
    rw [show ofNat 0 = zero from ofRatio_zero _ _, toRat_zero]; simp
  have hkq : ((k : ℚ)) / ((1 : Nat) : ℚ) < (2 : ℚ) ^ (53 : Int) := by
    rw [Nat.cast_one, div_one]
    rw [show (53 : Int) = ((53 : Nat) : Int) by rfl, zpow_natCast]
    exact_mod_cast hk
  have hs : quantum k 1 ≤ 0 := by
    have := quantum_le k 1 h (by norm_num) 53 hkq
    omega
  apply le_antisymm
  · -- the rounded value is an integer multiple that cannot exceed k
    unfold ofNat
    rw [toRat_ofRatio_pos k 1 h]
    set s := quantum k 1 with hsdef
    have h0 : s.toNat = 0 := by omega
    have hr : roundHalfEven (k * 2 ^ (-s).toNat) (1 * 2 ^ s.toNat) = k * 2 ^ (-s).toNat := by
      rw [h0]
      unfold roundHalfEven
      simp [Nat.mod_one]
    rw [hr]
    have hsplit := zpow_two_split s
    rw [h0, pow_zero, one_div] at hsplit
    have hpos : (0 : ℚ) < (2 : ℚ) ^ (-s).toNat := pow_pos (by norm_num) _
    rw [hsplit]; push_cast; field_simp
  · have := ofRatio_ge_nat k 1 k h (by norm_num) (by simp) hs
    simpa [ofNat] using this

/-- A sum of non-negative binary64 values is the rounding of a ratio of naturals that
equals the exact sum. -/
theorem add_eq_ofRatio (x y : F64) (hx : 0 ≤ x.mant) (hy : 0 ≤ y.mant) :
    ∃ A B : Nat, add x y = ofRatio false A B ∧ 0 < B ∧
      (A : ℚ) / B = toRat x + toRat y := by
  have hm : 0 ≤ x.mant * 2 ^ (x.exp - min x.exp y.exp).toNat
      + y.mant * 2 ^ (y.exp - min x.exp y.exp).toNat := by positivity
  refine ⟨(x.mant * 2 ^ (x.exp - min x.exp y.exp).toNat
      + y.mant * 2 ^ (y.exp - min x.exp y.exp).toNat).natAbs * 2 ^ (min x.exp y.exp).toNat,
    2 ^ (-(min x.exp y.exp)).toNat, ?_, pow_pos (by norm_num) _, ?_⟩
  · have h1 : ¬ (x.mant * 2 ^ (x.exp - min x.exp y.exp).toNat
        + y.mant * 2 ^ (y.exp - min x.exp y.exp).toNat < 0) := by omega
    simp [add, h1]
  · set e := min x.exp y.exp with he
    have hcast : (((x.mant * 2 ^ (x.exp - e).toNat + y.mant * 2 ^ (y.exp - e).toNat).natAbs
        : Nat) : ℚ) = (x.mant : ℚ) * 2 ^ (x.exp - e).toNat + (y.mant : ℚ) * 2 ^ (y.exp - e).toNat := by
      rw [Nat.cast_natAbs, abs_of_nonneg hm]; push_cast; rfl
    have hsplit := zpow_two_split e
    have hxe : (2 : ℚ) ^ (x.exp - e).toNat * (2 : ℚ) ^ e = (2 : ℚ) ^ x.exp := by
      rw [← zpow_natCast, Int.toNat_of_nonneg (by omega), ← zpow_add₀ (by norm_num)]
      congr 1; ring
    have hye : (2 : ℚ) ^ (y.exp - e).toNat * (2 : ℚ) ^ e = (2 : ℚ) ^ y.exp := by
      rw [← zpow_natCast, Int.toNat_of_nonneg (by omega), ← zpow_add₀ (by norm_num)]
      congr 1; ring
    unfold toRat
    push_cast
    rw [hcast, mul_div_assoc, ← hsplit, add_mul, mul_assoc, mul_assoc, hxe, hye]

/-- Truncation of a non-negative binary64 value lying in `[k, k + 1)`. -/
theorem toInt64_eq (z : F64) (hz : 0 ≤ z.mant) (k : Nat) (h1 : (k : ℚ) ≤ toRat z)
    (h2 : toRat z < (k : ℚ) + 1) : toInt64 z = k := by
  obtain ⟨m, hm⟩ := Int.eq_ofNat_of_zero_le hz
  unfold toInt64
  unfold toRat at h1 h2
  rw [hm] at h1 h2 ⊢
  have hsplit := zpow_two_split z.exp
  by_cases he : 0 ≤ z.exp
  · rw [if_pos he]
    have h0 : (-z.exp).toNat = 0 := by omega
    rw [h0, pow_zero, div_one] at hsplit
    rw [hsplit] at h1 h2
    have h1' : k ≤ m * 2 ^ z.exp.toNat := by exact_mod_cast h1
    have h2' : m * 2 ^ z.exp.toNat < k + 1 := by exact_mod_cast h2
    have : m * 2 ^ z.exp.toNat = k := by omega
    exact_mod_cast this
  · rw [if_neg he]
    have h0 : z.exp.toNat = 0 := by omega
    rw [h0, pow_zero, one_div] at hsplit
    rw [hsplit] at h1 h2
    have hpos : (0 : ℚ) < (2 : ℚ) ^ (-z.exp).toNat := pow_pos (by norm_num) _
    have h1' : k * 2 ^ (-z.exp).toNat ≤ m := by
      have : (k : ℚ) * (2 : ℚ) ^ (-z.exp).toNat ≤ m := by
        rw [← div_eq_mul_inv, le_div_iff₀ hpos] at h1; exact h1
      exact_mod_cast this
    have h2' : m < (k + 1) * 2 ^ (-z.exp).toNat := by
      have : (m : ℚ) < ((k : ℚ) + 1) * (2 : ℚ) ^ (-z.exp).toNat := by
        rw [← div_eq_mul_inv, div_lt_iff₀ hpos] at h2; exact h2
      exact_mod_cast this
    have hdiv : m / 2 ^ (-z.exp).toNat = k := by
      apply Nat.div_eq_of_lt_le
      · exact h1'
      · exact h2'
    rw [show ((2 : Int) ^ (-z.exp).toNat) = (((2 ^ (-z.exp).toNat : Nat)) : Int) by push_cast; rfl,
      ← Int.ofNat_tdiv, hdiv]

theorem ofInt_natCast (n : Nat) : ofInt (n : Int) = ofNat n := by
  have h : ¬ ((n : Int) < 0) := by omega
  simp [ofInt, ofNat, h]

theorem div_mant_nonneg (x y : F64) (hx : 0 ≤ x.mant) (hy : 0 < y.mant) :
    0 ≤ (div x y).mant := by
  obtain ⟨A, B, hd, -⟩ := div_eq_ofRatio x y hx hy
  rw [hd]; exact ofRatio_mant_nonneg A B

end F64

/-! ### Duration in whole seconds -/

/-- The fraction `float64(nsec) / 1e9` of `Duration.Seconds` is non-negative and stays
below one by more than `2 ^ (-30)`. -/
theorem nsec_fraction (nsec : Nat) (h : nsec < 1000000000) :
    0 ≤ (div (ofNat nsec) (ofNat 1000000000)).mant ∧
    0 ≤ toRat (div (ofNat nsec) (ofNat 1000000000)) ∧
    toRat (div (ofNat nsec) (ofNat 1000000000)) + 1 / 2 ^ 30 < 1 := by
  have hE : toRat (ofNat 1000000000) = 1000000000 := by
    have := toRat_ofNat_exact 1000000000 (by norm_num)
    simpa using this
  have hEpos : 0 < (ofNat 1000000000).mant := (ofNat_rounds 1000000000 (by norm_num)).2.2
  have hN : toRat (ofNat nsec) = nsec :=
    toRat_ofNat_exact nsec (lt_trans h (by norm_num))
  rcases Nat.eq_zero_or_pos nsec with h0 | h0
  · subst h0
    rw [show ofNat 0 = zero from ofRatio_zero _ _, div_zero_left zero _ rfl hEpos, toRat_zero]
    refine ⟨by simp [zero], le_refl _, by norm_num⟩
  · have hNpos : 0 < (ofNat nsec).mant := (ofNat_rounds nsec h0).2.2
    have hq : toRat (ofNat nsec) / toRat (ofNat 1000000000) = (nsec : ℚ) / 1000000000 := by
      rw [hN, hE]
    have h1 : (1 : ℚ) ≤ nsec := by exact_mod_cast h0
    have h2 : (nsec : ℚ) ≤ 999999999 := by exact_mod_cast (Nat.le_of_lt_succ h)
    have hlo : (2 : ℚ) ^ (-1022 : Int) ≤ toRat (ofNat nsec) / toRat (ofNat 1000000000) := by
      rw [hq]
      have : (1 : ℚ) / 2 ^ 70 ≤ (nsec : ℚ) / 1000000000 := by
        rw [le_div_iff₀ (by norm_num)]
        have : (1 : ℚ) / 2 ^ 70 * 1000000000 ≤ 1 := by norm_num
        linarith
      exact le_trans tiny_le this
    obtain ⟨hD1, hD2, hDpos⟩ := div_rounds (ofNat nsec) (ofNat 1000000000) hNpos hEpos hlo
    rw [hq] at hD1 hD2
    refine ⟨le_of_lt hDpos, le_of_lt ((toRat_pos_iff _).mpr hDpos), ?_⟩
    have h3 : (nsec : ℚ) / 1000000000 ≤ 999999999 / 1000000000 := by
      apply div_le_div_of_nonneg_right h2 (by norm_num)
    have h4 : (1 + 1 / 2 ^ 53) * ((nsec : ℚ) / 1000000000)
        ≤ (1 + 1 / 2 ^ 53) * (999999999 / 1000000000) :=
      mul_le_mul_of_nonneg_left h3 (by norm_num)
    have h5 : (1 + 1 / 2 ^ 53) * ((999999999 : ℚ) / 1000000000) + 1 / 2 ^ 30 < 1 := by
      norm_num
    linarith

/-- `int64(d.Seconds())` is the whole number of seconds of a duration `d` of less than
`2 ^ 24` seconds. -/
theorem durationSeconds_trunc (d : Nat) (hd : d < 2 ^ 24 * 1000000000) :
    toInt64 (durationSeconds (d : Int)) = ((d / 1000000000 : Nat) : Int) := by
  have hsec : d / 1000000000 < 2 ^ 24 := by
    rw [Nat.div_lt_iff_lt_mul (by norm_num)]; exact hd
  have hnsec : d % 1000000000 < 1000000000 := Nat.mod_lt _ (by norm_num)
  unfold durationSeconds
  rw [show (1000000000 : Int) = ((1000000000 : Nat) : Int) by rfl, ← Int.ofNat_tdiv,
    ← Int.ofNat_tmod, ofInt_natCast, ofInt_natCast]
  obtain ⟨hy0, hy1, hy2⟩ := nsec_fraction (d % 1000000000) hnsec
  set y := div (ofNat (d % 1000000000)) (ofNat 1000000000) with hy
  set sec := d / 1000000000 with hsecdef
  have hS : toRat (ofNat sec) = sec := toRat_ofNat_exact sec (lt_trans hsec (by norm_num))
  obtain ⟨A, B, hadd, hB, hAB⟩ := add_eq_ofRatio (ofNat sec) y (ofNat_mant_nonneg sec) hy0
  rw [hS] at hAB
  have hBq : (0 : ℚ) < B := by exact_mod_cast hB
  have hsecq : (sec : ℚ) ≤ 2 ^ 24 - 1 := by
    have : sec + 1 ≤ 2 ^ 24 := hsec
    have : ((sec + 1 : Nat) : ℚ) ≤ ((2 ^ 24 : Nat) : ℚ) := by exact_mod_cast this
    push_cast at this
    linarith
  rw [hadd]
  rcases Nat.eq_zero_or_pos A with hA | hA
  · subst hA
    rw [ofRatio_zero]
    have : (sec : ℚ) + toRat y = 0 := by rw [← hAB]; simp
    have hs0 : (sec : ℚ) = 0 := by
      have : (0 : ℚ) ≤ sec := Nat.cast_nonneg _
      linarith
    have : sec = 0 := by exact_mod_cast hs0
    rw [this]
    simp [toInt64, zero]
  · have hlt : (A : ℚ) / B < (2 : ℚ) ^ (24 : Int) := by
      rw [hAB, show (24 : Int) = ((24 : Nat) : Int) by rfl, zpow_natCast]
      have : (0 : ℚ) < 1 / 2 ^ 30 := by norm_num
      linarith
    have hq : quantum A B ≤ -29 := by
      have := quantum_le A B hA hB 24 hlt
      omega
    have hk : sec * B ≤ A := by
      have : (sec : ℚ) ≤ (A : ℚ) / B := by rw [hAB]; linarith
      rw [le_div_iff₀ hBq] at this
      exact_mod_cast this
    have hlow := ofRatio_ge_nat A B sec hA hB hk (by omega)
    have herr := ofRatio_abs_error A B hA hB
    rw [abs_le] at herr
    have hpow : (2 : ℚ) ^ quantum A B ≤ (2 : ℚ) ^ (-29 : Int) :=
      zpow_le_zpow_right₀ (by norm_num) hq
    have hpow' : (2 : ℚ) ^ (-29 : Int) / 2 = 1 / 2 ^ 30 := by
      rw [zpow_neg, show (29 : Int) = ((29 : Nat) : Int) by rfl, zpow_natCast]
      norm_num
    have hup : toRat (ofRatio false A B) < (sec : ℚ) + 1 := by
      have h1 := herr.2
      have h2 : (2 : ℚ) ^ quantum A B / 2 ≤ 1 / 2 ^ 30 := by
        rw [← hpow']; exact div_le_div_of_nonneg_right hpow (by norm_num)
      rw [hAB] at h1
      linarith
    exact toInt64_eq _ (ofRatio_mant_nonneg A B) sec hlow hup

/-! ### CPU percentage -/

set_option maxRecDepth 100000 in
theorem cpuPercent_thirdSample : cpuPercent thirdSample = ⟨4691249611844266, -47⟩ := by
  decide

set_option maxRecDepth 100000 in
theorem cpuPercent_decreasingSample :
    cpuPercent decreasingSample = ⟨7036874417766400, -110⟩ := by
  decide

/-- C1 (as stated) fails: for containerDelta = 1, systemDelta = 3 and one core the
reported value is the binary64 number 4691249611844266 / 2 ^ 47 (33.33333333333333...),
not the rational 100 / 3. -/
theorem C1_counterexample :
    thirdSample.cpuWellFormed ∧
    thirdSample.preSystemUsage < thirdSample.systemUsage ∧
    thirdSample.preTotalUsage ≤ thirdSample.totalUsage ∧
    cpuPercentExact thirdSample = 100 / 3 ∧
    (cpuPercent thirdSample).toRat = 4691249611844266 / 2 ^ 47 ∧
    (cpuPercent thirdSample).toRat ≠ cpuPercentExact thirdSample := by
  have hexact : cpuPercentExact thirdSample = 100 / 3 := by
    norm_num [cpuPercentExact, thirdSample]
  have hval : (cpuPercent thirdSample).toRat = 4691249611844266 / 2 ^ 47 := by
    rw [cpuPercent_thirdSample]
    norm_num [toRat]
  refine ⟨by unfold StatsJSON.cpuWellFormed; decide, by decide, by decide, hexact, hval, ?_⟩
  rw [hval, hexact]
  norm_num

/-- Under the hypotheses of C1 the guard passes and `cpuPercent` is the rounded chain
on the two counter differences. -/
theorem cpuPercent_of_increase (s : StatsJSON) (wf : s.cpuWellFormed)
    (hsys : s.preSystemUsage < s.systemUsage) (hcpu : s.preTotalUsage ≤ s.totalUsage) :
    cpuPercent s
      = mul (mul (div (ofNat (s.totalUsage - s.preTotalUsage))
          (ofNat (s.systemUsage - s.preSystemUsage))) (ofNat s.percpuUsage.length))
          (ofNat 100) := by
  obtain ⟨h1, h2, h3, h4, h5⟩ := wf
  have hc : u64Sub s.totalUsage s.preTotalUsage = s.totalUsage - s.preTotalUsage :=
    u64Sub_of_le _ _ h1 hcpu
  have hsd : u64Sub s.systemUsage s.preSystemUsage = s.systemUsage - s.preSystemUsage :=
    u64Sub_of_le _ _ h3 (le_of_lt hsys)
  have hsdpos : 0 < s.systemUsage - s.preSystemUsage := by omega
  have hpos : (ofNat (s.systemUsage - s.preSystemUsage)).isPos = true := by
    simp [isPos, (ofNat_rounds _ hsdpos).2.2]
  unfold cpuPercent
  simp only [hc, hsd, hpos, if_true]

set_option maxRecDepth 100000 in
theorem cpu_chain_spec_example :
    mul (mul (div (ofNat 200000000) (ofNat 1000000000)) (ofNat 4)) (ofNat 100)
      = ⟨5629499534213120, -46⟩ := by
  decide

/-- C1 (amended): when the system CPU counter strictly increased and the container
CPU counter did not decrease, the reported `cpuPercent` is the binary64 evaluation of
`(containerDelta / systemDelta) * n * 100` and differs from that exact rational by at
most the fraction `2 ^ (-50)` of it; for containerDelta = 200000000,
systemDelta = 1000000000 and four cores it is exactly 80. -/
theorem C1_cpu_percent (s : StatsJSON) (wf : s.cpuWellFormed)
    (hsys : s.preSystemUsage < s.systemUsage) (hcpu : s.preTotalUsage ≤ s.totalUsage) :
    |(cpuPercent s).toRat - cpuPercentExact s| ≤ cpuPercentExact s / 2 ^ 50 ∧
    (s.totalUsage - s.preTotalUsage = 200000000 →
      s.systemUsage - s.preSystemUsage = 1000000000 → s.percpuUsage.length = 4 →
      (cpuPercent s).toRat = 80) := by
  have hcode := cpuPercent_of_increase s wf hsys hcpu
  constructor
  · have hexact : cpuPercentExact s
        = ((s.totalUsage - s.preTotalUsage : Nat) : ℚ)
            / ((s.systemUsage - s.preSystemUsage : Nat) : ℚ)
            * (s.percpuUsage.length : ℚ) * 100 := by
      unfold cpuPercentExact
      rw [Nat.cast_sub hcpu, Nat.cast_sub (le_of_lt hsys)]
    rw [hexact, hcode]
    exact cpu_chain _ _ _ (by omega) (by have := wf.2.2.1; omega)
  · intro e1 e2 e3
    rw [hcode, e1, e2, e3, cpu_chain_spec_example]
    norm_num [toRat]

/-- Witness for `C1_cpu_percent`: the sample of the specification. -/
theorem C1_cpu_percent_witness :
    specSample.cpuWellFormed ∧ specSample.preSystemUsage < specSample.systemUsage ∧
    specSample.preTotalUsage ≤ specSample.totalUsage ∧
    cpuPercentExact specSample = 80 ∧
    (cpuPercent specSample).toRat = 80 :=
  ⟨by unfold StatsJSON.cpuWellFormed; decide, by decide, by decide,
   by norm_num [cpuPercentExact, specSample],
   (C1_cpu_percent specSample (by unfold StatsJSON.cpuWellFormed; decide) (by decide)
      (by decide)).2 (by decide) (by decide) (by decide)⟩

/-- C2 (the code at the failing input): the system counter went from 1 down to 0,
so the system delta is negative, yet the `uint64` subtraction wraps to `2 ^ 64 - 1`,
the guard `systemDelta > 0` passes, and the reported `cpuPercent` is
`100 / 2 ^ 64`, not 0. -/
theorem C2_decreasing_system_counter :
    decreasingSample.cpuWellFormed ∧
    decreasingSample.systemUsage ≤ decreasingSample.preSystemUsage ∧
    u64Sub decreasingSample.systemUsage decreasingSample.preSystemUsage = 2 ^ 64 - 1 ∧
    (cpuPercent decreasingSample).toRat = 100 / 2 ^ 64 ∧
    (cpuPercent decreasingSample).toRat ≠ 0 := by
  have hval : (cpuPercent decreasingSample).toRat = 100 / 2 ^ 64 := by
    rw [cpuPercent_decreasingSample]
    norm_num [toRat]
  refine ⟨by unfold StatsJSON.cpuWellFormed; decide, by decide, by decide, hval, ?_⟩
  rw [hval]
  norm_num

/-- When the two system counters are equal the reported `cpuPercent` is zero. -/
theorem cpuPercent_of_equal_system (s : StatsJSON) (h3 : s.systemUsage < 2 ^ 64)
    (heq : s.systemUsage = s.preSystemUsage) : cpuPercent s = zero := by
  have hsd : u64Sub s.systemUsage s.preSystemUsage = 0 := by
    rw [u64Sub_of_le _ _ h3 (le_of_eq heq.symm), heq, Nat.sub_self]
  unfold cpuPercent
  simp only [hsd]
  have h0 : ofNat 0 = zero := ofRatio_zero _ _
  rw [h0]
  simp [isPos, zero]

end Float

/-! ### Deploy trigger -/

/-- C3 (as stated) fails: `demo` holds a deploy in the non-terminal state `building`,
and a second `DeployProject` is answered with 200, not with Conflict, and replaces
the stored deploy. -/
theorem C3_counterexample :
    ((demoDeploying.projectStore "ab12cd34").bind (fun p => p.lastDeploy)).map
        (fun d => (d.id, d.status)) = some ("dep00001", DeployStatus.building) ∧
    (DeployProject demoDeploying "ab12cd34" 3000 "dep00002" "act00003").response.code
        = StatusOK ∧
    (DeployProject demoDeploying "ab12cd34" 3000 "dep00002" "act00003").response.code
        ≠ StatusConflict ∧
    (((DeployProject demoDeploying "ab12cd34" 3000 "dep00002" "act00003").state.projectStore
        "ab12cd34").bind (fun p => p.lastDeploy)).map (fun d => (d.id, d.status))
        = some ("dep00002", DeployStatus.building) := by
  decide

/-- C3 (amended): for every stored project, whatever `lastDeploy` it holds (none, a
non-terminal or a terminal one), `DeployProject` is accepted with 200 and never
answered with Conflict; it sets the status to `deploying` and replaces `lastDeploy`
by a fresh deploy in state `building`. -/
theorem C3_deploy_always_accepted (st : State) (id : String) (now : Time)
    (deployID activityID : String) (p : Project) (h : st.projectStore id = some p) :
    (DeployProject st id now deployID activityID).response.code = StatusOK ∧
    (DeployProject st id now deployID activityID).response.code ≠ StatusConflict ∧
    ∃ p', (DeployProject st id now deployID activityID).state.projectStore id = some p' ∧
      p'.status = .deploying ∧
      (p'.lastDeploy.map fun d => (d.id, d.status)) = some (deployID, DeployStatus.building) := by
  simp [DeployProject, h, StatusOK, StatusConflict]

/-- Witness for `C3_deploy_always_accepted`: the second trigger on `demo`. -/
theorem C3_deploy_always_accepted_witness :
    (demoDeploying.projectStore "ab12cd34").isSome = true ∧
    (DeployProject demoDeploying "ab12cd34" 3000 "dep00002" "act00003").response.code
      = StatusOK :=
  ⟨by decide,
   (C3_deploy_always_accepted demoDeploying "ab12cd34" 3000 "dep00002" "act00003"
      ((demoDeploying.projectStore "ab12cd34").get (by decide)) (by decide)).1⟩

/-- C7: immediately after `DeployProject` returns for a stored project `p`, the
project's `lastDeploy` is a fresh `DeployInfo`, whatever it held before: status
`building`, `finishedAt` unset, duration 0, `startedAt` equal to the new `updatedAt`,
and logs exactly `Starting deployment...` and `Using network: <networkId>` with the
project's (unchanged) networkId. -/
theorem C7_fresh_deploy_info (st : State) (id : String) (now : Time)
    (deployID activityID : String) (p : Project) (h : st.projectStore id = some p) :
    ∃ p' d, (DeployProject st id now deployID activityID).state.projectStore id = some p' ∧
      p'.lastDeploy = some d ∧
      d = { id := deployID, status := .building, startedAt := now, finishedAt := none,
            duration := 0,
            logs := ["Starting deployment...", "Using network: " ++ p.networkID],
            commitSHA := "", author := "", message := "" } ∧
      d.status = .building ∧ d.finishedAt = none ∧ d.duration = 0 ∧
      d.startedAt = p'.updatedAt ∧ p'.networkID = p.networkID ∧
      d.logs = ["Starting deployment...", "Using network: " ++ p'.networkID] := by
  simp [DeployProject, h]

/-- Witness for `C7_fresh_deploy_info`: re-deploying `demo`, which already holds a
deploy. -/
theorem C7_fresh_deploy_info_witness :
    (demoDeploying.projectStore "ab12cd34").isSome = true ∧
    ∃ p' d, (DeployProject demoDeploying "ab12cd34" 3000 "dep00002" "act00003").state.projectStore
        "ab12cd34" = some p' ∧
      p'.lastDeploy = some d ∧
      d = { id := "dep00002", status := .building, startedAt := 3000, finishedAt := none,
            duration := 0,
            logs := ["Starting deployment...", "Using network: " ++
              ((demoDeploying.projectStore "ab12cd34").get (by decide)).networkID],
            commitSHA := "", author := "", message := "" } ∧
      d.status = .building ∧ d.finishedAt = none ∧ d.duration = 0 ∧
      d.startedAt = p'.updatedAt ∧
      p'.networkID = ((demoDeploying.projectStore "ab12cd34").get (by decide)).networkID ∧
      d.logs = ["Starting deployment...", "Using network: " ++ p'.networkID] :=
  ⟨by decide,
   C7_fresh_deploy_info demoDeploying "ab12cd34" 3000 "dep00002" "act00003"
      ((demoDeploying.projectStore "ab12cd34").get (by decide)) (by decide)⟩

/-! ### Deploy completion after deletion -/

/-- C6: if a stored project is deleted after a deploy was triggered and before the
deploy completes, the completion step leaves the registry as the deletion left it:
the deleted id stays absent and every other project is as it was. -/
theorem C6_completion_after_delete (st : State) (id : String) (now now' t : Time)
    (deployID a1 a2 : String) (docker : Option DockerClient) (p : Project)
    (h : st.projectStore id = some p) :
    let triggered := (DeployProject st id now deployID a1).state
    let deleted := (DeleteProject triggered id now' a2 docker).state
    deployCompletion deleted id t = some deleted ∧
    deleted.projectStore id = none ∧
    ∀ j, j ≠ id → deleted.projectStore j = st.projectStore j := by
  have hd : (DeleteProject (DeployProject st id now deployID a1).state id now' a2
      docker).state.projectStore id = none := by
    simp [DeployProject, DeleteProject, h]
  refine ⟨deployCompletion_absent _ _ _ hd, hd, ?_⟩
  intro j hj
  simp [DeployProject, DeleteProject, h, hj]

/-- Witness for `C6_completion_after_delete`: `demo` is deployed, deleted, and then
the completion step runs. -/
theorem C6_completion_after_delete_witness :
    (demoState.projectStore "ab12cd34").isSome = true ∧
    (let triggered := (DeployProject demoState "ab12cd34" 2000 "dep00001" "act00002").state
     let deleted := (DeleteProject triggered "ab12cd34" 2500 "act00003" none).state
     deployCompletion deleted "ab12cd34" 4000 = some deleted ∧
     deleted.projectStore "ab12cd34" = none ∧
     ∀ j, j ≠ "ab12cd34" → deleted.projectStore j = demoState.projectStore j) :=
  ⟨by decide,
   C6_completion_after_delete demoState "ab12cd34" 2000 2500 4000 "dep00001" "act00002"
      "act00003" none ((demoState.projectStore "ab12cd34").get (by decide)) (by decide)⟩

/-! ### Deploy completion -/

/-- `finishedAt.Sub(startedAt)` for two clock readings less than `2 ^ 24` seconds
apart is their difference. -/
theorem timeSub_of_small (t u : Time) (h0 : u ≤ t) (h1 : t - u < 2 ^ 24 * 1000000000) :
    timeSub t u = t - u := by
  unfold timeSub
  have hnn : (0 : Int) ≤ t - u := sub_nonneg.mpr h0
  have hle : t - u ≤ 2 ^ 63 - 1 :=
    le_trans (le_of_lt h1) (by norm_num)
  rw [min_eq_right hle, max_eq_right]
  exact le_trans (by norm_num) hnn

set_option maxRecDepth 100000 in
/-- C5 (as stated) fails: `demo`'s deploy started at clock reading 2000 ns; when the
completion step runs 16777216.999999999 s later, `Duration.Seconds` rounds the
float64 sum up to 16777217.0 and the stored duration is 16777217, not the whole
number of seconds 16777216. -/
theorem C5_counterexample :
    ((demoDeploying.projectStore "ab12cd34").bind (fun p => p.lastDeploy)).map
        (fun d => d.startedAt) = some 2000 ∧
    Int.tdiv (16777217000001999 - 2000) 1000000000 = 16777216 ∧
    (((deployCompletion demoDeploying "ab12cd34" 16777217000001999).bind
        (fun st => st.projectStore "ab12cd34")).bind (fun p => p.lastDeploy)).map
        (fun d => (d.finishedAt, d.duration)) = some (some 16777217000001999, 16777217) := by
  decide

/-- C5 (amended): for every project that is stored and holds a deploy when the
completion step runs, the step succeeds and sets the project's status to `running`,
`lastDeploy.status` to `success`, `lastDeploy.finishedAt` to the completion time and
`lastDeploy.duration` to `int64(finishedAt.Sub(startedAt).Seconds())`; that number is
the whole number of seconds of `finishedAt - startedAt` whenever
`0 ≤ finishedAt - startedAt < 2 ^ 24` seconds.  The step only appends to the logs:
the new logs are the old ones followed by the eight completion lines, so the old
logs are a prefix of the new ones and the last line is the success marker.  Nothing
else of the deploy or the project changes, and no other project changes. -/
theorem C5_completion (st : State) (id : String) (finishedAt : Time) (p : Project)
    (d : DeployInfo) (hp : st.projectStore id = some p) (hd : p.lastDeploy = some d) :
    ∃ st' p' d', deployCompletion st id finishedAt = some st' ∧
      st'.projectStore id = some p' ∧ p'.lastDeploy = some d' ∧
      p'.status = .running ∧ d'.status = .success ∧
      d'.finishedAt = some finishedAt ∧
      d'.duration = F64.toInt64 (durationSeconds (timeSub finishedAt d.startedAt)) ∧
      (d.startedAt ≤ finishedAt → finishedAt - d.startedAt < 2 ^ 24 * 1000000000 →
        d'.duration = (finishedAt - d.startedAt) / 1000000000) ∧
      d'.logs = d.logs ++ completionLogs p.networkID ∧
      d.logs <+: d'.logs ∧
      d'.logs.getLast? = some "✓ Deployment successful!" ∧
      d' = { d with
        status := .success
        finishedAt := some finishedAt
        duration := F64.toInt64 (durationSeconds (timeSub finishedAt d.startedAt))
        logs := d.logs ++ completionLogs p.networkID } ∧
      p' = { p with status := .running, lastDeploy := some d' } ∧
      st'.activityStore = st.activityStore ∧
      ∀ j, j ≠ id → st'.projectStore j = st.projectStore j := by
  have hdur : d.startedAt ≤ finishedAt → finishedAt - d.startedAt < 2 ^ 24 * 1000000000 →
      F64.toInt64 (durationSeconds (timeSub finishedAt d.startedAt))
        = (finishedAt - d.startedAt) / 1000000000 := by
    intro h0 h1
    rw [timeSub_of_small _ _ h0 h1]
    obtain ⟨n, hn⟩ := Int.eq_ofNat_of_zero_le
      (show (0 : Int) ≤ finishedAt - d.startedAt from sub_nonneg.mpr h0)
    rw [hn] at h1 ⊢
    have hlt : n < 2 ^ 24 * 1000000000 := by exact_mod_cast h1
    rw [durationSeconds_trunc n hlt]
    rfl
  refine ⟨{ st with
      projectStore := storeSet st.projectStore id
        { p with
          status := .running
          lastDeploy := some { d with
            status := .success
            finishedAt := some finishedAt
            duration := F64.toInt64 (durationSeconds (timeSub finishedAt d.startedAt))
            logs := d.logs ++ completionLogs p.networkID } } },
    { p with
      status := .running
      lastDeploy := some { d with
        status := .success
        finishedAt := some finishedAt
        duration := F64.toInt64 (durationSeconds (timeSub finishedAt d.startedAt))
        logs := d.logs ++ completionLogs p.networkID } },
    { d with
      status := .success
      finishedAt := some finishedAt
      duration := F64.toInt64 (durationSeconds (timeSub finishedAt d.startedAt))
      logs := d.logs ++ completionLogs p.networkID },
    by simp only [deployCompletion, hp, hd], storeSet_same _ _ _, rfl,
    rfl, rfl, rfl, rfl, hdur, rfl, ?_, ?_, rfl, rfl, rfl, ?_⟩
  · exact List.prefix_append _ _
  · simp [completionLogs]
  · intro j hj
    exact storeSet_other _ _ _ _ hj

set_option maxRecDepth 100000 in
/-- Witness for `C5_completion`: the deploy of `demo`, started at 2000 ns, completes
at 2000002000 ns (two seconds later) with duration 2. -/
theorem C5_completion_witness :
    ((demoDeploying.projectStore "ab12cd34").bind (fun p => p.lastDeploy)).map
        (fun d => d.startedAt) = some 2000 ∧
    ∃ st' p' d', deployCompletion demoDeploying "ab12cd34" 2000002000 = some st' ∧
      st'.projectStore "ab12cd34" = some p' ∧ p'.lastDeploy = some d' ∧
      p'.status = .running ∧ d'.status = .success ∧
      d'.finishedAt = some 2000002000 ∧
      d'.duration = F64.toInt64 (durationSeconds (timeSub 2000002000 2000)) ∧
      d'.duration = 2 ∧
      d'.logs.getLast? = some "✓ Deployment successful!" := by
  refine ⟨by decide, ?_⟩
  obtain ⟨st', p', d', h1, h2, h3, h4, h5, h6, h7, h8, -, -, h11, -⟩ :=
    C5_completion demoDeploying "ab12cd34" 2000002000
      ((demoDeploying.projectStore "ab12cd34").get (by decide))
      ((((demoDeploying.projectStore "ab12cd34").get (by decide)).lastDeploy).get (by decide))
      (by decide) (by decide)
  exact ⟨st', p', d', h1, h2, h3, h4, h5, h6, h7,
    by rw [h8 (by decide) (by decide)]; decide, h11⟩

/-! ### Update -/

/-- C8: for a stored project `p` and a decoded update request `r`, `UpdateProject`
stores and returns a project whose name, description and domain are `r`'s when
non-empty and `p`'s otherwise, whose repository, docker and environment are `r`'s
when present and `p`'s otherwise, and whose ssl and resources are always `r`'s, also
when `r` leaves them at their zero values. -/
theorem C8_update_fields (st : State) (id : String) (r : UpdateProjectRequest) (now : Time)
    (p : Project) (h : st.projectStore id = some p) :
    ∃ p', (UpdateProject st id (.ok r) now).state.projectStore id = some p' ∧
      (UpdateProject st id (.ok r) now).response.code = StatusOK ∧
      p'.name = (if r.name ≠ "" then r.name else p.name) ∧
      p'.description = (if r.description ≠ "" then r.description else p.description) ∧
      p'.domain = (if r.domain ≠ "" then r.domain else p.domain) ∧
      p'.repository = (if r.repository ≠ none then r.repository else p.repository) ∧
      p'.docker = (if r.docker ≠ none then r.docker else p.docker) ∧
      p'.environment = (if r.environment ≠ none then r.environment else p.environment) ∧
      p'.ssl = r.ssl ∧ p'.resources = r.resources := by
  refine ⟨_, by simp [UpdateProject, h]; rfl, by simp [UpdateProject, h], ?_⟩
  refine ⟨?_, ?_, ?_, ?_, ?_, ?_, ?_, ?_⟩ <;>
    by_cases h1 : r.name = "" <;> by_cases h2 : r.description = "" <;>
    by_cases h3 : r.repository = none <;> by_cases h4 : r.docker = none <;>
    by_cases h5 : r.environment = none <;> by_cases h6 : r.domain = "" <;>
    simp [h1, h2, h3, h4, h5, h6]

/-- Witness for `C8_update_fields`: renaming `demo` (created with ssl and resource
limits) by a request that sets only the name resets ssl and resources. -/
theorem C8_update_fields_witness :
    (demoState.projectStore "ab12cd34").map (fun p => (p.name, p.ssl, p.resources))
      = some ("demo", true, ⟨⟨1, 0⟩, 536870912, F64.zero, 0⟩) ∧
    ((UpdateProject demoState "ab12cd34" (.ok renameRequest) 5000).state.projectStore
        "ab12cd34").map (fun p => (p.name, p.ssl, p.resources))
      = some ("renamed", false, ResourceLimits.zero) ∧
    ∃ p', (UpdateProject demoState "ab12cd34" (.ok renameRequest) 5000).state.projectStore
        "ab12cd34" = some p' ∧
      (UpdateProject demoState "ab12cd34" (.ok renameRequest) 5000).response.code = StatusOK ∧
      p'.name = "renamed" ∧ p'.ssl = false ∧ p'.resources = ResourceLimits.zero := by
  refine ⟨by decide, by decide, ?_⟩
  obtain ⟨p', h1, h2, h3, -, -, -, -, -, h4, h5⟩ :=
    C8_update_fields demoState "ab12cd34" renameRequest 5000
      ((demoState.projectStore "ab12cd34").get (by decide)) (by decide)
  exact ⟨p', h1, h2, h3, h4, h5⟩

/-! ### Create -/

/-- C9 (as stated) fails: created without a container runtime, or with a runtime on
which network creation fails, `demo` is stored with the non-empty networkId
`biz-panel-ab12cd34`. -/
theorem C9_counterexample :
    ((CreateProject State.init (.ok demoRequest) 1000 "ab12cd34" "act00001"
        none).state.projectStore "ab12cd34").map (fun p => p.networkID)
      = some "biz-panel-ab12cd34" ∧
    ((CreateProject State.init (.ok demoRequest) 1000 "ab12cd34" "act00001"
        (some failingDocker)).state.projectStore "ab12cd34").map (fun p => p.networkID)
      = some "biz-panel-ab12cd34" ∧
    "biz-panel-ab12cd34" ≠ "" := by
  decide

/-- C9 (amended): for every well-formed create request (name and type present),
`CreateProject` answers 201 and stores the project under the new id, whether or not
the project network could be created; the stored networkId is the id returned by the
runtime when network creation succeeded, and otherwise (creation failed, or no
runtime) the conventional network name `biz-panel-<id>`, which is never empty. -/
theorem C9_network_id (st : State) (req : CreateProjectRequest) (now : Time)
    (newID activityID : String) (docker : Option DockerClient)
    (hname : req.name ≠ "") (htype : req.type ≠ "") :
    (CreateProject st (.ok req) now newID activityID docker).response.code = StatusCreated ∧
    ∃ p, (CreateProject st (.ok req) now newID activityID docker).state.projectStore newID
        = some p ∧ p.id = newID ∧ p.name = req.name ∧
      p.networkID =
        (match docker with
          | none => "biz-panel-" ++ newID
          | some d =>
            match d.createProjectNetwork newID req.name with
            | .error _ => "biz-panel-" ++ newID
            | .ok networkID => networkID) ∧
      "biz-panel-" ++ newID ≠ "" := by
  have hne : "biz-panel-" ++ newID ≠ "" := by
    intro h
    have := congrArg String.length h
    simp [String.length_append] at this
    exact absurd this.1 (by decide)
  cases docker with
  | none =>
    simp [CreateProject, bindCreateProjectRequest, createRequiredErrors, hname, htype, hne]
  | some d =>
    cases hc : d.createProjectNetwork newID req.name <;>
      simp [CreateProject, bindCreateProjectRequest, createRequiredErrors, hname, htype,
        hc, hne]

/-- Witness for `C9_network_id`: `demo` on a runtime that creates the network. -/
theorem C9_network_id_witness :
    demoRequest.name ≠ "" ∧ demoRequest.type ≠ "" ∧
    (CreateProject State.init (.ok demoRequest) 1000 "ab12cd34" "act00001"
        (some workingDocker)).response.code = StatusCreated ∧
    ((CreateProject State.init (.ok demoRequest) 1000 "ab12cd34" "act00001"
        (some workingDocker)).state.projectStore "ab12cd34").map (fun p => p.networkID)
      = some "net-1" :=
  ⟨by decide, by decide,
   (C9_network_id State.init demoRequest 1000 "ab12cd34" "act00001" (some workingDocker)
      (by decide) (by decide)).1,
   by decide⟩

/-- C10 (the code at the failing input): a create request with a name and no type is
rejected by the `binding:"required"` tag on `Type`; the answer is 400 and nothing is
stored, so the defaulting of the type to `docker` is never reached. -/
theorem C10_empty_type_rejected :
    (CreateProject State.init (.ok { demoRequest with type := "" }) 1000 "ab12cd34"
        "act00001" none).response.code = StatusBadRequest ∧
    (CreateProject State.init (.ok { demoRequest with type := "" }) 1000 "ab12cd34"
        "act00001" none).state.projectStore "ab12cd34" = none ∧
    ((CreateProject State.init (.ok { demoRequest with type := "static" }) 1000 "ab12cd34"
        "act00001" none).state.projectStore "ab12cd34").map (fun p => p.type)
      = some "static" := by
  decide

/-! ### Status transitions -/

theorem statusStep_refl (st : State) (hinv : StatusInv st) : StatusStep st st :=
  ⟨hinv, fun id p p' h h' => Or.inl (by rw [h] at h'; cases h'; rfl)⟩

/-- Replacing the project at `id` by one with the same status and the same
`lastDeploy` is a `StatusStep`. -/
theorem statusStep_set_same (st : State) (acts : List Activity) (id : String) (q q' : Project)
    (hinv : StatusInv st) (hq : st.projectStore id = some q)
    (h1 : q'.status = q.status) (h2 : q'.lastDeploy = q.lastDeploy) :
    StatusStep st ⟨storeSet st.projectStore id q', acts⟩ := by
  refine ⟨?_, ?_⟩
  · intro j p h
    by_cases hj : j = id
    · subst hj
      simp at h; subst h
      rw [h1, h2]; exact hinv j q hq
    · simp [hj] at h; exact hinv j p h
  · intro j p p' h h'
    by_cases hj : j = id
    · subst hj
      simp at h'; subst h'
      rw [hq] at h; cases h
      exact Or.inl h1
    · simp [hj] at h'
      rw [h] at h'; cases h'; exact Or.inl rfl

/-- The state after a `CreateProject` whose body binds: a new idle project without a
deploy is stored under `newID`. -/
theorem CreateProject_ok_state (st : State) (body : Except String CreateProjectRequest)
    (now : Time) (newID activityID : String) (docker : Option DockerClient)
    (req : CreateProjectRequest) (hb : bindCreateProjectRequest body = .ok req) :
    ∃ p acts, (CreateProject st body now newID activityID docker).state
        = ⟨storeSet st.projectStore newID p, acts⟩ ∧
      p.status = .idle ∧ p.lastDeploy = none := by
  unfold CreateProject
  rw [hb]
  cases docker with
  | none => exact ⟨_, _, rfl, rfl, rfl⟩
  | some d =>
    cases hc : d.createProjectNetwork newID req.name with
    | error e => simp only [hc]; exact ⟨_, _, rfl, rfl, rfl⟩
    | ok n => simp only [hc]; exact ⟨_, _, rfl, rfl, rfl⟩

theorem CreateProject_statusStep (st : State) (body : Except String CreateProjectRequest)
    (now : Time) (newID activityID : String) (docker : Option DockerClient)
    (fresh : st.projectStore newID = none) (hinv : StatusInv st) :
    StatusStep st (CreateProject st body now newID activityID docker).state := by
  cases hb : bindCreateProjectRequest body with
  | error e =>
    have : (CreateProject st body now newID activityID docker).state = st := by
      unfold CreateProject; rw [hb]
    rw [this]; exact statusStep_refl st hinv
  | ok req =>
    obtain ⟨q, acts, hst, h1, h2⟩ :=
      CreateProject_ok_state st body now newID activityID docker req hb
    rw [hst]
    refine ⟨?_, ?_⟩
    · intro id p h
      by_cases hid : id = newID
      · subst hid
        simp at h; subst h
        exact Or.inl ⟨h2, h1⟩
      · simp [hid] at h
        exact hinv id p h
    · intro id p p' h h'
      by_cases hid : id = newID
      · subst hid; simp [fresh] at h
      · simp [hid] at h'
        rw [h] at h'; cases h'; exact Or.inl rfl

theorem GetProject_statusStep (st : State) (id : String) (docker : Option DockerClient)
    (hinv : StatusInv st) : StatusStep st (GetProject st id docker).state := by
  unfold GetProject
  cases hp : st.projectStore id with
  | none => exact statusStep_refl st hinv
  | some q =>
    cases docker with
    | none => exact statusStep_refl st hinv
    | some d =>
      dsimp only
      cases hl : d.listContainers q.id with
      | none => exact statusStep_refl st hinv
      | some r =>
        cases r with
        | error e => exact statusStep_refl st hinv
        | ok cs => exact statusStep_set_same st _ id q _ hinv hp rfl rfl

theorem UpdateProject_statusStep (st : State) (id : String)
    (body : Except String UpdateProjectRequest) (now : Time) (hinv : StatusInv st) :
    StatusStep st (UpdateProject st id body now).state := by
  unfold UpdateProject
  cases hp : st.projectStore id with
  | none => exact statusStep_refl st hinv
  | some q =>
    cases body with
    | error e => exact statusStep_refl st hinv
    | ok r =>
      refine statusStep_set_same st _ id q _ hinv hp ?_ ?_ <;>
        by_cases h1 : r.name = "" <;> by_cases h2 : r.description = "" <;>
        by_cases h3 : r.repository = none <;> by_cases h4 : r.docker = none <;>
        by_cases h5 : r.environment = none <;> by_cases h6 : r.domain = "" <;>
        simp [h1, h2, h3, h4, h5, h6]

theorem DeleteProject_statusStep (st : State) (id : String) (now : Time) (activityID : String)
    (docker : Option DockerClient) (hinv : StatusInv st) :
    StatusStep st (DeleteProject st id now activityID docker).state := by
  unfold DeleteProject
  cases hp : st.projectStore id with
  | none => exact statusStep_refl st hinv
  | some q =>
    refine ⟨?_, ?_⟩
    · intro j p h
      by_cases hj : j = id
      · subst hj; simp at h
      · simp [hj] at h; exact hinv j p h
    · intro j p p' h h'
      by_cases hj : j = id
      · subst hj; simp at h'
      · simp [hj] at h'
        rw [h] at h'; cases h'; exact Or.inl rfl

theorem AddContainerToProject_statusStep (docker : Option DockerClient) (st : State)
    (projectID : String) (body : Except String String) (hinv : StatusInv st) :
    StatusStep st (AddContainerToProject docker st projectID body).state := by
  unfold AddContainerToProject
  cases body with
  | error e => exact statusStep_refl st hinv
  | ok cid =>
    by_cases hc : cid = ""
    · simp only [hc, if_true]
      exact statusStep_refl st hinv
    · simp only [hc, if_false]
      cases hp : st.projectStore projectID with
      | none => exact statusStep_refl st hinv
      | some q =>
        cases docker with
        | none => exact statusStep_refl st hinv
        | some d =>
          dsimp only
          cases hl : d.connectContainerToNetwork cid q.networkID with
          | error e => exact statusStep_refl st hinv
          | ok u => exact statusStep_set_same st _ projectID q _ hinv hp rfl rfl

theorem DeployProject_statusStep (st : State) (id : String) (now : Time)
    (deployID activityID : String) (hinv : StatusInv st) :
    StatusStep st (DeployProject st id now deployID activityID).state := by
  unfold DeployProject
  cases hp : st.projectStore id with
  | none => exact statusStep_refl st hinv
  | some q =>
    refine ⟨?_, ?_⟩
    · intro j p h
      by_cases hj : j = id
      · subst hj; simp at h; subst h; simp
      · simp [hj] at h; exact hinv j p h
    · intro j p p' h h'
      by_cases hj : j = id
      · subst hj; simp at h'; subst h'
        rw [hp] at h; cases h
        rcases hinv j q hp with ⟨-, h2⟩ | ⟨-, h2 | h2⟩ <;> simp [h2, CodeEdge]
      · simp [hj] at h'
        rw [h] at h'; cases h'; exact Or.inl rfl

theorem deployCompletion_statusStep (st st' : State) (id : String) (finishedAt : Time)
    (hc : deployCompletion st id finishedAt = some st') (hinv : StatusInv st) :
    StatusStep st st' := by
  unfold deployCompletion at hc
  cases hp : st.projectStore id with
  | none =>
    simp [hp] at hc; subst hc
    exact statusStep_refl st hinv
  | some q =>
    cases hd : q.lastDeploy with
    | none => simp [hp, hd] at hc
    | some d =>
      simp [hp, hd] at hc
      subst hc
      refine ⟨?_, ?_⟩
      · intro j p h
        by_cases hj : j = id
        · subst hj; simp at h; subst h; simp
        · simp [hj] at h; exact hinv j p h
      · intro j p p' h h'
        by_cases hj : j = id
        · subst hj; simp at h'; subst h'
          rw [hp] at h; cases h
          rcases hinv j q hp with ⟨h1, -⟩ | ⟨-, h2 | h2⟩
          · simp [hd] at h1
          · simp [h2, CodeEdge]
          · simp [h2]
        · simp [hj] at h'
          rw [h] at h'; cases h'; exact Or.inl rfl

/-- Every operation of the registry is a `StatusStep`. -/
theorem step_statusStep (st st' : State) (hs : Step st st') (hinv : StatusInv st) :
    StatusStep st st' := by
  cases hs with
  | create _ body now newID activityID docker fresh =>
    exact CreateProject_statusStep st body now newID activityID docker fresh hinv
  | get _ id docker => exact GetProject_statusStep st id docker hinv
  | update _ id body now => exact UpdateProject_statusStep st id body now hinv
  | delete _ id now activityID docker =>
    exact DeleteProject_statusStep st id now activityID docker hinv
  | attach docker _ projectID body =>
    exact AddContainerToProject_statusStep docker st projectID body hinv
  | deploy _ id now deployID activityID =>
    exact DeployProject_statusStep st id now deployID activityID hinv
  | complete _ _ id finishedAt hc => exact deployCompletion_statusStep st st' id finishedAt hc hinv

/-- Every reachable state satisfies `StatusInv`. -/
theorem reachable_statusInv (st : State) (h : Reachable st) : StatusInv st := by
  induction h with
  | init => intro id p hp; simp [State.init] at hp
  | step st st' _ s ih => exact (step_statusStep st st' s ih).1

/-- C4 (as stated) fails: `demo`, created and idle, is moved by `DeployProject` from
`idle` directly to `deploying`, which is not an edge of the specified state
machine (its only edge out of `idle` leads to `building`). -/
theorem C4_counterexample :
    Reachable demoState ∧ Step demoState demoDeploying ∧
    (demoState.projectStore "ab12cd34").map (fun p => p.status) = some .idle ∧
    (demoDeploying.projectStore "ab12cd34").map (fun p => p.status) = some .deploying ∧
    ¬ SpecEdge .idle .deploying :=
  ⟨Reachable.step _ _ Reachable.init
      (Step.create State.init (.ok demoRequest) 1000 "ab12cd34" "act00001" none rfl),
   Step.deploy demoState "ab12cd34" 2000 "dep00001" "act00002",
   by decide, by decide, by decide⟩

/-- C4 (amended): in every reachable state of the registry, every change of the
status of a stored project made by one operation (create, get, update, delete,
attach, deploy trigger, deploy completion) is `idle → deploying` or
`running → deploying` (deploy trigger) or `deploying → running` (deploy completion);
in particular no operation changes a status from `deploying` to `idle`. -/
theorem C4_status_changes (st st' : State) (hr : Reachable st) (hs : Step st st')
    (id : String) (p p' : Project) (h : st.projectStore id = some p)
    (h' : st'.projectStore id = some p') (hne : p.status ≠ p'.status) :
    CodeEdge p.status p'.status ∧ ¬ (p.status = .deploying ∧ p'.status = .idle) := by
  have hedge : CodeEdge p.status p'.status := by
    rcases (step_statusStep st st' hs (reachable_statusInv st hr)).2 id p p' h h' with e | e
    · exact absurd e.symm hne
    · exact e
  refine ⟨hedge, ?_⟩
  rintro ⟨e1, e2⟩
  rw [e1, e2] at hedge
  exact hedge

/-- Witness for `C4_status_changes`: the deploy trigger on the idle `demo`. -/
theorem C4_status_changes_witness :
    Reachable demoState ∧ Step demoState demoDeploying ∧
    CodeEdge .idle .deploying :=
  ⟨Reachable.step _ _ Reachable.init
      (Step.create State.init (.ok demoRequest) 1000 "ab12cd34" "act00001" none rfl),
   Step.deploy demoState "ab12cd34" 2000 "dep00001" "act00002",
   (C4_status_changes demoState demoDeploying
      (Reachable.step _ _ Reachable.init
        (Step.create State.init (.ok demoRequest) 1000 "ab12cd34" "act00001" none rfl))
      (Step.deploy demoState "ab12cd34" 2000 "dep00001" "act00002")
      "ab12cd34" ((demoState.projectStore "ab12cd34").get (by decide))
      ((demoDeploying.projectStore "ab12cd34").get (by decide))
      (by decide) (by decide) (by decide)).1⟩

/-! ### Attach -/

/-- C11: for a stored project `p` and a container id `c`, `AddContainerToProject`
appends `c` at the end of `p.containers` exactly when the runtime is available and
joining `c` to the project's network succeeded, without deduplication (a second
attach of `c` makes it occur twice more in total); when the runtime is unavailable
(503) or the join fails (500) the registry is unchanged and an error is returned. -/
theorem C11_attach_appends (docker : Option DockerClient) (st : State) (projectID c : String)
    (p : Project) (hp : st.projectStore projectID = some p) (hc : c ≠ "") :
    match docker with
    | none =>
      (AddContainerToProject docker st projectID (.ok c)).state = st ∧
      (AddContainerToProject docker st projectID (.ok c)).response.code
        = StatusServiceUnavailable
    | some d =>
      match d.connectContainerToNetwork c p.networkID with
      | .error _ =>
        (AddContainerToProject docker st projectID (.ok c)).state = st ∧
        (AddContainerToProject docker st projectID (.ok c)).response.code
          = StatusInternalServerError
      | .ok _ =>
        (AddContainerToProject docker st projectID (.ok c)).state.projectStore projectID
          = some { p with containers := p.containers ++ [c] } ∧
        (AddContainerToProject docker st projectID (.ok c)).response.code = StatusOK ∧
        (AddContainerToProject docker
            (AddContainerToProject docker st projectID (.ok c)).state projectID
            (.ok c)).state.projectStore projectID
          = some { p with containers := p.containers ++ [c] ++ [c] } ∧
        (p.containers ++ [c] ++ [c]).count c = p.containers.count c + 2 := by
  cases docker with
  | none => simp [AddContainerToProject, hp, hc]
  | some d =>
    cases hj : d.connectContainerToNetwork c p.networkID with
    | error e => simp [AddContainerToProject, hp, hc, hj]
    | ok u => simp [AddContainerToProject, hp, hc, hj]

/-- Witness for `C11_attach_appends`: `c1` is attached to `demo` on a working runtime,
twice. -/
theorem C11_attach_appends_witness :
    (demoState.projectStore "ab12cd34").map (fun p => p.containers) = some [] ∧
    ((AddContainerToProject (some workingDocker) demoState "ab12cd34"
        (.ok "c1")).state.projectStore "ab12cd34").map (fun p => p.containers)
      = some ["c1"] ∧
    ((AddContainerToProject (some workingDocker)
        (AddContainerToProject (some workingDocker) demoState "ab12cd34" (.ok "c1")).state
        "ab12cd34" (.ok "c1")).state.projectStore "ab12cd34").map (fun p => p.containers)
      = some ["c1", "c1"] := by
  have h := C11_attach_appends (some workingDocker) demoState "ab12cd34" "c1"
    ((demoState.projectStore "ab12cd34").get (by decide)) (by decide) (by decide)
  refine ⟨by decide, ?_, ?_⟩
  · rw [h.1]; decide
  · rw [h.2.2.1]; decide

/-! ### Delete -/

/-- C16: for a store that contains `id`, `DeleteProject` removes exactly that key,
leaves every other project unchanged and answers 200, whatever the runtime would
answer to the removal of the network; the removal is issued exactly when the runtime
is available and the project's networkId is non-empty. -/
theorem C16_delete (st : State) (id : String) (now : Time) (activityID : String)
    (docker : Option DockerClient) (p : Project) (hp : st.projectStore id = some p) :
    (DeleteProject st id now activityID docker).state.projectStore id = none ∧
    (∀ j, j ≠ id →
      (DeleteProject st id now activityID docker).state.projectStore j = st.projectStore j) ∧
    (DeleteProject st id now activityID docker).response.code = StatusOK ∧
    ((DockerCall.removeNetwork p.networkID ∈ (DeleteProject st id now activityID docker).calls)
      ↔ (docker.isSome = true ∧ p.networkID ≠ "")) := by
  refine ⟨by simp [DeleteProject, hp], ?_, by simp [DeleteProject, hp], ?_⟩
  · intro j hj
    simp [DeleteProject, hp, hj]
  · cases docker with
    | none => simp [DeleteProject, hp]
    | some d =>
      by_cases hn : p.networkID = "" <;> simp [DeleteProject, hp, hn]

/-- Witness for `C16_delete`: deleting `demo` on a runtime on which every call fails. -/
theorem C16_delete_witness :
    (demoState.projectStore "ab12cd34").isSome = true ∧
    (DeleteProject demoState "ab12cd34" 3000 "act00009" (some failingDocker)).response.code
      = StatusOK ∧
    (DeleteProject demoState "ab12cd34" 3000 "act00009"
      (some failingDocker)).state.projectStore "ab12cd34" = none :=
  ⟨by decide,
   (C16_delete demoState "ab12cd34" 3000 "act00009" (some failingDocker)
      ((demoState.projectStore "ab12cd34").get (by decide)) (by decide)).2.2.1,
   (C16_delete demoState "ab12cd34" 3000 "act00009" (some failingDocker)
      ((demoState.projectStore "ab12cd34").get (by decide)) (by decide)).1⟩

/-- C17: `DeleteProject` never stops or removes a container: whatever the project's
containers list holds, the runtime calls it issues are none at all or the single call
`RemoveNetwork` for the project's networkId. -/
theorem C17_delete_calls (st : State) (id : String) (now : Time) (activityID : String)
    (docker : Option DockerClient) (p : Project) (hp : st.projectStore id = some p) :
    ((DeleteProject st id now activityID docker).calls = [] ∨
      (DeleteProject st id now activityID docker).calls = [.removeNetwork p.networkID]) ∧
    (∀ c force, DockerCall.stopContainer c ∉ (DeleteProject st id now activityID docker).calls ∧
      DockerCall.removeContainer c force ∉ (DeleteProject st id now activityID docker).calls) := by
  cases docker with
  | none => simp [DeleteProject, hp]
  | some d =>
    by_cases hn : p.networkID = "" <;> simp [DeleteProject, hp, hn]

/-- Witness for `C17_delete_calls`: `demo` with the attached container `c1` is deleted
on a working runtime; the only call is the removal of its network. -/
theorem C17_delete_calls_witness :
    (demoAttached.projectStore "ab12cd34").map (fun p => p.containers) = some ["c1"] ∧
    (DeleteProject demoAttached "ab12cd34" 3000 "act00009" (some workingDocker)).calls
      = [.removeNetwork "biz-panel-ab12cd34"] ∧
    ((DeleteProject demoAttached "ab12cd34" 3000 "act00009" (some workingDocker)).calls = [] ∨
      (DeleteProject demoAttached "ab12cd34" 3000 "act00009" (some workingDocker)).calls
        = [.removeNetwork
            ((demoAttached.projectStore "ab12cd34").get (by decide)).networkID]) :=
  ⟨by decide, by decide,
   (C17_delete_calls demoAttached "ab12cd34" 3000 "act00009" (some workingDocker)
      ((demoAttached.projectStore "ab12cd34").get (by decide)) (by decide)).1⟩

/-! ### Get -/

theorem sliceTo_length (s : String) (n : Nat) (t : String) (h : sliceTo s n = some t) :
    t.length = n := by
  unfold sliceTo at h
  by_cases hn : n ≤ s.length
  · rw [if_pos hn] at h
    cases h
    rw [String.take_eq]
    simp only [String.length]
    rw [List.length_take]
    exact Nat.min_eq_left hn
  · rw [if_neg hn] at h
    cases h

theorem Client.infosOfContainers_id_length (cs : List Container) (infos : List ContainerInfo)
    (h : Client.infosOfContainers cs = some infos) : ∀ i ∈ infos, i.id.length = 12 := by
  induction cs generalizing infos with
  | nil =>
    simp [Client.infosOfContainers] at h
    subst h
    simp
  | cons ctr rest ih =>
    unfold Client.infosOfContainers at h
    cases hi : Client.infoOfContainer ctr with
    | none => simp [hi] at h
    | some info =>
      cases hr : Client.infosOfContainers rest with
      | none => simp [hi, hr] at h
      | some infos' =>
        simp [hi, hr] at h
        subst h
        intro i hmem
        rcases List.mem_cons.mp hmem with e | e
        · subst e
          unfold Client.infoOfContainer at hi
          cases hs : sliceTo ctr.id 12 with
          | none => simp [hs] at hi
          | some short =>
            cases hnames : ctr.names with
            | nil => simp [hs, hnames] at hi
            | cons name more =>
              simp [hs, hnames] at hi
              subst hi
              exact sliceTo_length _ _ _ hs
        · exact ih infos' hr i e

theorem sliceTo_eq (s : String) (n : Nat) (t : String) (h : sliceTo s n = some t) :
    t = s.take n := by
  unfold sliceTo at h
  by_cases hn : n ≤ s.length
  · rw [if_pos hn] at h
    exact (Option.some.inj h).symm
  · rw [if_neg hn] at h
    cases h

theorem Client.infoOfContainer_id (ctr : Container) (info : ContainerInfo)
    (h : Client.infoOfContainer ctr = some info) : info.id = ctr.id.take 12 := by
  unfold Client.infoOfContainer at h
  cases hs : sliceTo ctr.id 12 with
  | none => simp [hs] at h
  | some short =>
    cases hnames : ctr.names with
    | nil => simp [hs, hnames] at h
    | cons name more =>
      rw [hs, hnames] at h
      dsimp only at h
      rw [← Option.some.inj h]
      exact sliceTo_eq _ _ _ hs

/-- The ids `ListContainers` returns are the first 12 characters of the identifiers
of the listing, in listing order. -/
theorem Client.infosOfContainers_ids (cs : List Container) (infos : List ContainerInfo)
    (h : Client.infosOfContainers cs = some infos) :
    infos.map (fun i => i.id) = cs.map (fun ctr => ctr.id.take 12) := by
  induction cs generalizing infos with
  | nil =>
    simp [Client.infosOfContainers] at h
    subst h
    rfl
  | cons ctr rest ih =>
    unfold Client.infosOfContainers at h
    cases hi : Client.infoOfContainer ctr with
    | none => simp [hi] at h
    | some info =>
      cases hr : Client.infosOfContainers rest with
      | none => simp [hi, hr] at h
      | some infos' =>
        simp [hi, hr] at h
        subst h
        rw [List.map_cons, List.map_cons, Client.infoOfContainer_id ctr info hi, ih infos' hr]

/-- `ctr.ID[:12]` panics exactly on an identifier of fewer than 12 characters, and
`ctr.Names[0]` exactly on an empty list of names. -/
theorem Client.infoOfContainer_none (ctr : Container) :
    Client.infoOfContainer ctr = none ↔ ctr.id.length < 12 ∨ ctr.names = [] := by
  unfold Client.infoOfContainer sliceTo
  by_cases hlen : 12 ≤ ctr.id.length
  · cases hn : ctr.names with
    | nil => simp [hlen]
    | cons name more => simp [hlen]
  · cases hn : ctr.names with
    | nil => simp [hlen]
    | cons name more =>
      simp [hlen]
      omega

/-- The loop of `ListContainers` panics exactly when the listing holds a container
with an identifier of fewer than 12 characters or without a name. -/
theorem Client.infosOfContainers_none (listing : List Container) :
    Client.infosOfContainers listing = none ↔
      ∃ ctr ∈ listing, ctr.id.length < 12 ∨ ctr.names = [] := by
  induction listing with
  | nil => simp [Client.infosOfContainers]
  | cons c rest ih =>
    have hc := Client.infoOfContainer_none c
    cases hi : Client.infoOfContainer c with
    | none =>
      have hbad := hc.mp hi
      simp only [Client.infosOfContainers, hi]
      exact ⟨fun _ => ⟨c, List.mem_cons_self _ _, hbad⟩, fun _ => trivial⟩
    | some info =>
      have hgood : ¬ (c.id.length < 12 ∨ c.names = []) := fun hb => by
        have := hc.mpr hb
        rw [hi] at this
        cases this
      cases hr : Client.infosOfContainers rest with
      | none =>
        obtain ⟨ctr, hm, hb⟩ := ih.mp hr
        simp only [Client.infosOfContainers, hi, hr]
        exact ⟨fun _ => ⟨ctr, List.mem_cons_of_mem _ hm, hb⟩, fun _ => trivial⟩
      | some infos =>
        simp only [Client.infosOfContainers, hi, hr]
        constructor
        · intro h
          cases h
        · rintro ⟨ctr, hm, hb⟩
          rcases List.mem_cons.mp hm with rfl | hm
          · exact absurd hb hgood
          · have := ih.mpr ⟨ctr, hm, hb⟩
            rw [hr] at this
            cases this

set_option maxRecDepth 100000 in
/-- C12 (as stated) fails: `demo` is stored and the runtime lists for it a container
without a name, or one whose identifier has three characters.  `ListContainers`
panics on `ctr.Names[0]`, respectively `ctr.ID[:12]`, and `GetProject` is answered
with status 500, not 200. -/
theorem C12_counterexample :
    (demoState.projectStore "ab12cd34").isSome = true ∧
    Client.ListContainers (fixedListing namelessListing) () "ab12cd34" = none ∧
    (GetProject demoState "ab12cd34"
        (some (listingClient (fixedListing namelessListing) ()))).response.code = 500 ∧
    (GetProject demoState "ab12cd34"
        (some (listingClient (fixedListing namelessListing) ()))).response.code ≠ StatusOK ∧
    Client.ListContainers (fixedListing shortIDListing) () "ab12cd34" = none ∧
    (GetProject demoState "ab12cd34"
        (some (listingClient (fixedListing shortIDListing) ()))).response.code = 500 ∧
    (GetProject demoState "ab12cd34"
        (some (listingClient (fixedListing shortIDListing) ()))).response.code ≠ StatusOK := by
  decide

/-- C12 (amended): for a stored project `p`, `GetProject` answers 200 with the project
whenever the listing call does not panic.  With no runtime, or when the listing
returns an error, the registry is unchanged and `p` is returned as it is.  When the
listing succeeds, the project returned and stored has as containers exactly the ids
of the listed containers, in listing order, and everything else in the registry is
unchanged; the ids `ListContainers` returns are the first 12 characters of the
identifiers in the runtime's listing, in its order.  `ListContainers` panics exactly
when the runtime's listing holds a container whose identifier has fewer than 12
characters or that has no name; `GetProject` is then answered with status 500 and
leaves the registry unchanged. -/
theorem C12_get_project (st : State) (id : String) (docker : Option DockerClient)
    (p : Project) (hp : st.projectStore id = some p) :
    (docker = none →
      (GetProject st id docker).response.code = StatusOK ∧
      (GetProject st id docker).response.body = .project p ∧
      (GetProject st id docker).state = st) ∧
    (∀ d e, docker = some d → d.listContainers p.id = some (.error e) →
      (GetProject st id docker).response.code = StatusOK ∧
      (GetProject st id docker).response.body = .project p ∧
      (GetProject st id docker).state = st) ∧
    (∀ d infos, docker = some d → d.listContainers p.id = some (.ok infos) →
      (GetProject st id docker).response.code = StatusOK ∧
      (GetProject st id docker).response.body
        = .project { p with containers := infos.map (fun i => i.id) } ∧
      (GetProject st id docker).state.projectStore id
        = some { p with containers := infos.map (fun i => i.id) } ∧
      (∀ j, j ≠ id → (GetProject st id docker).state.projectStore j = st.projectStore j) ∧
      (GetProject st id docker).state.activityStore = st.activityStore) ∧
    (∀ d, docker = some d → d.listContainers p.id = none →
      (GetProject st id docker).response.code = StatusInternalServerError ∧
      (GetProject st id docker).state = st) ∧
    (∀ (σ : Type) (cli : Engine σ) (s : σ) (projectID : String),
      (Client.ListContainers cli s projectID = none ↔
        ∃ listing, cli.containerList s (Client.listOptions projectID) = .ok listing ∧
          ∃ ctr ∈ listing, ctr.id.length < 12 ∨ ctr.names = []) ∧
      ∀ infos, Client.ListContainers cli s projectID = some (.ok infos) →
        (∃ listing, cli.containerList s (Client.listOptions projectID) = .ok listing ∧
          infos.map (fun i => i.id) = listing.map (fun ctr => ctr.id.take 12)) ∧
        ∀ i ∈ infos, i.id.length = 12) := by
  refine ⟨?_, ?_, ?_, ?_, ?_⟩
  · intro hd
    subst hd
    simp [GetProject, hp]
  · intro d e hd hl
    subst hd
    simp [GetProject, hp, hl]
  · intro d infos hd hl
    subst hd
    refine ⟨?_, ?_, ?_, ?_, ?_⟩
    · simp [GetProject, hp, hl]
    · simp [GetProject, hp, hl]
    · simp [GetProject, hp, hl]
    · intro j hj
      simp [GetProject, hp, hl, hj]
    · simp [GetProject, hp, hl]
  · intro d hd hl
    subst hd
    simp [GetProject, hp, hl]
  · intro σ cli s projectID
    unfold Client.ListContainers
    cases hc : cli.containerList s (Client.listOptions projectID) with
    | error e => simp
    | ok cs =>
      dsimp only
      cases hi : Client.infosOfContainers cs with
      | none =>
        have hbad := (Client.infosOfContainers_none cs).mp hi
        refine ⟨⟨fun _ => ⟨cs, rfl, hbad⟩, fun _ => rfl⟩, ?_⟩
        intro infos h
        cases h
      | some result =>
        have hgood : ¬ ∃ ctr ∈ cs, ctr.id.length < 12 ∨ ctr.names = [] := fun hb => by
          have := (Client.infosOfContainers_none cs).mpr hb
          rw [hi] at this
          cases this
        refine ⟨⟨?_, ?_⟩, ?_⟩
        · intro h
          cases h
        · rintro ⟨listing, hl, hb⟩
          cases hl
          exact absurd hb hgood
        · intro infos h
          simp only [Option.some.injEq, Except.ok.injEq] at h
          subst h
          exact ⟨⟨cs, rfl, Client.infosOfContainers_ids cs result hi⟩,
            Client.infosOfContainers_id_length cs result hi⟩

set_option maxRecDepth 100000 in
/-- Witness for `C12_get_project`: `demo`, holding the attached `c1`, is read while
the runtime lists the container `web` for it. -/
theorem C12_get_project_witness :
    (demoAttached.projectStore "ab12cd34").map (fun p => p.containers) = some ["c1"] ∧
    (listingDocker.listContainers "ab12cd34").map (fun r => r.map (fun infos =>
        infos.map (fun i => i.id))) = some (.ok ["0123456789ab"]) ∧
    (GetProject demoAttached "ab12cd34" (some listingDocker)).response.code = StatusOK ∧
    ((GetProject demoAttached "ab12cd34" (some listingDocker)).state.projectStore
        "ab12cd34").map (fun p => p.containers) = some ["0123456789ab"] ∧
    ((GetProject demoAttached "ab12cd34" (some failingDocker)).state.projectStore
        "ab12cd34").map (fun p => p.containers) = some ["c1"] :=
  ⟨by decide, by decide,
   ((C12_get_project demoAttached "ab12cd34" (some listingDocker)
      ((demoAttached.projectStore "ab12cd34").get (by decide)) (by decide)).2.2.1
      listingDocker
      [{ id := "0123456789ab", name := "web", image := "nginx", status := "running",
         state := "running", projectID := "ab12cd34",
         labels := some [("biz-panel.project", "ab12cd34")], networks := [] }]
      rfl (by decide)).1,
   by decide, by decide⟩

/-! ### What one operation does to a stored project -/

theorem storeSet_lookup (m : String → Option Project) (k j : String) (v p' : Project)
    (h : storeSet m k v j = some p') : (j = k ∧ p' = v) ∨ (j ≠ k ∧ m j = some p') := by
  by_cases hj : j = k
  · subst hj
    simp at h
    exact Or.inl ⟨rfl, h.symm⟩
  · simp [hj] at h
    exact Or.inr ⟨hj, h⟩

theorem sameIdentity_refl (p : Project) : SameIdentity p p := ⟨rfl, rfl, rfl, rfl⟩

theorem deployEffect_refl (p : Project) : DeployEffect p p := Or.inl ⟨rfl, rfl⟩

/-- Two lookups of the same key in the same store give the same project. -/
theorem lookup_unique {m : String → Option Project} {j : String} {p p' : Project}
    (h : m j = some p) (h' : m j = some p') : p' = p := by
  rw [h] at h'
  cases h'
  rfl

theorem UpdateProject_effect (st : State) (id : String)
    (body : Except String UpdateProjectRequest) (now : Time) (j : String) (p' : Project)
    (h' : (UpdateProject st id body now).state.projectStore j = some p') :
    ∃ p, st.projectStore j = some p ∧
      SameIdentity p p' ∧ DeployEffect p p' ∧ p'.containers = p.containers := by
  unfold UpdateProject at h'
  cases hq : st.projectStore id with
  | none =>
    simp only [hq] at h'
    exact ⟨p', h', sameIdentity_refl _, deployEffect_refl _, rfl⟩
  | some q =>
    cases body with
    | error e =>
      simp only [hq] at h'
      exact ⟨p', h', sameIdentity_refl _, deployEffect_refl _, rfl⟩
    | ok r =>
      simp only [hq] at h'
      rcases storeSet_lookup _ _ _ _ _ h' with ⟨hj, hv⟩ | ⟨hj, hv⟩
      · subst hj
        subst hv
        refine ⟨q, hq, ?_⟩
        by_cases h1 : r.name = "" <;> by_cases h2 : r.description = "" <;>
          by_cases h3 : r.repository = none <;> by_cases h4 : r.docker = none <;>
          by_cases h5 : r.environment = none <;> by_cases h6 : r.domain = "" <;>
          simp [h1, h2, h3, h4, h5, h6, SameIdentity, DeployEffect]
      · exact ⟨p', hv, sameIdentity_refl _, deployEffect_refl _, rfl⟩

theorem AddContainerToProject_effect (docker : Option DockerClient) (st : State)
    (projectID : String) (body : Except String String) (j : String) (p' : Project)
    (h' : (AddContainerToProject docker st projectID body).state.projectStore j = some p') :
    ∃ p, st.projectStore j = some p ∧
      SameIdentity p p' ∧ DeployEffect p p' ∧ p.containers <+: p'.containers := by
  have same : ∀ q', st.projectStore j = some q' →
      ∃ p, st.projectStore j = some p ∧
        SameIdentity p q' ∧ DeployEffect p q' ∧ p.containers <+: q'.containers :=
    fun q' hq' => ⟨q', hq', sameIdentity_refl _, deployEffect_refl _, List.prefix_refl _⟩
  unfold AddContainerToProject at h'
  cases body with
  | error e => exact same p' h'
  | ok cid =>
    by_cases hc : cid = ""
    · simp only [hc, if_true] at h'
      exact same p' h'
    · simp only [hc, if_false] at h'
      cases hq : st.projectStore projectID with
      | none =>
        simp only [hq] at h'
        exact same p' h'
      | some q =>
        simp only [hq] at h'
        cases docker with
        | none => exact same p' h'
        | some d =>
          dsimp only at h'
          cases hl : d.connectContainerToNetwork cid q.networkID with
          | error e =>
            simp only [hl] at h'
            exact same p' h'
          | ok u =>
            simp only [hl] at h'
            rcases storeSet_lookup _ _ _ _ _ h' with ⟨hj, hv⟩ | ⟨hj, hv⟩
            · subst hj
              subst hv
              exact ⟨q, hq, ⟨rfl, rfl, rfl, rfl⟩, Or.inl ⟨rfl, rfl⟩, List.prefix_append _ _⟩
            · exact same p' hv

theorem DeployProject_effect (st : State) (id : String) (now : Time)
    (deployID activityID : String) (j : String) (p' : Project)
    (h' : (DeployProject st id now deployID activityID).state.projectStore j = some p') :
    ∃ p, st.projectStore j = some p ∧
      SameIdentity p p' ∧ DeployEffect p p' ∧ p'.containers = p.containers := by
  unfold DeployProject at h'
  cases hq : st.projectStore id with
  | none =>
    simp only [hq] at h'
    exact ⟨p', h', sameIdentity_refl _, deployEffect_refl _, rfl⟩
  | some q =>
    simp only [hq] at h'
    rcases storeSet_lookup _ _ _ _ _ h' with ⟨hj, hv⟩ | ⟨hj, hv⟩
    · subst hj
      subst hv
      exact ⟨q, hq, ⟨rfl, rfl, rfl, rfl⟩, Or.inr (Or.inl rfl), rfl⟩
    · exact ⟨p', hv, sameIdentity_refl _, deployEffect_refl _, rfl⟩

theorem deployCompletion_effect (st st' : State) (id : String) (finishedAt : Time)
    (hc : deployCompletion st id finishedAt = some st') (j : String) (p' : Project)
    (h' : st'.projectStore j = some p') :
    ∃ p, st.projectStore j = some p ∧
      SameIdentity p p' ∧ DeployEffect p p' ∧ p'.containers = p.containers := by
  unfold deployCompletion at hc
  cases hq : st.projectStore id with
  | none =>
    simp [hq] at hc
    subst hc
    exact ⟨p', h', sameIdentity_refl _, deployEffect_refl _, rfl⟩
  | some q =>
    cases hd : q.lastDeploy with
    | none => simp [hq, hd] at hc
    | some d =>
      simp [hq, hd] at hc
      subst hc
      rcases storeSet_lookup _ _ _ _ _ h' with ⟨hj, hv⟩ | ⟨hj, hv⟩
      · subst hj
        subst hv
        exact ⟨q, hq, ⟨rfl, rfl, rfl, rfl⟩, Or.inr (Or.inr ⟨rfl, _, rfl, rfl⟩), rfl⟩
      · exact ⟨p', hv, sameIdentity_refl _, deployEffect_refl _, rfl⟩

theorem GetProject_effect (st : State) (id : String) (docker : Option DockerClient)
    (j : String) (p' : Project)
    (h' : (GetProject st id docker).state.projectStore j = some p') :
    ∃ p, st.projectStore j = some p ∧
      SameIdentity p p' ∧ DeployEffect p p' ∧
      (∀ d infos, j = id → docker = some d → d.listContainers p.id = some (.ok infos) →
        p'.containers = infos.map (fun i => i.id)) ∧
      ((j ≠ id ∨ docker = none ∨
          ∃ d, docker = some d ∧ ∀ infos, d.listContainers p.id ≠ some (.ok infos)) →
        p'.containers = p.containers) := by
  unfold GetProject at h'
  cases hq : st.projectStore id with
  | none =>
    simp only [hq] at h'
    refine ⟨p', h', sameIdentity_refl _, deployEffect_refl _, ?_, fun _ => rfl⟩
    intro d infos hj
    subst hj
    rw [hq] at h'
    cases h'
  | some q =>
    simp only [hq] at h'
    cases docker with
    | none =>
      refine ⟨p', h', sameIdentity_refl _, deployEffect_refl _, ?_, fun _ => rfl⟩
      intro d infos _ hd
      cases hd
    | some d =>
      dsimp only at h'
      cases hl : d.listContainers q.id with
      | none =>
        simp only [hl] at h'
        refine ⟨p', h', sameIdentity_refl _, deployEffect_refl _, ?_, fun _ => rfl⟩
        intro d' infos hj hd hl'
        subst hj
        cases hd
        cases lookup_unique hq h'
        rw [hl] at hl'
        cases hl'
      | some r =>
        cases r with
        | error e =>
          simp only [hl] at h'
          refine ⟨p', h', sameIdentity_refl _, deployEffect_refl _, ?_, fun _ => rfl⟩
          intro d' infos hj hd hl'
          subst hj
          cases hd
          cases lookup_unique hq h'
          rw [hl] at hl'
          cases hl'
        | ok cs =>
          simp only [hl] at h'
          rcases storeSet_lookup _ _ _ _ _ h' with ⟨hj, hv⟩ | ⟨hj, hv⟩
          · subst hj
            subst hv
            refine ⟨q, hq, ⟨rfl, rfl, rfl, rfl⟩, Or.inl ⟨rfl, rfl⟩, ?_, ?_⟩
            · intro d' infos _ hd hl'
              cases hd
              rw [hl] at hl'
              cases hl'
              rfl
            · rintro (hne | hnone | ⟨d', hd, hno⟩)
              · exact absurd rfl hne
              · cases hnone
              · cases hd
                exact absurd hl (hno cs)
          · refine ⟨p', hv, sameIdentity_refl _, deployEffect_refl _, ?_, fun _ => rfl⟩
            intro d' infos hj'
            exact absurd hj' hj

/-- What the attach handler does to the containers of a project stored before and
after it: it appends the container id exactly when the body is well-formed, the
project is the one addressed, the runtime is available and the connection to the
project network succeeds. -/
theorem AddContainerToProject_containers (docker : Option DockerClient) (st : State)
    (projectID : String) (body : Except String String) (j : String) (p p' : Project)
    (h : st.projectStore j = some p)
    (h' : (AddContainerToProject docker st projectID body).state.projectStore j = some p') :
    (∀ d c u, j = projectID → body = .ok c → c ≠ "" → docker = some d →
      d.connectContainerToNetwork c p.networkID = .ok u →
      p'.containers = p.containers ++ [c]) ∧
    ((j ≠ projectID ∨ docker = none ∨ (∃ e, body = .error e) ∨ body = .ok "" ∨
        ∃ d c e, docker = some d ∧ body = .ok c ∧
          d.connectContainerToNetwork c p.networkID = .error e) →
      p'.containers = p.containers) := by
  have same : st.projectStore j = some p' →
      (∀ d c u, j = projectID → body = .ok c → c ≠ "" → docker = some d →
        d.connectContainerToNetwork c p.networkID = .ok u →
        p'.containers = p.containers ++ [c]) →
      (∀ d c u, j = projectID → body = .ok c → c ≠ "" → docker = some d →
        d.connectContainerToNetwork c p.networkID = .ok u →
        p'.containers = p.containers ++ [c]) ∧
      ((j ≠ projectID ∨ docker = none ∨ (∃ e, body = .error e) ∨ body = .ok "" ∨
          ∃ d c e, docker = some d ∧ body = .ok c ∧
            d.connectContainerToNetwork c p.networkID = .error e) →
        p'.containers = p.containers) :=
    fun hs hx => ⟨hx, fun _ => by rw [lookup_unique h hs]⟩
  unfold AddContainerToProject at h'
  cases body with
  | error e =>
    refine same h' ?_
    intro d c u _ hb
    cases hb
  | ok cid =>
    by_cases hc : cid = ""
    · simp only [hc, if_true] at h'
      refine same h' ?_
      intro d c u _ hb hne
      cases hb
      exact absurd hc hne
    · simp only [hc, if_false] at h'
      cases hq : st.projectStore projectID with
      | none =>
        simp only [hq] at h'
        refine same h' ?_
        intro d c u hj
        subst hj
        rw [hq] at h
        cases h
      | some q =>
        simp only [hq] at h'
        cases docker with
        | none =>
          refine same h' ?_
          intro d c u _ _ _ hd
          cases hd
        | some d =>
          dsimp only at h'
          cases hl : d.connectContainerToNetwork cid q.networkID with
          | error e =>
            simp only [hl] at h'
            refine same h' ?_
            intro d' c u hj hb _ hd hl'
            subst hj
            cases hb
            cases hd
            cases lookup_unique hq h
            rw [hl] at hl'
            cases hl'
          | ok u =>
            simp only [hl] at h'
            rcases storeSet_lookup _ _ _ _ _ h' with ⟨hj, hv⟩ | ⟨hj, hv⟩
            · subst hj
              subst hv
              cases lookup_unique hq h
              refine ⟨?_, ?_⟩
              · intro d' c u' _ hb _ _ _
                cases hb
                rfl
              · rintro (hne | hnone | ⟨e, hb⟩ | hb | ⟨d', c, e, hd, hb, hl'⟩)
                · exact absurd rfl hne
                · cases hnone
                · cases hb
                · cases hb
                  exact absurd rfl hc
                · cases hd
                  cases hb
                  rw [hl] at hl'
                  cases hl'
            · refine same hv ?_
              intro d' c u' hj'
              exact absurd hj' hj

/-- The effect of an operation of `MutStep` on a project stored after it. -/
theorem mutStep_effect (st st' : State) (hs : MutStep st st') (j : String) (p' : Project)
    (h' : st'.projectStore j = some p') :
    ∃ p, st.projectStore j = some p ∧
      SameIdentity p p' ∧ DeployEffect p p' ∧ p.containers <+: p'.containers := by
  cases hs with
  | update _ id body now =>
    obtain ⟨p, hp, a, b, c⟩ := UpdateProject_effect st id body now j p' h'
    exact ⟨p, hp, a, b, by rw [c]⟩
  | attach docker _ projectID body =>
    exact AddContainerToProject_effect docker st projectID body j p' h'
  | deploy _ id now deployID activityID =>
    obtain ⟨p, hp, a, b, c⟩ := DeployProject_effect st id now deployID activityID j p' h'
    exact ⟨p, hp, a, b, by rw [c]⟩
  | complete _ _ id finishedAt hc =>
    obtain ⟨p, hp, a, b, c⟩ := deployCompletion_effect st st' id finishedAt hc j p' h'
    exact ⟨p, hp, a, b, by rw [c]⟩

/-- The effect of an operation of `KeepStep` on a project stored after it. -/
theorem keepStep_effect (st st' : State) (hs : KeepStep st st') (j : String) (p' : Project)
    (h' : st'.projectStore j = some p') :
    ∃ p, st.projectStore j = some p ∧ SameIdentity p p' ∧ DeployEffect p p' := by
  cases hs with
  | write _ hm =>
    obtain ⟨p, hp, a, b, -⟩ := mutStep_effect st st' hm j p' h'
    exact ⟨p, hp, a, b⟩
  | get id docker =>
    obtain ⟨p, hp, a, b, -⟩ := GetProject_effect st id docker j p' h'
    exact ⟨p, hp, a, b⟩

/-- A project stored after `CreateProject` was stored before, or is the new idle
project, stored under its own id. -/
theorem CreateProject_stored (st : State) (body : Except String CreateProjectRequest)
    (now : Time) (newID activityID : String) (docker : Option DockerClient) (j : String)
    (p' : Project)
    (h' : (CreateProject st body now newID activityID docker).state.projectStore j = some p') :
    st.projectStore j = some p' ∨ (j = newID ∧ p'.id = newID ∧ p'.status = .idle) := by
  unfold CreateProject at h'
  cases hb : bindCreateProjectRequest body with
  | error e =>
    simp only [hb] at h'
    exact Or.inl h'
  | ok req =>
    simp only [hb] at h'
    cases docker with
    | none =>
      rcases storeSet_lookup _ _ _ _ _ h' with ⟨hj, hv⟩ | ⟨hj, hv⟩
      · subst hv; exact Or.inr ⟨hj, rfl, rfl⟩
      · exact Or.inl hv
    | some d =>
      dsimp only at h'
      cases hc : d.createProjectNetwork newID req.name with
      | error e =>
        simp only [hc] at h'
        rcases storeSet_lookup _ _ _ _ _ h' with ⟨hj, hv⟩ | ⟨hj, hv⟩
        · subst hv; exact Or.inr ⟨hj, rfl, rfl⟩
        · exact Or.inl hv
      | ok n =>
        simp only [hc] at h'
        rcases storeSet_lookup _ _ _ _ _ h' with ⟨hj, hv⟩ | ⟨hj, hv⟩
        · subst hv; exact Or.inr ⟨hj, rfl, rfl⟩
        · exact Or.inl hv

/-- A project stored after `DeleteProject` was stored before, unchanged. -/
theorem DeleteProject_stored (st : State) (id : String) (now : Time) (activityID : String)
    (docker : Option DockerClient) (j : String) (p' : Project)
    (h' : (DeleteProject st id now activityID docker).state.projectStore j = some p') :
    st.projectStore j = some p' := by
  unfold DeleteProject at h'
  cases hq : st.projectStore id with
  | none =>
    simp only [hq] at h'
    exact h'
  | some q =>
    simp only [hq] at h'
    by_cases hj : j = id
    · subst hj; simp at h'
    · simpa [hj] using h'

/-- Every operation of the registry other than create and delete is a `KeepStep`. -/
theorem step_cases (st st' : State) (hs : Step st st') :
    KeepStep st st' ∨
    (∃ body now newID activityID docker,
      st' = (CreateProject st body now newID activityID docker).state) ∨
    (∃ id now activityID docker, st' = (DeleteProject st id now activityID docker).state) := by
  cases hs with
  | create _ body now newID activityID docker fresh =>
    exact Or.inr (Or.inl ⟨body, now, newID, activityID, docker, rfl⟩)
  | get _ id docker => exact Or.inl (KeepStep.get st id docker)
  | update _ id body now => exact Or.inl (KeepStep.write _ _ (MutStep.update st id body now))
  | delete _ id now activityID docker =>
    exact Or.inr (Or.inr ⟨id, now, activityID, docker, rfl⟩)
  | attach docker _ projectID body =>
    exact Or.inl (KeepStep.write _ _ (MutStep.attach docker st projectID body))
  | deploy _ id now deployID activityID =>
    exact Or.inl (KeepStep.write _ _ (MutStep.deploy st id now deployID activityID))
  | complete _ _ id finishedAt hc =>
    exact Or.inl (KeepStep.write _ _ (MutStep.complete st st' id finishedAt hc))

/-- Every operation keeps `KeyInv` and `RunInv`. -/
theorem step_keyInv_runInv (st st' : State) (hs : Step st st')
    (hk : KeyInv st) (hr : RunInv st) : KeyInv st' ∧ RunInv st' := by
  rcases step_cases st st' hs with hkeep | ⟨body, now, newID, activityID, docker, e⟩ |
    ⟨id, now, activityID, docker, e⟩
  · constructor
    · intro j p' h'
      obtain ⟨p, hp, hid, -⟩ := keepStep_effect st st' hkeep j p' h'
      rw [hid.1]; exact hk j p hp
    · intro j p' h' hrun
      obtain ⟨p, hp, -, heff⟩ := keepStep_effect st st' hkeep j p' h'
      rcases heff with ⟨e1, e2⟩ | e1 | ⟨-, e2⟩
      · rw [e2]; exact hr j p hp (by rw [← e1]; exact hrun)
      · rw [e1] at hrun; cases hrun
      · exact e2
  · subst e
    constructor
    · intro j p' h'
      rcases CreateProject_stored st body now newID activityID docker j p' h' with h | ⟨h1, h2, -⟩
      · exact hk j p' h
      · rw [h2, h1]
    · intro j p' h' hrun
      rcases CreateProject_stored st body now newID activityID docker j p' h' with h | ⟨-, -, h3⟩
      · exact hr j p' h hrun
      · rw [h3] at hrun; cases hrun
  · subst e
    constructor
    · intro j p' h'
      exact hk j p' (DeleteProject_stored st id now activityID docker j p' h')
    · intro j p' h' hrun
      exact hr j p' (DeleteProject_stored st id now activityID docker j p' h') hrun

/-- Every reachable state satisfies `KeyInv` and `RunInv`. -/
theorem reachable_keyInv_runInv (st : State) (h : Reachable st) : KeyInv st ∧ RunInv st := by
  induction h with
  | init =>
    constructor
    · intro k p hp; simp [State.init] at hp
    · intro k p hp; simp [State.init] at hp
  | step st st' _ s ih => exact step_keyInv_runInv st st' s ih.1 ih.2

theorem option_eq_some_getD {α : Type} (o : Option α) (d : α) (h : o.isSome = true) :
    o = some (o.getD d) := by
  cases o with
  | none => simp at h
  | some a => rfl

set_option maxRecDepth 100000 in
theorem demoRunning_complete :
    deployCompletion demoDeploying "ab12cd34" 2000002000 = some demoRunning :=
  option_eq_some_getD _ _ (by decide)

theorem reachable_demoState : Reachable demoState :=
  Reachable.step _ _ Reachable.init
    (Step.create State.init (.ok demoRequest) 1000 "ab12cd34" "act00001" none rfl)

theorem reachable_demoDeploying : Reachable demoDeploying :=
  Reachable.step _ _ reachable_demoState
    (Step.deploy demoState "ab12cd34" 2000 "dep00001" "act00002")

theorem reachable_demoRunning : Reachable demoRunning :=
  Reachable.step _ _ reachable_demoDeploying
    (Step.complete demoDeploying demoRunning "ab12cd34" 2000002000 demoRunning_complete)

theorem reachable_demoAttached : Reachable demoAttached :=
  Reachable.step _ _ reachable_demoState
    (Step.attach (some workingDocker) demoState "ab12cd34" (.ok "c1"))

/-! ### The containers list -/

set_option maxRecDepth 100000 in
/-- C13 (as stated) fails: `demo` holds the attached container `c1`; a `GetProject`
while the runtime lists no container for the project replaces the list by the empty
list, of which `["c1"]` is not a prefix. -/
theorem C13_counterexample :
    Reachable demoAttached ∧
    KeepStep demoAttached (GetProject demoAttached "ab12cd34" (some workingDocker)).state ∧
    (demoAttached.projectStore "ab12cd34").map (fun p => p.containers) = some ["c1"] ∧
    ((GetProject demoAttached "ab12cd34" (some workingDocker)).state.projectStore
        "ab12cd34").map (fun p => p.containers) = some [] ∧
    ¬ (["c1"] <+: ([] : List String)) :=
  ⟨reachable_demoAttached, KeepStep.get _ _ _, by decide, by decide, by simp⟩

/-- C13 (amended): for a project stored before and after an operation, update,
attach, deploy trigger and deploy completion leave the old containers list a prefix
of the new one: update, deploy trigger and deploy completion keep the list, and
attach appends the container id when the body is well-formed, the project is the
one addressed and the connection to its network succeeds, and keeps the list
otherwise.  Get replaces the list of the project read by the ids of the listed
containers whenever the runtime is available and the listing succeeds, and keeps the
list otherwise (another project, no runtime, or a listing that returns an error or
panics). -/
theorem C13_containers (st st' : State) (j : String) (p p' : Project)
    (h : st.projectStore j = some p) (h' : st'.projectStore j = some p') :
    (MutStep st st' → p.containers <+: p'.containers) ∧
    (∀ id body now, st' = (UpdateProject st id body now).state →
      p'.containers = p.containers) ∧
    (∀ id now deployID activityID,
      st' = (DeployProject st id now deployID activityID).state →
      p'.containers = p.containers) ∧
    (∀ id finishedAt, deployCompletion st id finishedAt = some st' →
      p'.containers = p.containers) ∧
    (∀ docker projectID body, st' = (AddContainerToProject docker st projectID body).state →
      (∀ d c u, j = projectID → body = .ok c → c ≠ "" → docker = some d →
        d.connectContainerToNetwork c p.networkID = .ok u →
        p'.containers = p.containers ++ [c]) ∧
      ((j ≠ projectID ∨ docker = none ∨ (∃ e, body = .error e) ∨ body = .ok "" ∨
          ∃ d c e, docker = some d ∧ body = .ok c ∧
            d.connectContainerToNetwork c p.networkID = .error e) →
        p'.containers = p.containers)) ∧
    (∀ id docker, st' = (GetProject st id docker).state →
      (∀ d infos, j = id → docker = some d → d.listContainers p.id = some (.ok infos) →
        p'.containers = infos.map (fun i => i.id)) ∧
      ((j ≠ id ∨ docker = none ∨
          ∃ d, docker = some d ∧ ∀ infos, d.listContainers p.id ≠ some (.ok infos)) →
        p'.containers = p.containers)) := by
  refine ⟨?_, ?_, ?_, ?_, ?_, ?_⟩
  · intro hs
    obtain ⟨q, hq, -, -, hc⟩ := mutStep_effect st st' hs j p' h'
    cases lookup_unique h hq
    exact hc
  · intro id body now e
    subst e
    obtain ⟨q, hq, -, -, hc⟩ := UpdateProject_effect st id body now j p' h'
    cases lookup_unique h hq
    exact hc
  · intro id now deployID activityID e
    subst e
    obtain ⟨q, hq, -, -, hc⟩ := DeployProject_effect st id now deployID activityID j p' h'
    cases lookup_unique h hq
    exact hc
  · intro id finishedAt e
    obtain ⟨q, hq, -, -, hc⟩ := deployCompletion_effect st st' id finishedAt e j p' h'
    cases lookup_unique h hq
    exact hc
  · intro docker projectID body e
    subst e
    exact AddContainerToProject_containers docker st projectID body j p p' h h'
  · intro id docker e
    subst e
    obtain ⟨q, hq, -, -, hc⟩ := GetProject_effect st id docker j p' h'
    cases lookup_unique h hq
    exact hc

set_option maxRecDepth 100000 in
/-- Witness for `C13_containers`: attaching `c1` to `demo` appends it to the empty
list; reading `demo` afterwards while the runtime lists the container `web` for it
replaces `["c1"]` by the id of `web`, and reading it on a runtime whose listing
fails keeps `["c1"]`. -/
theorem C13_containers_witness :
    (demoState.projectStore "ab12cd34").map (fun p => p.containers) = some [] ∧
    (demoAttached.projectStore "ab12cd34").map (fun p => p.containers) = some ["c1"] ∧
    ((demoState.projectStore "ab12cd34").get (by decide)).containers <+:
      ((demoAttached.projectStore "ab12cd34").get (by decide)).containers ∧
    ((demoAttached.projectStore "ab12cd34").get (by decide)).containers
      = ((demoState.projectStore "ab12cd34").get (by decide)).containers ++ ["c1"] ∧
    (((GetProject demoAttached "ab12cd34" (some listingDocker)).state.projectStore
        "ab12cd34").get (by decide)).containers = ["0123456789ab"] ∧
    (((GetProject demoAttached "ab12cd34" (some failingDocker)).state.projectStore
        "ab12cd34").get (by decide)).containers
      = ((demoAttached.projectStore "ab12cd34").get (by decide)).containers :=
  ⟨by decide, by decide,
   (C13_containers demoState demoAttached "ab12cd34"
      ((demoState.projectStore "ab12cd34").get (by decide))
      ((demoAttached.projectStore "ab12cd34").get (by decide)) (by decide) (by decide)).1
      (MutStep.attach (some workingDocker) demoState "ab12cd34" (.ok "c1")),
   ((C13_containers demoState demoAttached "ab12cd34"
      ((demoState.projectStore "ab12cd34").get (by decide))
      ((demoAttached.projectStore "ab12cd34").get (by decide)) (by decide)
      (by decide)).2.2.2.2.1 (some workingDocker) "ab12cd34" (.ok "c1") rfl).1
      workingDocker "c1" () rfl rfl (by decide) rfl rfl,
   ((C13_containers demoAttached
      (GetProject demoAttached "ab12cd34" (some listingDocker)).state "ab12cd34"
      ((demoAttached.projectStore "ab12cd34").get (by decide))
      (((GetProject demoAttached "ab12cd34" (some listingDocker)).state.projectStore
        "ab12cd34").get (by decide)) (by decide)
      (by decide)).2.2.2.2.2 "ab12cd34" (some listingDocker) rfl).1
      listingDocker
      [{ id := "0123456789ab", name := "web", image := "nginx", status := "running",
         state := "running", projectID := "ab12cd34",
         labels := some [("biz-panel.project", "ab12cd34")], networks := [] }]
      rfl rfl (by decide),
   ((C13_containers demoAttached
      (GetProject demoAttached "ab12cd34" (some failingDocker)).state "ab12cd34"
      ((demoAttached.projectStore "ab12cd34").get (by decide))
      (((GetProject demoAttached "ab12cd34" (some failingDocker)).state.projectStore
        "ab12cd34").get (by decide)) (by decide)
      (by decide)).2.2.2.2.2 "ab12cd34" (some failingDocker) rfl).2
      (Or.inr (Or.inr ⟨failingDocker, rfl, fun _ hl => by cases hl⟩))⟩

/-! ### Running projects -/

set_option maxRecDepth 100000 in
/-- C14 (as stated) fails: after create, deploy trigger and deploy completion, `demo`
is running, has no entry in containers, and its type is `docker`, neither `static`
nor `git`. -/
theorem C14_counterexample :
    Reachable demoRunning ∧
    (demoRunning.projectStore "ab12cd34").map (fun p => (p.status, p.containers, p.type))
      = some (ProjectStatus.running, [], "docker") ∧
    "docker" ≠ ProjectTypeStatic ∧ "docker" ≠ ProjectTypeGit :=
  ⟨reachable_demoRunning, by decide, by decide, by decide⟩

/-- C14 (amended): in every state of the project store reachable from the empty
store by create, get, update, attach, deploy trigger, deploy completion and delete,
every project whose status is running holds a `lastDeploy` whose status is
`success`. -/
theorem C14_running_has_deploy (st : State) (hr : Reachable st) (k : String) (p : Project)
    (h : st.projectStore k = some p) (hrun : p.status = .running) :
    ∃ d, p.lastDeploy = some d ∧ d.status = .success :=
  (reachable_keyInv_runInv st hr).2 k p h hrun

set_option maxRecDepth 100000 in
/-- Witness for `C14_running_has_deploy`: the running `demo`. -/
theorem C14_running_has_deploy_witness :
    Reachable demoRunning ∧
    (demoRunning.projectStore "ab12cd34").map (fun p => p.status) = some .running ∧
    ∃ d, ((demoRunning.projectStore "ab12cd34").get (by decide)).lastDeploy = some d ∧
      d.status = .success :=
  ⟨reachable_demoRunning, by decide,
   C14_running_has_deploy demoRunning reachable_demoRunning "ab12cd34"
      ((demoRunning.projectStore "ab12cd34").get (by decide)) (by decide) (by decide)⟩

/-! ### Identity of a stored project -/

/-- C15: for a project stored before and after an operation other than create and
delete (get, update, attach, deploy trigger, deploy completion), its id, networkId
and createdAt are the same after the operation as before; and in every reachable
state each project is stored under the key that equals its id. -/
theorem C15_identity (st st' : State) (hr : Reachable st) (hs : KeepStep st st')
    (j : String) (p p' : Project)
    (h : st.projectStore j = some p) (h' : st'.projectStore j = some p') :
    p'.id = p.id ∧ p'.networkID = p.networkID ∧ p'.createdAt = p.createdAt ∧
    p.id = j ∧ p'.id = j := by
  obtain ⟨q, hq, hid, -⟩ := keepStep_effect st st' hs j p' h'
  cases lookup_unique h hq
  have hk := (reachable_keyInv_runInv st hr).1 j p h
  exact ⟨hid.1, hid.2.1, hid.2.2.1, hk, by rw [hid.1]; exact hk⟩

set_option maxRecDepth 100000 in
/-- Witness for `C15_identity`: the deploy trigger on `demo`. -/
theorem C15_identity_witness :
    Reachable demoState ∧ KeepStep demoState demoDeploying ∧
    (demoDeploying.projectStore "ab12cd34").map
        (fun p => (p.id, p.networkID, p.createdAt))
      = some ("ab12cd34", "biz-panel-ab12cd34", 1000) ∧
    ((demoDeploying.projectStore "ab12cd34").get (by decide)).id
      = ((demoState.projectStore "ab12cd34").get (by decide)).id :=
  ⟨reachable_demoState,
   KeepStep.write _ _ (MutStep.deploy demoState "ab12cd34" 2000 "dep00001" "act00002"),
   by decide,
   (C15_identity demoState demoDeploying reachable_demoState
      (KeepStep.write _ _ (MutStep.deploy demoState "ab12cd34" 2000 "dep00001" "act00002"))
      "ab12cd34" ((demoState.projectStore "ab12cd34").get (by decide))
      ((demoDeploying.projectStore "ab12cd34").get (by decide)) (by decide) (by decide)).1⟩

/-! ### Network removal -/

set_option maxRecDepth 100000 in
/-- C18 (as stated) fails: on the reference runtime, which holds the network `net-1`,
the first `RemoveNetwork` succeeds and the second returns the runtime's error
`No such network: net-1`; and the API handler answers 500 when the client reports a
missing network. -/
theorem C18_counterexample :
    (Client.RemoveNetwork dockerd hostX "net-1").1 = .ok () ∧
    (Client.RemoveNetwork dockerd (Client.RemoveNetwork dockerd hostX "net-1").2 "net-1").1
      = .error "No such network: net-1" ∧
    (RemoveNetwork (some goneDocker) State.init "net-1").response.code
      = StatusInternalServerError := by
  decide

/-- C18 (amended): `RemoveNetwork` returns what the runtime answers, unchanged: when
the runtime reports that the network does not exist, `RemoveNetwork` returns that
error and the API handler answers 500; on the reference runtime, which reports a
missing network as an error, a second `RemoveNetwork` on the same id always returns
that error. -/
theorem C18_remove_network (σ : Type) (cli : Engine σ) (s s' : σ) (id e : String)
    (d : DockerClient) (st : State)
    (h : cli.networkRemove s id = (.error e, s')) (hd : d.removeNetwork id = .error e) :
    Client.RemoveNetwork cli s id = (.error e, s') ∧
    (RemoveNetwork (some d) st id).response.code = StatusInternalServerError ∧
    (RemoveNetwork (some d) st id).state = st ∧
    (∀ host : Host,
      (Client.RemoveNetwork dockerd (Client.RemoveNetwork dockerd host id).2 id).1
        = .error ("No such network: " ++ id)) := by
  refine ⟨h, by simp [RemoveNetwork, hd], by simp [RemoveNetwork, hd], ?_⟩
  intro host
  by_cases hin : id ∈ host.networks
  · simp [Client.RemoveNetwork, dockerd, hin]
  · simp [Client.RemoveNetwork, dockerd, hin]

set_option maxRecDepth 100000 in
/-- Witness for `C18_remove_network`: the network `net-2` does not exist on
`hostX`. -/
theorem C18_remove_network_witness :
    dockerd.networkRemove hostX "net-2" = (.error "No such network: net-2", hostX) ∧
    goneDocker.removeNetwork "net-2" = .error "No such network: net-2" ∧
    Client.RemoveNetwork dockerd hostX "net-2" = (.error "No such network: net-2", hostX) ∧
    (RemoveNetwork (some goneDocker) State.init "net-2").response.code
      = StatusInternalServerError := by
  have h1 : dockerd.networkRemove hostX "net-2" = (.error "No such network: net-2", hostX) := by
    simp [dockerd, hostX]
  have h2 : goneDocker.removeNetwork "net-2" = .error "No such network: net-2" := by
    simp [goneDocker]
  have h := C18_remove_network Host dockerd hostX hostX "net-2" "No such network: net-2"
    goneDocker State.init h1 h2
  exact ⟨h1, h2, h.1, h.2.1⟩

/-! ### Listing by project -/

theorem splitFirstEq_project (X : String) :
    splitFirstEq ("biz-panel.project=" ++ X) = ("biz-panel.project", some X) := by
  have hdata : ("biz-panel.project=" ++ X).data
      = "biz-panel.project".data ++ '=' :: X.data := by
    rw [String.data_append]
    rfl
  have hall : ∀ c ∈ "biz-panel.project".data, (fun c => decide (c ≠ '=')) c = true := by
    decide
  unfold splitFirstEq
  rw [hdata, List.span_eq_take_drop, List.takeWhile_append_of_pos hall,
    List.dropWhile_append_of_pos hall]
  simp

theorem labelFilterMatches_project (labels : StringMap) (X : String) :
    labelFilterMatches labels ("biz-panel.project=" ++ X)
      = (match labels with
          | none => false
          | some kv => kv.lookup "biz-panel.project" == some X) := by
  unfold labelFilterMatches
  rw [splitFirstEq_project]
  cases labels with
  | none => rfl
  | some kv =>
    cases hl : kv.lookup "biz-panel.project" with
    | none => simp [hl]
    | some v => simp [hl]

theorem infoOfContainer_summary (c : StoredContainer) (h : 12 ≤ c.id.length) :
    Client.infoOfContainer c.summary = some (storedInfo c) := by
  simp [Client.infoOfContainer, StoredContainer.summary, sliceTo, h, storedInfo]

theorem infosOfContainers_summary (cs : List StoredContainer)
    (h : ∀ c ∈ cs, 12 ≤ c.id.length) :
    Client.infosOfContainers (cs.map StoredContainer.summary) = some (cs.map storedInfo) := by
  induction cs with
  | nil => rfl
  | cons c rest ih =>
    have h1 := infoOfContainer_summary c (h c (List.mem_cons_self _ _))
    have h2 := ih (fun x hx => h x (List.mem_cons_of_mem _ hx))
    simp only [List.map_cons, Client.infosOfContainers, h1, h2]

set_option maxRecDepth 100000 in
/-- C19 (as stated) fails: the filter sent for project `X` is
`biz-panel.project=X`, not `project=X`; on `hostX` the listing for `X` returns the
container labelled `biz-panel.project=X`, whose `labels["project"]` is not `X`, and
does not return the container labelled `project=X`. -/
theorem C19_counterexample :
    Client.listOptions "X" = ⟨true, [("label", "biz-panel.project=X")]⟩ ∧
    Client.listOptions "X" ≠ ⟨true, [("label", "project=X")]⟩ ∧
    (hostX.containers.map (fun c => (c.name, c.config.labels)))
      = [("web", some [("biz-panel.project", "X")]), ("other", some [("project", "X")])] ∧
    (Client.ListContainers dockerd hostX "X").map
        (fun r => r.map (fun infos => infos.map (fun i => (i.name, mapGet i.labels "project"))))
      = some (.ok [("web", "")]) ∧
    "" ≠ "X" := by
  decide

/-- C19 (amended): for a non-empty project id `X`, `ListContainers` sends the single
filter `label=biz-panel.project=X` and does no filtering of its own: on the reference
runtime, which honours label filters, it returns one projection for each container
that carries the label `biz-panel.project` with value `X`, in the runtime's order, so
that every returned `ContainerInfo` has `labels["biz-panel.project"] == X` and
`projectId == X`; with an empty project id no filter is sent and all containers are
returned. -/
theorem C19_list_by_project (host : Host) (X : String) (hX : X ≠ "")
    (hids : ∀ c ∈ host.containers, 12 ≤ c.id.length) :
    Client.listOptions X = ⟨true, [("label", "biz-panel.project=" ++ X)]⟩ ∧
    Client.ListContainers dockerd host X
      = some (.ok ((host.containers.filter (hasProjectLabel X)).map storedInfo)) ∧
    (∀ i ∈ (host.containers.filter (hasProjectLabel X)).map storedInfo,
      mapGet i.labels "biz-panel.project" = X ∧ i.projectID = X) ∧
    Client.listOptions "" = ⟨true, []⟩ ∧
    Client.ListContainers dockerd host "" = some (.ok (host.containers.map storedInfo)) := by
  have hopt : Client.listOptions X = ⟨true, [("label", "biz-panel.project=" ++ X)]⟩ := by
    simp [Client.listOptions, hX]
  have hfilter : ∀ (cs : List StoredContainer),
      cs.filter (fun c => labelFilterMatches c.config.labels ("biz-panel.project=" ++ X))
        = cs.filter (hasProjectLabel X) := by
    intro cs
    congr 1
    funext c
    rw [labelFilterMatches_project]
    rfl
  refine ⟨hopt, ?_, ?_, by simp [Client.listOptions], ?_⟩
  · unfold Client.ListContainers
    rw [hopt]
    have hlist : dockerd.containerList host ⟨true, [("label", "biz-panel.project=" ++ X)]⟩
        = .ok ((host.containers.filter (hasProjectLabel X)).map StoredContainer.summary) := by
      simp [dockerd, hfilter]
    rw [hlist]
    simp only
    rw [infosOfContainers_summary _ (fun c hc => hids c (List.mem_of_mem_filter hc))]
  · intro i hi
    obtain ⟨c, hc, rfl⟩ := List.mem_map.mp hi
    have hl := (List.mem_filter.mp hc).2
    unfold hasProjectLabel at hl
    cases hlab : c.config.labels with
    | none => simp [hlab] at hl
    | some kv =>
      simp [hlab] at hl
      simp [storedInfo, mapGet, hlab, hl]
  · unfold Client.ListContainers
    have hlist : dockerd.containerList host (Client.listOptions "")
        = .ok (host.containers.map StoredContainer.summary) := by
      simp [dockerd, Client.listOptions]
    rw [hlist]
    simp only
    rw [infosOfContainers_summary _ hids]

set_option maxRecDepth 100000 in
/-- Witness for `C19_list_by_project`: project `X` on `hostX`. -/
theorem C19_list_by_project_witness :
    "X" ≠ "" ∧ (∀ c ∈ hostX.containers, 12 ≤ c.id.length) ∧
    (Client.ListContainers dockerd hostX "X").map
        (fun r => r.map (fun infos => infos.map (fun i => (i.id, i.name, i.projectID))))
      = some (.ok [("0123456789ab", "web", "X")]) ∧
    Client.ListContainers dockerd hostX "X"
      = some (.ok ((hostX.containers.filter (hasProjectLabel "X")).map storedInfo)) :=
  ⟨by decide, by decide, by decide,
   (C19_list_by_project hostX "X" (by decide) (by decide)).2.1⟩

/-! ### Round trip of labels -/

/-- The containers of the reference runtime after `CreateContainer`: the old ones,
unchanged in id, and last the new one, with the new id and the configuration built
from the options. -/
theorem CreateContainer_dockerd (host : Host) (opts : CreateContainerOptions) :
    (Client.CreateContainer dockerd host opts).1 = .ok (host.idGen host.containers.length) ∧
    ∃ old new,
      (Client.CreateContainer dockerd host opts).2.containers = old ++ [new] ∧
      old.map (fun c => c.id) = host.containers.map (fun c => c.id) ∧
      new.id = host.idGen host.containers.length ∧
      new.config = Client.containerConfig opts := by
  have key : ∀ s1 : Host, s1.containers = host.containers → s1.idGen = host.idGen →
      (match dockerd.containerCreate s1 (Client.containerConfig opts) (Client.hostConfig opts)
          opts.name with
        | (.error e, s2) => ((.error ("failed to create container: " ++ e), s2) :
            Except String String × Host)
        | (.ok id, s2) =>
          if opts.network ≠ "" then (.ok id, (dockerd.networkConnect s2 opts.network id).2)
          else (.ok id, s2)).1 = .ok (host.idGen host.containers.length) ∧
      ∃ old new,
        (match dockerd.containerCreate s1 (Client.containerConfig opts)
            (Client.hostConfig opts) opts.name with
          | (.error e, s2) => ((.error ("failed to create container: " ++ e), s2) :
              Except String String × Host)
          | (.ok id, s2) =>
            if opts.network ≠ "" then (.ok id, (dockerd.networkConnect s2 opts.network id).2)
            else (.ok id, s2)).2.containers = old ++ [new] ∧
        old.map (fun c => c.id) = host.containers.map (fun c => c.id) ∧
        new.id = host.idGen host.containers.length ∧
        new.config = Client.containerConfig opts := by
    intro s1 hc hg
    simp only [dockerd, hc, hg]
    by_cases hn : opts.network = ""
    · simp only [hn, ne_eq, not_true_eq_false, if_false]
      exact ⟨trivial, host.containers, _, rfl, rfl, rfl, rfl⟩
    · simp only [hn, ne_eq, not_false_eq_true, if_true]
      refine ⟨trivial, ?_⟩
      split_ifs with hcond
      · refine ⟨host.containers.map (fun c =>
            if c.id = host.idGen host.containers.length then
              { c with networks := c.networks ++ [opts.network] } else c),
          (fun c : StoredContainer =>
            if c.id = host.idGen host.containers.length then
              { c with networks := c.networks ++ [opts.network] } else c)
            ⟨host.idGen host.containers.length, opts.name, Client.containerConfig opts,
              Client.hostConfig opts, [], "created"⟩, ?_, ?_, ?_, ?_⟩
        · simp only [List.map_append, List.map_cons, List.map_nil]
        · rw [List.map_map]
          apply List.map_congr_left
          intro c _
          simp only [Function.comp]
          split_ifs <;> rfl
        · simp
        · simp
      · exact ⟨host.containers, _, rfl, rfl, rfl, rfl⟩
  unfold Client.CreateContainer
  by_cases himg : opts.image ∈ host.images
  · have h1 : dockerd.imageInspect host opts.image = .ok () := by simp [dockerd, himg]
    simp only [h1]
    exact key host rfl rfl
  · have h1 : dockerd.imageInspect host opts.image
        = .error ("No such image: " ++ opts.image) := by simp [dockerd, himg]
    have h2 : dockerd.imagePull host opts.image
        = (.ok (), { host with images := opts.image :: host.images }) := by simp [dockerd]
    simp only [h1, h2]
    exact key { host with images := opts.image :: host.images } rfl rfl

theorem find_last (old : List StoredContainer) (new : StoredContainer) (id : String)
    (hold : ∀ c ∈ old, c.id ≠ id) (hnew : new.id = id) :
    (old ++ [new]).find? (fun c => c.id == id) = some new := by
  rw [List.find?_append]
  have : old.find? (fun c => c.id == id) = none := by
    rw [List.find?_eq_none]
    intro c hc
    simpa using hold c hc
  rw [this]
  simp [hnew]

/-- C20: on the reference runtime, which stores the configuration it is given,
`CreateContainer` with labels `L` followed immediately by `GetContainer` on the
returned id yields a projection whose labels are `L` and whose projectId is the value
of the project label `biz-panel.project` in `L`; for the labels `DeployTemplate`
builds for a project, that is the project id given at creation. -/
theorem C20_label_round_trip (host : Host) (opts : CreateContainerOptions)
    (hlen : 12 ≤ (host.idGen host.containers.length).length)
    (hfresh : ∀ c ∈ host.containers, c.id ≠ host.idGen host.containers.length) :
    ∃ id info,
      (Client.CreateContainer dockerd host opts).1 = .ok id ∧
      Client.GetContainer dockerd (Client.CreateContainer dockerd host opts).2 id
        = some (.ok info) ∧
      info.labels = opts.labels ∧
      info.projectID = mapGet opts.labels "biz-panel.project" ∧
      (∀ templateID projectID, opts.labels = templateLabels templateID projectID →
        info.projectID = projectID) := by
  obtain ⟨hid, old, new, hcs, hold, hnew, hcfg⟩ := CreateContainer_dockerd host opts
  have holdids : ∀ c ∈ old, c.id ≠ host.idGen host.containers.length := by
    intro c hc
    have hmem : c.id ∈ old.map (fun c => c.id) := List.mem_map.mpr ⟨c, hc, rfl⟩
    rw [hold] at hmem
    obtain ⟨c0, hc0, e⟩ := List.mem_map.mp hmem
    rw [← e]
    exact hfresh c0 hc0
  have hfind := find_last old new _ holdids hnew
  have hslice : sliceTo new.id 12 = some (new.id.take 12) := by
    simp [sliceTo, hnew, hlen]
  have hlabels : new.config.labels = opts.labels := by
    rw [hcfg]; rfl
  have hinsp : dockerd.containerInspect (Client.CreateContainer dockerd host opts).2
      (host.idGen host.containers.length) = .ok new.inspect := by
    show (match (Client.CreateContainer dockerd host opts).2.containers.find?
        (fun c => c.id == host.idGen host.containers.length) with
      | some c => Except.ok c.inspect
      | none => Except.error ("No such container: " ++ host.idGen host.containers.length)) = _
    rw [hcs, hfind]
  refine ⟨_, storedInfo new, hid, ?_, hlabels, ?_, ?_⟩
  · simp only [Client.GetContainer, hinsp, StoredContainer.inspect, hslice]
    rfl
  · simp only [storedInfo, hlabels]
  · intro templateID projectID e
    simp only [storedInfo, hlabels, e]
    simp [templateLabels, mapGet, List.lookup]

set_option maxRecDepth 100000 in
/-- Witness for `C20_label_round_trip`: a container of template `nginx` created for
project `X` on `hostX`. -/
theorem C20_label_round_trip_witness :
    12 ≤ (hostX.idGen hostX.containers.length).length ∧
    (∀ c ∈ hostX.containers, c.id ≠ hostX.idGen hostX.containers.length) ∧
    templateOpts.labels = templateLabels "nginx" "X" ∧
    ∃ id info,
      (Client.CreateContainer dockerd hostX templateOpts).1 = .ok id ∧
      Client.GetContainer dockerd (Client.CreateContainer dockerd hostX templateOpts).2 id
        = some (.ok info) ∧
      info.labels = templateOpts.labels ∧ info.projectID = "X" := by
  refine ⟨by decide, by decide, rfl, ?_⟩
  obtain ⟨id, info, h1, h2, h3, -, h5⟩ :=
    C20_label_round_trip hostX templateOpts (by decide) (by decide)
  exact ⟨id, info, h1, h2, h3, h5 "nginx" "X" rfl⟩

/-! ### Network and block counters -/

/-- The network loop of `GetContainerStats` computes the two sums modulo `2 ^ 64`. -/
theorem networkFold_eq (l : List (String × NetworkStats)) (a b : Nat) :
    l.foldl (fun (acc : Nat × Nat) n => (u64Add acc.1 n.2.rxBytes, u64Add acc.2 n.2.txBytes))
        (a % 2 ^ 64, b % 2 ^ 64)
      = ((a + (l.map (fun n => n.2.rxBytes)).sum) % 2 ^ 64,
         (b + (l.map (fun n => n.2.txBytes)).sum) % 2 ^ 64) := by
  induction l generalizing a b with
  | nil => simp
  | cons x rest ih =>
    have h := ih (a + x.2.rxBytes) (b + x.2.txBytes)
    simp only [u64Add, List.foldl_cons, List.map_cons, List.sum_cons, Nat.mod_add_mod,
      Nat.add_assoc] at h ⊢
    exact h

/-- The block-I/O loop of `GetContainerStats` computes the sums, modulo `2 ^ 64`, over
the entries with `Op` equal to `Read` and to `Write`. -/
theorem blockFold_eq (l : List BlkioStatEntry) (a b : Nat) :
    l.foldl blockStep (a % 2 ^ 64, b % 2 ^ 64)
      = ((a + ((l.filter (fun e => e.op = "Read")).map (fun e => e.value)).sum) % 2 ^ 64,
         (b + ((l.filter (fun e => e.op = "Write")).map (fun e => e.value)).sum) % 2 ^ 64) := by
  induction l generalizing a b with
  | nil => simp
  | cons x rest ih =>
    rw [List.foldl_cons]
    by_cases hr : x.op = "Read"
    · have hstep : blockStep (a % 2 ^ 64, b % 2 ^ 64) x = ((a + x.value) % 2 ^ 64, b % 2 ^ 64) := by
        simp [blockStep, hr, u64Add]
      rw [hstep, ih]
      simp [List.filter_cons, hr, Nat.add_assoc]
    · by_cases hw : x.op = "Write"
      · have hstep :
            blockStep (a % 2 ^ 64, b % 2 ^ 64) x = (a % 2 ^ 64, (b + x.value) % 2 ^ 64) := by
          simp [blockStep, hw, u64Add]
        rw [hstep, ih]
        simp [List.filter_cons, hw, Nat.add_assoc]
      · have hstep : blockStep (a % 2 ^ 64, b % 2 ^ 64) x = (a % 2 ^ 64, b % 2 ^ 64) := by
          simp [blockStep, hr, hw]
        rw [hstep, ih]
        simp [List.filter_cons, hr, hw]

/-- C23: for every stats sample, `GetContainerStats` reports `networkRx`/`networkTx`
as the sums modulo `2 ^ 64` of `RxBytes`/`TxBytes` over all interfaces and
`blockRead`/`blockWrite` as the sums modulo `2 ^ 64` of `Value` over exactly the
entries whose `Op` is `Read`/`Write`; a sample with the same interfaces and entries in
another order gives the same four results. -/
theorem C23_network_block_sums (s s' : StatsJSON)
    (hn : s'.networks.Perm s.networks)
    (hb : s'.ioServiceBytesRecursive.Perm s.ioServiceBytesRecursive) :
    ∃ r r', getContainerStats (.ok s) = .ok r ∧ getContainerStats (.ok s') = .ok r' ∧
      r.networkRx = (s.networks.map (fun n => n.2.rxBytes)).sum % 2 ^ 64 ∧
      r.networkTx = (s.networks.map (fun n => n.2.txBytes)).sum % 2 ^ 64 ∧
      r.blockRead =
        ((s.ioServiceBytesRecursive.filter (fun e => e.op = "Read")).map
          (fun e => e.value)).sum % 2 ^ 64 ∧
      r.blockWrite =
        ((s.ioServiceBytesRecursive.filter (fun e => e.op = "Write")).map
          (fun e => e.value)).sum % 2 ^ 64 ∧
      r'.networkRx = r.networkRx ∧ r'.networkTx = r.networkTx ∧
      r'.blockRead = r.blockRead ∧ r'.blockWrite = r.blockWrite := by
  have hnet := fun l => networkFold_eq l 0 0
  have hblk := fun l => blockFold_eq l 0 0
  simp only [Nat.zero_mod, Nat.zero_add] at hnet hblk
  refine ⟨_, _, rfl, rfl, ?_, ?_, ?_, ?_, ?_, ?_, ?_, ?_⟩
  · show (s.networks.foldl _ (0, 0)).1 = _
    rw [hnet]
  · show (s.networks.foldl _ (0, 0)).2 = _
    rw [hnet]
  · show (s.ioServiceBytesRecursive.foldl blockStep (0, 0)).1 = _
    rw [hblk]
  · show (s.ioServiceBytesRecursive.foldl blockStep (0, 0)).2 = _
    rw [hblk]
  · show (s'.networks.foldl _ (0, 0)).1 = (s.networks.foldl _ (0, 0)).1
    rw [hnet, hnet]
    dsimp only
    rw [(hn.map _).sum_eq]
  · show (s'.networks.foldl _ (0, 0)).2 = (s.networks.foldl _ (0, 0)).2
    rw [hnet, hnet]
    dsimp only
    rw [(hn.map _).sum_eq]
  · show (s'.ioServiceBytesRecursive.foldl blockStep (0, 0)).1 =
      (s.ioServiceBytesRecursive.foldl blockStep (0, 0)).1
    rw [hblk, hblk]
    dsimp only
    rw [((hb.filter _).map _).sum_eq]
  · show (s'.ioServiceBytesRecursive.foldl blockStep (0, 0)).2 =
      (s.ioServiceBytesRecursive.foldl blockStep (0, 0)).2
    rw [hblk, hblk]
    dsimp only
    rw [((hb.filter _).map _).sum_eq]

/-- Witness for C23: a sample with two interfaces and three block entries (one with
`Op` equal to `Sync`), against the same sample with both lists reversed. -/
theorem C23_network_block_sums_witness :
    ∃ r r', getContainerStats (.ok mixedSample) = .ok r ∧
      getContainerStats (.ok mixedSampleReversed) = .ok r' ∧
      r.networkRx = (mixedSample.networks.map (fun n => n.2.rxBytes)).sum % 2 ^ 64 ∧
      r.networkTx = (mixedSample.networks.map (fun n => n.2.txBytes)).sum % 2 ^ 64 ∧
      r.blockRead =
        ((mixedSample.ioServiceBytesRecursive.filter (fun e => e.op = "Read")).map
          (fun e => e.value)).sum % 2 ^ 64 ∧
      r.blockWrite =
        ((mixedSample.ioServiceBytesRecursive.filter (fun e => e.op = "Write")).map
          (fun e => e.value)).sum % 2 ^ 64 ∧
      r'.networkRx = r.networkRx ∧ r'.networkTx = r.networkTx ∧
      r'.blockRead = r.blockRead ∧ r'.blockWrite = r.blockWrite :=
  C23_network_block_sums mixedSample mixedSampleReversed
    (List.reverse_perm _) (List.reverse_perm _)

/-! ### Operations on an absent project -/

/-- C24: every project operation addressed to an id that is absent from the store
(get, update with any body, delete, deploy, logs, list containers, and attach
container with a well-formed body) answers 404, leaves the stores as they were and
issues no call to the container runtime. -/
theorem C24_absent_project_not_found (st : State) (id : String)
    (h : st.projectStore id = none) (docker : Option DockerClient)
    (updateBody : Except String UpdateProjectRequest) (now : Time)
    (activityID deployID containerID : String) (hc : containerID ≠ "") :
    ∀ r ∈ [GetProject st id docker, UpdateProject st id updateBody now,
        DeleteProject st id now activityID docker,
        DeployProject st id now deployID activityID,
        GetProjectLogs st id, GetProjectContainers docker st id,
        AddContainerToProject docker st id (.ok containerID)],
      r.response.code = StatusNotFound ∧ r.state = st ∧ r.calls = [] := by
  intro r hr
  simp only [List.mem_cons, List.mem_singleton, List.not_mem_nil, or_false] at hr
  rcases hr with hr | hr | hr | hr | hr | hr | hr <;> subst hr
  · simp [GetProject, h]
  · simp [UpdateProject, h]
  · simp [DeleteProject, h]
  · simp [DeployProject, h]
  · simp [GetProjectLogs, h]
  · simp [GetProjectContainers, h]
  · simp [AddContainerToProject, h, hc]

/-- Witness for C24: the operations on the id `zz99zz99` in the registry that holds
only the project `ab12cd34`, with a working runtime; shown for the first and the last
of the seven operations. -/
theorem C24_absent_project_not_found_witness :
    ((GetProject demoState "zz99zz99" (some workingDocker)).response.code = StatusNotFound ∧
      (GetProject demoState "zz99zz99" (some workingDocker)).state = demoState ∧
      (GetProject demoState "zz99zz99" (some workingDocker)).calls = []) ∧
    ((AddContainerToProject (some workingDocker) demoState "zz99zz99"
        (.ok "c1")).response.code = StatusNotFound ∧
      (AddContainerToProject (some workingDocker) demoState "zz99zz99" (.ok "c1")).state
        = demoState ∧
      (AddContainerToProject (some workingDocker) demoState "zz99zz99" (.ok "c1")).calls
        = []) :=
  ⟨C24_absent_project_not_found demoState "zz99zz99" (by decide) (some workingDocker)
      (.ok renameRequest) 3000 "act00009" "dep00009" "c1" (by decide) _
      (List.mem_cons_self _ _),
    C24_absent_project_not_found demoState "zz99zz99" (by decide) (some workingDocker)
      (.ok renameRequest) 3000 "act00009" "dep00009" "c1" (by decide) _
      (by simp)⟩

/-! ### The activity log -/

/-- One `addActivity` on the last 100 entries of a list gives the last 100 entries
of the list extended by the new entry. -/
theorem addActivity_drop (l : List Activity) (a : Activity) :
    addActivity (l.drop (l.length - 100)) a = (l ++ [a]).drop ((l ++ [a]).length - 100) := by
  unfold addActivity
  simp only [List.length_append, List.length_drop, List.length_singleton]
  by_cases hl : l.length < 100
  · have h0 : l.length - 100 = 0 := by omega
    have h1 : l.length + 1 - 100 = 0 := by omega
    rw [h0, h1]
    simp only [List.drop_zero, Nat.sub_zero]
    rw [if_neg (by omega)]
  · rw [if_pos (by omega)]
    have h2 : l.length - (l.length - 100) + 1 - 100 = 1 := by omega
    have h3 : l.length + 1 - 100 = l.length - 100 + 1 := by omega
    have e : List.drop (l.length - 100) (l ++ [a]) = List.drop (l.length - 100) l ++ [a] :=
      List.drop_append_of_le_length (by omega)
    rw [h2, h3, (List.drop_drop 1 (l.length - 100) (l ++ [a])).symm, e]

/-- The log after a sequence of `addActivity` calls on the last 100 entries of `pre`. -/
theorem foldl_addActivity (as pre : List Activity) :
    as.foldl addActivity (pre.drop (pre.length - 100))
      = (pre ++ as).drop ((pre ++ as).length - 100) := by
  induction as generalizing pre with
  | nil => simp
  | cons a rest ih =>
    rw [List.foldl_cons, addActivity_drop, ih]
    simp

/-- C27: after any sequence `as` of `addActivity` calls starting from an empty log,
the log holds exactly the last `min n 100` activities added, in insertion order,
and `ListActivities` answers 200 with exactly the last `min n 50` of them, oldest
first, where `n` is the length of `as`. -/
theorem C27_activity_window (as : List Activity) (store : String → Option Project) :
    as.foldl addActivity [] = as.drop (as.length - min as.length 100) ∧
    (as.foldl addActivity []).length = min as.length 100 ∧
    ListActivities ⟨store, as.foldl addActivity []⟩
      = (StatusOK, as.drop (as.length - min as.length 50)) ∧
    (ListActivities ⟨store, as.foldl addActivity []⟩).2.length = min as.length 50 := by
  have hlog : as.foldl addActivity [] = as.drop (as.length - 100) := by
    have := foldl_addActivity as []
    simpa using this
  have hlist : ListActivities ⟨store, as.foldl addActivity []⟩
      = (StatusOK, as.drop (as.length - min as.length 50)) := by
    unfold ListActivities
    simp only [hlog, List.length_drop, List.drop_drop]
    congr 2
    split_ifs <;> omega
  refine ⟨?_, ?_, hlist, ?_⟩
  · rw [hlog]
    congr 1
    omega
  · rw [hlog, List.length_drop]
    omega
  · rw [hlist]
    simp only [List.length_drop]
    omega

/-! ### Overlapping deploys -/

/-- C28: if `DeployProject` is triggered twice on a stored project before either
deploy completes, both completion steps succeed and write to the second deploy:
afterwards the project is running and its `lastDeploy` has the id and start time of
the second trigger, status success, the two starting lines followed by the eight
completion lines twice (18 lines), and the `finishedAt` and duration written by the
later completion. -/
theorem C28_overlapping_deploys (st : State) (id : String) (p : Project)
    (h : st.projectStore id = some p) (now1 now2 f1 f2 : Time) (d1 d2 a1 a2 : String) :
    ∃ s3 s4 p' d,
      deployCompletion
        (DeployProject (DeployProject st id now1 d1 a1).state id now2 d2 a2).state id f1
          = some s3 ∧
      deployCompletion s3 id f2 = some s4 ∧
      s4.projectStore id = some p' ∧ p'.status = .running ∧ p'.lastDeploy = some d ∧
      d.id = d2 ∧ d.status = .success ∧ d.startedAt = now2 ∧
      d.logs = ["Starting deployment...", "Using network: " ++ p.networkID] ++
        completionLogs p.networkID ++ completionLogs p.networkID ∧
      d.logs.length = 18 ∧
      d.finishedAt = some f2 ∧
      d.duration = F64.toInt64 (durationSeconds (timeSub f2 now2)) := by
  simp [DeployProject, deployCompletion, h, completionLogs]

/-- Witness for C28: two deploys of `demo` triggered at 2000 and 3000, completed at
2000002000 and 2000003000. -/
theorem C28_overlapping_deploys_witness :
    ∃ s3 s4 p' d,
      deployCompletion
        (DeployProject (DeployProject demoState "ab12cd34" 2000 "dep00001" "act00002").state
          "ab12cd34" 3000 "dep00002" "act00003").state "ab12cd34" 2000002000
          = some s3 ∧
      deployCompletion s3 "ab12cd34" 2000003000 = some s4 ∧
      s4.projectStore "ab12cd34" = some p' ∧ p'.status = .running ∧
      p'.lastDeploy = some d ∧
      d.id = "dep00002" ∧ d.status = .success ∧ d.startedAt = 3000 ∧
      d.logs = ["Starting deployment...", "Using network: " ++ "biz-panel-ab12cd34"] ++
        completionLogs "biz-panel-ab12cd34" ++ completionLogs "biz-panel-ab12cd34" ∧
      d.logs.length = 18 ∧
      d.finishedAt = some 2000003000 ∧
      d.duration = F64.toInt64 (durationSeconds (timeSub 2000003000 3000)) :=
  C28_overlapping_deploys demoState "ab12cd34"
    ((demoState.projectStore "ab12cd34").get (by decide)) (by decide)
    2000 3000 2000002000 2000003000 "dep00001" "dep00002" "act00002" "act00003"

/-! ### Splitting at a separator -/

theorem splitChars_not_mem (sep : Char) (cs : List Char) (h : sep ∉ cs) :
    splitChars sep cs = [cs] := by
  induction cs with
  | nil => rfl
  | cons c cs ih =>
    have hc : c ≠ sep := fun e => h (by simp [e])
    have hcs : sep ∉ cs := fun e => h (by simp [e])
    simp [splitChars, hc, ih hcs]

theorem splitChars_append (sep : Char) (a b : List Char) (h : sep ∉ a) :
    splitChars sep (a ++ sep :: b) = a :: splitChars sep b := by
  induction a with
  | nil => simp [splitChars]
  | cons c a ih =>
    have hc : c ≠ sep := fun e => h (by simp [e])
    have ha : sep ∉ a := fun e => h (by simp [e])
    simp [splitChars, hc, ih ha]

theorem splitColon_no_colon (v : String) (h : ':' ∉ v.data) : splitColon v = [v] := by
  simp [splitColon, splitChars_not_mem _ _ h]

theorem splitColon_two (s t : String) (hs : ':' ∉ s.data) (ht : ':' ∉ t.data) :
    splitColon (s ++ ":" ++ t) = [s, t] := by
  have hd : (s ++ ":" ++ t).data = s.data ++ ':' :: t.data := by
    simp [String.data_append]
  simp [splitColon, hd, splitChars_append _ _ _ hs, splitChars_not_mem _ _ ht]

theorem splitColon_more (s t rest : String) (hs : ':' ∉ s.data) (ht : ':' ∉ t.data) :
    ∃ more, splitColon (s ++ ":" ++ t ++ ":" ++ rest) = s :: t :: more := by
  have hd : (s ++ ":" ++ t ++ ":" ++ rest).data = s.data ++ ':' :: (t.data ++ ':' :: rest.data) := by
    simp [String.data_append]
  exact ⟨(splitChars ':' rest.data).map String.mk, by
    simp [splitColon, hd, splitChars_append _ _ _ hs, splitChars_append _ _ _ ht]⟩

theorem append_tcp_inj (a b : String) (h : a ++ "/tcp" = b ++ "/tcp") : a = b := by
  have hd := congrArg String.data h
  simp only [String.data_append] at hd
  exact String.ext (List.append_cancel_right hd)

/-! ### Port bindings -/

theorem lookup_mapSet_same {β : Type} (m : List (String × β)) (k : String) (v : β) :
    (mapSet m k v).lookup k = some v := by
  unfold mapSet
  induction m with
  | nil => simp [List.lookup]
  | cons x m ih =>
    by_cases hx : x.1 = k
    · simpa [List.filter_cons, hx] using ih
    · have hk : (k == x.1) = false := by simpa using fun e => hx e.symm
      simp only [List.filter_cons, hx, ne_eq, not_false_eq_true, decide_True, if_true,
        List.cons_append]
      rw [show x = (x.1, x.2) from rfl, List.lookup_cons, hk]
      exact ih

theorem lookup_mapSet_ne {β : Type} (m : List (String × β)) (k j : String) (v : β)
    (h : j ≠ k) : (mapSet m k v).lookup j = m.lookup j := by
  unfold mapSet
  induction m with
  | nil =>
    have hk : (j == k) = false := by simpa using h
    simp [List.lookup, hk]
  | cons x m ih =>
    by_cases hx : x.1 = k
    · have hj : (j == x.1) = false := by simpa [hx] using h
      rw [show x = (x.1, x.2) from rfl, List.lookup_cons, hj]
      simpa [List.filter_cons, hx] using ih
    · simp only [List.filter_cons, hx, ne_eq, not_false_eq_true, decide_True, if_true,
        List.cons_append]
      rw [show x = (x.1, x.2) from rfl, List.lookup_cons, List.lookup_cons, ih]

theorem portStep_portSpec (acc : List String × List (String × List PortBinding))
    (q : String × String) (hq : ':' ∉ q.1.data ∧ ':' ∉ q.2.data) :
    portStep acc (portSpec q) =
      (acc.1.filter (fun k => k ≠ q.2 ++ "/tcp") ++ [q.2 ++ "/tcp"],
        mapSet acc.2 (q.2 ++ "/tcp") [⟨"0.0.0.0", q.1⟩]) := by
  unfold portStep portSpec
  rw [splitColon_two _ _ hq.1 hq.2]

/-- Once a container port is exposed and bound, the port loop keeps it exposed, and
keeps its binding as long as no further spec names the same container port. -/
theorem foldl_portStep_keeps (post : List (String × String))
    (hwf : ∀ q ∈ post, ':' ∉ q.1.data ∧ ':' ∉ q.2.data)
    (acc : List String × List (String × List PortBinding)) (C : String)
    (b : List PortBinding) (hex : C ++ "/tcp" ∈ acc.1)
    (hb : acc.2.lookup (C ++ "/tcp") = some b) :
    C ++ "/tcp" ∈ ((post.map portSpec).foldl portStep acc).1 ∧
    ((∀ q ∈ post, q.2 ≠ C) →
      ((post.map portSpec).foldl portStep acc).2.lookup (C ++ "/tcp") = some b) := by
  induction post generalizing acc b with
  | nil => exact ⟨hex, fun _ => hb⟩
  | cons q post ih =>
    have hq := hwf q (by simp)
    have hwf' : ∀ r ∈ post, ':' ∉ r.1.data ∧ ':' ∉ r.2.data :=
      fun r hr => hwf r (by simp [hr])
    rw [List.map_cons, List.foldl_cons, portStep_portSpec acc q hq]
    by_cases hqc : q.2 = C
    · have h1 := ih hwf'
        (acc.1.filter (fun k => k ≠ q.2 ++ "/tcp") ++ [q.2 ++ "/tcp"],
          mapSet acc.2 (q.2 ++ "/tcp") [⟨"0.0.0.0", q.1⟩]) [⟨"0.0.0.0", q.1⟩]
        (by simp [hqc]) (by rw [hqc]; exact lookup_mapSet_same _ _ _)
      exact ⟨h1.1, fun hno => absurd hqc (hno q (by simp))⟩
    · have hne : C ++ "/tcp" ≠ q.2 ++ "/tcp" := fun e => hqc (append_tcp_inj _ _ e).symm
      have h1 := ih hwf'
        (acc.1.filter (fun k => k ≠ q.2 ++ "/tcp") ++ [q.2 ++ "/tcp"],
          mapSet acc.2 (q.2 ++ "/tcp") [⟨"0.0.0.0", q.1⟩]) b
        (by simp [hex, hne]) (by rw [lookup_mapSet_ne _ _ _ _ hne]; exact hb)
      exact ⟨h1.1, fun hno => h1.2 (fun r hr => hno r (by simp [hr]))⟩

/-- The claim fails for two specs with the same container port: `8080:80` and
`9090:80` are both of the form `H:C`, and the port map built from them holds the
single binding of `80/tcp` to host port 9090, so host port 8080 is not bound. -/
theorem C21_counterexample :
    twoHostPorts.ports = [portSpec ("8080", "80"), portSpec ("9090", "80")] ∧
    (Client.hostConfig twoHostPorts).portBindings = [("80/tcp", [⟨"0.0.0.0", "9090"⟩])] ∧
    (Client.hostConfig twoHostPorts).portBindings.lookup "80/tcp"
      ≠ some [⟨"0.0.0.0", "8080"⟩] := by
  decide

/-- C21 (amended): for every list of port specs `H:C` without further colons given to
`CreateContainer` and every spec `H:C` in it, the container configuration exposes
`C/tcp`, and the port map binds `C/tcp` to host port `H` on `0.0.0.0` when no later
spec of the list has the same container port `C`. -/
theorem C21_port_bindings (opts : CreateContainerOptions)
    (pre post : List (String × String)) (H C : String)
    (hports : opts.ports = (pre ++ (H, C) :: post).map portSpec)
    (hwf : ∀ q ∈ pre ++ (H, C) :: post, ':' ∉ q.1.data ∧ ':' ∉ q.2.data) :
    C ++ "/tcp" ∈ (Client.containerConfig opts).exposedPorts ∧
    ((∀ q ∈ post, q.2 ≠ C) →
      (Client.hostConfig opts).portBindings.lookup (C ++ "/tcp")
        = some [⟨"0.0.0.0", H⟩]) := by
  have hq := hwf (H, C) (by simp)
  have hwf' : ∀ r ∈ post, ':' ∉ r.1.data ∧ ':' ∉ r.2.data :=
    fun r hr => hwf r (by simp [hr])
  have key := foldl_portStep_keeps post hwf'
    (portStep ((pre.map portSpec).foldl portStep ([], [])) (portSpec (H, C))) C
    [⟨"0.0.0.0", H⟩]
    (by rw [portStep_portSpec _ _ hq]; simp)
    (by rw [portStep_portSpec _ _ hq]; exact lookup_mapSet_same _ _ _)
  have hfold : opts.ports.foldl portStep ([], []) =
      (post.map portSpec).foldl portStep
        (portStep ((pre.map portSpec).foldl portStep ([], [])) (portSpec (H, C))) := by
    rw [hports, List.map_append, List.foldl_append, List.map_cons, List.foldl_cons]
  unfold Client.containerConfig Client.hostConfig
  simp only [hfold]
  exact key

/-- Witness for C21: the specs `8080:80`, `8443:443`, `9090:80`; the spec `9090:80`
is the last one for container port 80. -/
theorem C21_port_bindings_witness :
    "80" ++ "/tcp" ∈ (Client.containerConfig
      ⟨"web", "nginx", ["8080:80", "8443:443", "9090:80"], [], [], none, "", []⟩).exposedPorts ∧
    ((∀ q ∈ ([] : List (String × String)), q.2 ≠ "80") →
      (Client.hostConfig
        ⟨"web", "nginx", ["8080:80", "8443:443", "9090:80"], [], [], none, "", []⟩
        ).portBindings.lookup ("80" ++ "/tcp") = some [⟨"0.0.0.0", "9090"⟩]) :=
  C21_port_bindings ⟨"web", "nginx", ["8080:80", "8443:443", "9090:80"], [], [], none, "", []⟩
    [("8080", "80"), ("8443", "443")] [] "9090" "80" (by decide) (by decide)

/-! ### Volume mounts -/

theorem volumeStep_eq (mounts : List Mount) (vol : String) :
    volumeStep mounts vol = mounts ++ (mountOfSpec vol).toList := by
  unfold volumeStep mountOfSpec
  cases splitColon vol with
  | nil => simp
  | cons s r =>
    cases r with
    | nil => simp
    | cons t r => simp

theorem foldl_volumeStep (vols : List String) (mounts : List Mount) :
    vols.foldl volumeStep mounts = mounts ++ vols.filterMap mountOfSpec := by
  induction vols generalizing mounts with
  | nil => simp
  | cons v vols ih =>
    rw [List.foldl_cons, ih, volumeStep_eq, List.filterMap_cons]
    cases mountOfSpec v <;> simp

/-- C22: for every list of volume specs given to `CreateContainer`, the mounts are,
in the order of the specs, exactly one mount per spec with at least two
colon-separated parts, with source the first part, target the second part, and type
`bind` when the source starts with `/` and `volume` otherwise; a spec without a
colon gives no mount, and a spec `s:t:rest` gives the mount of `s:t`. -/
theorem C22_volume_mounts (opts : CreateContainerOptions) (v s t rest : String)
    (hv : ':' ∉ v.data) (hs : ':' ∉ s.data) (ht : ':' ∉ t.data) :
    (Client.hostConfig opts).mounts = opts.volumes.filterMap mountOfSpec ∧
    mountOfSpec v = none ∧
    mountOfSpec (s ++ ":" ++ t)
      = some ⟨if "/".data.isPrefixOf s.data then "bind" else "volume", s, t⟩ ∧
    mountOfSpec (s ++ ":" ++ t ++ ":" ++ rest) = mountOfSpec (s ++ ":" ++ t) := by
  refine ⟨?_, ?_, ?_, ?_⟩
  · unfold Client.hostConfig
    simp [foldl_volumeStep]
  · unfold mountOfSpec
    rw [splitColon_no_colon v hv]
  · unfold mountOfSpec
    rw [splitColon_two s t hs ht]
  · obtain ⟨more, hm⟩ := splitColon_more s t rest hs ht
    unfold mountOfSpec
    rw [hm, splitColon_two s t hs ht]

/-- Witness for C22: a bind mount with a mode, a managed volume, a spec without a
colon and a second bind mount. -/
theorem C22_volume_mounts_witness :
    (Client.hostConfig mixedVolumes).mounts = mixedVolumes.volumes.filterMap mountOfSpec ∧
    mountOfSpec "scratch" = none ∧
    mountOfSpec ("/srv/www" ++ ":" ++ "/usr/share/nginx/html")
      = some ⟨if "/".data.isPrefixOf "/srv/www".data then "bind" else "volume",
          "/srv/www", "/usr/share/nginx/html"⟩ ∧
    mountOfSpec ("/srv/www" ++ ":" ++ "/usr/share/nginx/html" ++ ":" ++ "ro")
      = mountOfSpec ("/srv/www" ++ ":" ++ "/usr/share/nginx/html") :=
  C22_volume_mounts mixedVolumes "scratch" "/srv/www" "/usr/share/nginx/html" "ro"
    (by decide) (by decide) (by decide)

/-! ### Log lines -/

theorem andAlso_guard (p : Prop) [Decidable p] (x : Option Bool)
    (hx : p → ∃ b, x = some b) :
    ∃ b, andAlso (some (decide p)) x = some b ∧ (b = true → p) := by
  by_cases hp : p
  · obtain ⟨b, hb⟩ := hx hp
    exact ⟨b, by simp [andAlso, hp, hb], fun _ => hp⟩
  · exact ⟨false, by simp [andAlso, hp], fun h => by cases h⟩

theorem andAlso_some (a b : Option Bool) (ha : ∃ x, a = some x) (hb : ∃ y, b = some y) :
    ∃ c, andAlso a b = some c := by
  obtain ⟨x, rfl⟩ := ha
  obtain ⟨y, rfl⟩ := hb
  cases x <;> simp [andAlso]

theorem byteAt_some (s : List Nat) (i : Nat) (h : i < s.length) :
    ∃ b, byteAt s i = some b := by
  simp [byteAt, h]

theorem byteSlice_some (s : List Nat) (lo hi : Nat) (h : lo ≤ hi ∧ hi ≤ s.length) :
    ∃ t, byteSlice s lo hi = some t := by
  simp [byteSlice, h]

theorem Index_lt (s : List Nat) (b : Nat) (h : 0 < Index s b) :
    1 ≤ (Index s b).toNat ∧ (Index s b).toNat ≤ s.length := by
  unfold Index at h ⊢
  split_ifs at h ⊢ with hi
  · simp only [Int.toNat_ofNat]
    omega
  · omega

/-- No index or slice expression of `extractTimestamp` is out of range on a
non-empty line. -/
theorem extractTimestamp_some (line : List Nat) (h : 0 < line.length) :
    ∃ ts, extractTimestamp line = some ts := by
  unfold extractTimestamp
  obtain ⟨a, ha, hap⟩ := andAlso_guard (15 ≤ line.length)
    (andAlso ((byteAt line 3).map (fun b => decide (b = 32)))
      ((byteSlice line 6 7).map (fun s => decide (s = [32]))))
    (fun h15 => andAlso_some _ _
      (by obtain ⟨b, hb⟩ := byteAt_some line 3 (by omega); exact ⟨_, by rw [hb]; rfl⟩)
      (by obtain ⟨t, ht⟩ := byteSlice_some line 6 7 ⟨by omega, by omega⟩
          exact ⟨_, by rw [ht]; rfl⟩))
  rw [ha]
  cases a with
  | true => exact byteSlice_some line 0 15 ⟨by omega, hap rfl⟩
  | false =>
    obtain ⟨b, hb, hbp⟩ := andAlso_guard (19 ≤ line.length)
      (andAlso ((byteAt line 4).map (fun b => decide (b = 45)))
        ((byteAt line 10).map (fun b => decide (b = 32))))
      (fun h19 => andAlso_some _ _
        (by obtain ⟨x, hx⟩ := byteAt_some line 4 (by omega); exact ⟨_, by rw [hx]; rfl⟩)
        (by obtain ⟨x, hx⟩ := byteAt_some line 10 (by omega); exact ⟨_, by rw [hx]; rfl⟩))
    dsimp only
    rw [hb]
    cases b with
    | true => exact byteSlice_some line 0 19 ⟨by omega, hbp rfl⟩
    | false =>
      obtain ⟨x, hx⟩ := byteAt_some line 0 h
      dsimp only
      rw [hx]
      have hc : andAlso (Option.map (fun b => decide (b = 91)) (some x))
          (some (decide (20 < line.length)))
            = some (decide (x = 91) && decide (20 < line.length)) := by
        by_cases h91 : x = 91 <;> simp [andAlso, h91]
      rw [hc]
      cases (decide (x = 91) && decide (20 < line.length)) with
      | false => exact ⟨_, rfl⟩
      | true =>
        dsimp only
        split_ifs with hpos
        · exact byteSlice_some line 1 _ (Index_lt line 93 hpos)
        · exact ⟨_, rfl⟩

/-- The loop of `parseLogLines` never panics; it yields one entry per non-blank
line, in order, with the trimmed line as message. -/
theorem parseLogLinesLoop_some (detectLogLevel : String → String) (source : String)
    (lines : List String) :
    ∃ entries, parseLogLinesLoop detectLogLevel source lines = some entries ∧
      entries.map (fun e => e.message) = (lines.map TrimSpace).filter (fun l => l ≠ "") ∧
      ∀ e ∈ entries, e.source = source ∧ e.level = detectLogLevel e.message ∧
        (if 15 < (bytesOf e.message).length
          then extractTimestamp (bytesOf e.message) = some e.timestamp
          else e.timestamp = []) := by
  induction lines with
  | nil => exact ⟨[], rfl, rfl, fun e he => by cases he⟩
  | cons raw rest ih =>
    obtain ⟨entries, hloop, hmsg, hall⟩ := ih
    unfold parseLogLinesLoop
    by_cases hblank : TrimSpace raw = ""
    · refine ⟨entries, by simp [hblank, hloop], ?_, hall⟩
      simp [hblank, hmsg]
    · by_cases hlong : 15 < (bytesOf (TrimSpace raw)).length
      · obtain ⟨ts, hts⟩ := extractTimestamp_some (bytesOf (TrimSpace raw)) (by omega)
        refine ⟨⟨ts, detectLogLevel (TrimSpace raw), TrimSpace raw, source⟩ :: entries,
          by simp [hblank, hlong, hts, hloop], by simp [hblank, hmsg], ?_⟩
        intro e he
        rcases List.mem_cons.mp he with rfl | he
        · exact ⟨rfl, rfl, by simp [hlong, hts]⟩
        · exact hall e he
      · refine ⟨⟨[], detectLogLevel (TrimSpace raw), TrimSpace raw, source⟩ :: entries,
          by simp [hblank, hlong, hloop], by simp [hblank, hmsg], ?_⟩
        intro e he
        rcases List.mem_cons.mp he with rfl | he
        · exact ⟨rfl, rfl, by simp [hlong]⟩
        · exact hall e he

/-- C30: for every input text and source, `parseLogLines` completes without an
out-of-range index or slice; the result has exactly one entry per non-blank line, in
order, whose message is the trimmed line; the timestamp of an entry is the result
of `extractTimestamp` when the trimmed line is longer than 15 bytes and empty
otherwise, and on every line longer than 15 bytes each index and slice expression of
`extractTimestamp` is within bounds. -/
theorem C30_parse_log_lines (detectLogLevel : String → String) (text source : String)
    (line : List Nat) (hline : 15 < line.length) :
    (∃ entries, parseLogLines detectLogLevel text source = some entries ∧
      entries.map (fun e => e.message)
        = ((splitLines text).map TrimSpace).filter (fun l => l ≠ "") ∧
      ∀ e ∈ entries, e.source = source ∧ e.level = detectLogLevel e.message ∧
        (if 15 < (bytesOf e.message).length
          then extractTimestamp (bytesOf e.message) = some e.timestamp
          else e.timestamp = [])) ∧
    ∃ ts, extractTimestamp line = some ts :=
  ⟨parseLogLinesLoop_some detectLogLevel source (splitLines text),
    extractTimestamp_some line (by omega)⟩

/-- Witness for C30: the sample log, and the bytes of a syslog line of 20 bytes. -/
theorem C30_parse_log_lines_witness :
    (∃ entries, parseLogLines (fun _ => "info") sampleLog "syslog" = some entries ∧
      entries.map (fun e => e.message)
        = ((splitLines sampleLog).map TrimSpace).filter (fun l => l ≠ "") ∧
      ∀ e ∈ entries, e.source = "syslog" ∧ e.level = (fun _ => "info") e.message ∧
        (if 15 < (bytesOf e.message).length
          then extractTimestamp (bytesOf e.message) = some e.timestamp
          else e.timestamp = [])) ∧
    ∃ ts, extractTimestamp (bytesOf "Jan 18 10:30:45 host") = some ts :=
  C30_parse_log_lines (fun _ => "info") sampleLog "syslog" (bytesOf "Jan 18 10:30:45 host")
    (by decide)

/-! ### The rate limiter -/

theorem allow_rate (rl : RateLimiter) (ip : String) (now : Time) :
    (rl.allow ip now).1.rate = rl.rate ∧ (rl.allow ip now).1.window = rl.window := by
  unfold RateLimiter.allow RateLimiter.getVisitor
  dsimp only
  split_ifs <;> exact ⟨rfl, rfl⟩

theorem allow_other (rl : RateLimiter) (ip ip' : String) (now : Time) (h : ip ≠ ip') :
    (rl.allow ip' now).1.visitors ip = rl.visitors ip := by
  unfold RateLimiter.allow RateLimiter.getVisitor
  dsimp only
  split_ifs <;> simp [visitorsSet, h]

theorem allow_same (rl : RateLimiter) (ip : String) (now : Time) :
    (rl.allow ip now).1.visitors ip
        = some (visitorStep rl.rate rl.window (rl.visitors ip) now).1 ∧
    (rl.allow ip now).2 = (visitorStep rl.rate rl.window (rl.visitors ip) now).2 := by
  unfold RateLimiter.allow RateLimiter.getVisitor visitorStep
  dsimp only
  split_ifs <;> simp [visitorsSet]

/-- The limiter treats each IP on its own: the count for `ip` is the count on its
visitor entry. -/
theorem allowedIn_eq_allowedOf (ip : String) (a b : Time) (evs : List LimiterEvent)
    (rl : RateLimiter) :
    allowedIn ip a b rl evs = allowedOf rl.rate rl.window ip a b (rl.visitors ip) evs := by
  induction evs generalizing rl with
  | nil => rfl
  | cons e rest ih =>
    cases e with
    | cleanup now =>
      simp only [allowedIn, allowedOf]
      rw [ih]
      rfl
    | request ip' now =>
      simp only [allowedIn, allowedOf]
      rw [ih, (allow_rate rl ip' now).1, (allow_rate rl ip' now).2]
      by_cases hip : ip' = ip
      · subst hip
        rw [(allow_same rl ip' now).1, (allow_same rl ip' now).2]
        simp
      · rw [allow_other rl ip ip' now (fun e => hip e.symm)]
        simp [hip]

/-- The count for `ip` does not depend on the requests of other IPs. -/
theorem allowedOf_filter (rate window : Int) (ip : String) (a b : Time)
    (evs : List LimiterEvent) (o : Option visitor) :
    allowedOf rate window ip a b o (evs.filter (concerns ip))
      = allowedOf rate window ip a b o evs := by
  induction evs generalizing o with
  | nil => rfl
  | cons e rest ih =>
    cases e with
    | cleanup now => simp [List.filter_cons, concerns, allowedOf, ih]
    | request ip' now =>
      by_cases hip : ip' = ip
      · simp [List.filter_cons, concerns, allowedOf, hip, ih]
      · simp [List.filter_cons, concerns, allowedOf, hip, ih]

set_option maxRecDepth 100000 in
/-- The claim fails for the login limiter (5 per minute): of ten attempts of one IP
with non-decreasing clock readings, the nine made within one nanosecond, at one
minute and at one minute plus a nanosecond after the first, are all allowed. -/
theorem C26_counterexample :
    burstEvents.Pairwise (fun x y => x.time ≤ y.time) ∧
    allowedIn "10.0.0.1" 60000000000 60000000001 LoginRateLimiter burstEvents = 9 ∧
    allowedIn "10.0.0.1" 60000000000 (60000000000 + Minute) LoginRateLimiter burstEvents
      = 9 := by
  decide

theorem timeSub_gt (t u w : Int) (hw : 0 ≤ w) (h : w < timeSub t u) : w < t - u := by
  unfold timeSub at h
  simp only [max_def, min_def] at h
  split_ifs at h <;> omega

theorem wrapInt64_double (w : Int) (h0 : 0 ≤ w) (h1 : w < 2 ^ 62) :
    wrapInt64 (w * 2) = w * 2 := by
  unfold wrapInt64
  omega

theorem int_le {x y : Int} (h : x ≤ y) : x ≤ y := h

theorem int_not_le {x y : Int} (h : ¬ x ≤ y) : y < x := not_le.mp h

theorem count_le_one (p : Prop) [Decidable p] : (if p then 1 else 0 : Nat) ≤ 1 := by
  split_ifs <;> omega

theorem visitorStep_none (rate window : Int) (now : Time) :
    visitorStep rate window none now
      = if 0 < rate then (⟨rate - 1, now⟩, true) else (⟨rate, now⟩, false) := by
  simp [visitorStep]

theorem visitorStep_reset (rate window k : Int) (L now : Time)
    (h : window < timeSub now L) :
    visitorStep rate window (some ⟨k, L⟩) now
      = if 0 < rate then (⟨rate - 1, now⟩, true) else (⟨rate, now⟩, false) := by
  simp [visitorStep, h]

theorem visitorStep_keep (rate window k : Int) (L now : Time)
    (h : ¬ window < timeSub now L) :
    visitorStep rate window (some ⟨k, L⟩) now
      = if 0 < k then (⟨k - 1, L⟩, true) else (⟨k, L⟩, false) := by
  simp [visitorStep, h]

/-- No request after the end of the interval is counted. -/
theorem allowedOf_after (rate window : Int) (ip : String) (a b : Int)
    (evs : List LimiterEvent) (o : Option visitor) (h : ∀ e ∈ evs, b < e.time) :
    allowedOf rate window ip a b o evs = 0 := by
  induction evs generalizing o with
  | nil => rfl
  | cons e rest ih =>
    have hrest : ∀ e ∈ rest, b < e.time := fun e he => h e (by simp [he])
    cases e with
    | cleanup now => simp [allowedOf, ih _ hrest]
    | request ip' now =>
      have hnow : b < now := h (.request ip' now) (by simp)
      simp [allowedOf, ih _ hrest, not_le.mpr hnow]

/-- The events after an event later than `b` are later than `b`. -/
theorem later_events (b now : Int) (rest : List LimiterEvent) (hnow : b < now)
    (hhead : ∀ e ∈ rest, now ≤ e.time) : ∀ e ∈ rest, b < e.time :=
  fun e he => lt_of_lt_of_le hnow (hhead e he)

/-- The count after a request that starts a fresh window at `now`, when the interval
ends within that window. -/
theorem allowedOf_fresh (rate window : Int) (ip : String) (a b now : Int)
    (rest : List LimiterEvent) (v : visitor × Bool)
    (hv : v = (if 0 < rate then ((⟨rate - 1, now⟩ : visitor), true) else (⟨rate, now⟩, false)))
    (hrest : ∀ k : Int, allowedOf rate window ip a b (some ⟨k, now⟩) rest ≤ k.toNat) :
    (if v.2 = true ∧ a ≤ now ∧ now ≤ b then 1 else 0) +
      allowedOf rate window ip a b (some v.1) rest ≤ rate.toNat := by
  by_cases hr : 0 < rate
  · rw [if_pos hr] at hv
    subst hv
    exact le_trans (Nat.add_le_add (count_le_one _) (hrest (rate - 1))) (by omega)
  · rw [if_neg hr] at hv
    subst hv
    simp only [Bool.false_eq_true, false_and, if_false, Nat.zero_add]
    exact hrest rate

/-- While the interval ends within the window of the last reset, the allowed
requests are paid from the tokens left. -/
theorem allowedOf_no_reset (rate window : Int) (hw0 : 0 ≤ window) (hw1 : window < 2 ^ 62)
    (ip : String) (a b L : Int) (hb : b ≤ L + window) (evs : List LimiterEvent)
    (hs : evs.Pairwise (fun x y => x.time ≤ y.time)) (k : Int) :
    allowedOf rate window ip a b (some ⟨k, L⟩) evs ≤ k.toNat := by
  induction evs generalizing k with
  | nil => simp [allowedOf]
  | cons e rest ih =>
    obtain ⟨hhead, hrest⟩ := List.pairwise_cons.mp hs
    cases e with
    | cleanup now =>
      have hhead' : ∀ e ∈ rest, (now : Int) ≤ e.time := hhead
      simp only [allowedOf, visitorCleanup]
      by_cases hdel : wrapInt64 (window * 2) < timeSub now L
      · rw [if_pos hdel]
        rw [wrapInt64_double window hw0 hw1] at hdel
        have h2 := timeSub_gt now L (window * 2) (by omega) hdel
        rw [allowedOf_after rate window ip a b rest none
          (later_events b now rest (by omega) hhead')]
        omega
      · rw [if_neg hdel]
        exact ih hrest k
    | request ip' now =>
      have hhead' : ∀ e ∈ rest, (now : Int) ≤ e.time := hhead
      simp only [allowedOf]
      by_cases hip : ip' = ip
      · rw [if_pos hip]
        by_cases hnb : (now : Int) ≤ b
        · have hnb' := int_le hnb
          have hkeep : ¬ window < timeSub now L := by
            intro hlt
            have h2 := timeSub_gt now L window hw0 hlt
            omega
          rw [visitorStep_keep rate window k L now hkeep]
          by_cases hk : 0 < k
          · rw [if_pos hk]
            exact le_trans (Nat.add_le_add (count_le_one _) (ih hrest (k - 1))) (by omega)
          · rw [if_neg hk]
            simp only [Bool.false_eq_true, false_and, if_false, Nat.zero_add]
            exact ih hrest k
        · rw [allowedOf_after rate window ip a b rest _
            (later_events b now rest (int_not_le hnb) hhead'),
            if_neg (fun h => hnb h.2.2)]
          omega
      · rw [if_neg hip]
        exact ih hrest k

theorem budget_cleanup_le (window : Int) (o : Option visitor) (now : Time) :
    budget (visitorCleanup window o now) ≤ budget o := by
  cases o with
  | none => simp [visitorCleanup, budget]
  | some v =>
    simp only [visitorCleanup]
    split_ifs <;> simp [budget]

theorem budget_step_le (rate window : Int) (o : Option visitor) (now : Time)
    (h : budget o ≤ rate.toNat) :
    budget (some (visitorStep rate window o now).1) ≤ rate.toNat := by
  have hfresh : budget (some (if 0 < rate then ((⟨rate - 1, now⟩ : visitor), true)
      else (⟨rate, now⟩, false)).1) ≤ rate.toNat := by
    by_cases hr : 0 < rate
    · rw [if_pos hr]
      simp only [budget]
      omega
    · rw [if_neg hr]
      simp only [budget]
      omega
  cases o with
  | none =>
    rw [visitorStep_none]
    exact hfresh
  | some v =>
    obtain ⟨k, L⟩ := v
    simp only [budget] at h
    by_cases hreset : window < timeSub now L
    · rw [visitorStep_reset rate window k L now hreset]
      exact hfresh
    · rw [visitorStep_keep rate window k L now hreset]
      by_cases hk : 0 < k
      · rw [if_pos hk]
        simp only [budget]
        omega
      · rw [if_neg hk]
        simp only [budget]
        omega

/-- From the start of the interval on, the allowed requests are paid from the tokens
left and from at most one refill. -/
theorem allowedOf_window (rate window : Int) (hw0 : 0 ≤ window) (hw1 : window < 2 ^ 62)
    (ip : String) (a b : Int) (hab : b ≤ a + window) (evs : List LimiterEvent)
    (hs : evs.Pairwise (fun x y => x.time ≤ y.time)) (ha : ∀ e ∈ evs, a ≤ e.time)
    (o : Option visitor) :
    allowedOf rate window ip a b o evs ≤ budget o + rate.toNat := by
  induction evs generalizing o with
  | nil => simp [allowedOf]
  | cons e rest ih =>
    obtain ⟨hhead, hrest⟩ := List.pairwise_cons.mp hs
    have harest : ∀ e ∈ rest, a ≤ e.time := fun e he => ha e (by simp [he])
    cases e with
    | cleanup now =>
      simp only [allowedOf]
      have h1 := ih hrest harest (visitorCleanup window o now)
      have h2 := budget_cleanup_le window o now
      omega
    | request ip' now =>
      have hnow : a ≤ (now : Int) := ha (.request ip' now) (by simp)
      simp only [allowedOf]
      by_cases hip : ip' = ip
      · rw [if_pos hip]
        have hfresh := fun v hv => allowedOf_fresh rate window ip a b now rest v hv
          (allowedOf_no_reset rate window hw0 hw1 ip a b now (by omega) rest hrest)
        cases o with
        | none =>
          have := hfresh _ (visitorStep_none rate window now)
          omega
        | some v =>
          obtain ⟨k, L⟩ := v
          by_cases hreset : window < timeSub now L
          · have := hfresh _ (visitorStep_reset rate window k L now hreset)
            omega
          · rw [visitorStep_keep rate window k L now hreset]
            by_cases hk : 0 < k
            · rw [if_pos hk]
              have h1 := ih hrest harest (some ⟨k - 1, L⟩)
              simp only [budget] at h1 ⊢
              exact le_trans (Nat.add_le_add (count_le_one _) h1) (by omega)
            · rw [if_neg hk]
              simp only [Bool.false_eq_true, false_and, if_false, Nat.zero_add]
              exact ih hrest harest (some ⟨k, L⟩)
      · rw [if_neg hip]
        exact ih hrest harest o

/-- In any interval no longer than the window, at most twice the rate is allowed. -/
theorem allowedOf_bound (rate window : Int) (hw0 : 0 ≤ window) (hw1 : window < 2 ^ 62)
    (ip : String) (a b : Int) (hab : b ≤ a + window) (evs : List LimiterEvent)
    (hs : evs.Pairwise (fun x y => x.time ≤ y.time)) (o : Option visitor)
    (ho : budget o ≤ rate.toNat) :
    allowedOf rate window ip a b o evs ≤ 2 * rate.toNat := by
  induction evs generalizing o with
  | nil => simp [allowedOf]
  | cons e rest ih =>
    obtain ⟨hhead, hrest⟩ := List.pairwise_cons.mp hs
    by_cases hae : a ≤ e.time
    · have hall : ∀ x ∈ e :: rest, a ≤ x.time := by
        intro x hx
        rcases List.mem_cons.mp hx with rfl | hx
        · exact hae
        · exact le_trans hae (hhead x hx)
      have := allowedOf_window rate window hw0 hw1 ip a b hab (e :: rest) hs hall o
      omega
    · cases e with
      | cleanup now =>
        simp only [allowedOf]
        exact ih hrest _ (le_trans (budget_cleanup_le window o now) ho)
      | request ip' now =>
        have hnow : ¬ a ≤ (now : Int) := hae
        simp only [allowedOf]
        by_cases hip : ip' = ip
        · rw [if_pos hip, if_neg (fun h => hnow h.2.1), Nat.zero_add]
          exact ih hrest _ (budget_step_le rate window o now ho)
        · rw [if_neg hip]
          exact ih hrest o ho

/-- C26 (amended): for every rate limiter with rate `r ≥ 0` and window
`0 ≤ w < 2 ^ 62` ns, every client IP and every sequence of requests and cleanup
rounds with non-decreasing clock readings, the number of requests of that IP allowed
within any interval of length `w` is at most `2 * r`, and at most `r` when the
interval starts with the first request of the IP; requests of other IPs do not
change the count. -/
theorem C26_rate_limit (rate window : Int) (hr : 0 ≤ rate) (hw0 : 0 ≤ window)
    (hw1 : window < 2 ^ 62) (ip : String) (a : Time) (evs : List LimiterEvent)
    (hs : evs.Pairwise (fun x y => x.time ≤ y.time)) :
    (allowedIn ip a (a + window) (NewRateLimiter rate window) evs : Int) ≤ 2 * rate ∧
    (∀ rest, evs = .request ip a :: rest →
      (allowedIn ip a (a + window) (NewRateLimiter rate window) evs : Int) ≤ rate) ∧
    allowedIn ip a (a + window) (NewRateLimiter rate window) (evs.filter (concerns ip))
      = allowedIn ip a (a + window) (NewRateLimiter rate window) evs := by
  refine ⟨?_, ?_, ?_⟩
  · rw [allowedIn_eq_allowedOf]
    have := allowedOf_bound rate window hw0 hw1 ip a (a + window) (le_refl _) evs hs none
      (by simp [budget])
    simp only [NewRateLimiter]
    omega
  · intro rest hev
    subst hev
    rw [allowedIn_eq_allowedOf]
    have hall : ∀ x ∈ LimiterEvent.request ip a :: rest, a ≤ x.time := by
      intro x hx
      rcases List.mem_cons.mp hx with rfl | hx
      · exact le_refl _
      · exact (List.pairwise_cons.mp hs).1 x hx
    have := allowedOf_window rate window hw0 hw1 ip a (a + window) (le_refl _) _ hs hall none
    simp only [budget, NewRateLimiter] at this ⊢
    omega
  · rw [allowedIn_eq_allowedOf, allowedIn_eq_allowedOf]
    exact allowedOf_filter _ _ _ _ _ _ _

set_option maxRecDepth 100000 in
/-- Witness for C26: the login limiter on the burst of ten attempts, with the
interval of one minute that starts with the first attempt. -/
theorem C26_rate_limit_witness :
    (allowedIn "10.0.0.1" 0 (0 + Minute) (NewRateLimiter 5 Minute) burstEvents : Int)
      ≤ 2 * 5 ∧
    (∀ rest, burstEvents = .request "10.0.0.1" 0 :: rest →
      (allowedIn "10.0.0.1" 0 (0 + Minute) (NewRateLimiter 5 Minute) burstEvents : Int)
        ≤ 5) ∧
    allowedIn "10.0.0.1" 0 (0 + Minute) (NewRateLimiter 5 Minute)
        (burstEvents.filter (concerns "10.0.0.1"))
      = allowedIn "10.0.0.1" 0 (0 + Minute) (NewRateLimiter 5 Minute) burstEvents :=
  C26_rate_limit 5 Minute (by decide) (by decide) (by decide) "10.0.0.1" 0 burstEvents
    (by decide)

/-! ### The registry lock -/

/-- The handlers that create, delete, attach to, deploy and complete a project write
only while they hold the write lock. -/
theorem locked_handlers (st : State) (id : String) (docker : Option DockerClient)
    (createBody : Except String CreateProjectRequest) (attachBody : Except String String) :
    writesLocked false (CreateProjectAccesses createBody) = true ∧
    writesLocked false (DeleteProjectAccesses st id) = true ∧
    writesLocked false (AddContainerToProjectAccesses docker st id attachBody) = true ∧
    writesLocked false (DeployProjectAccesses st id) = true ∧
    writesLocked false (deployCompletionAccesses st id) = true := by
  refine ⟨?_, ?_, ?_, ?_, ?_⟩
  · unfold CreateProjectAccesses
    cases bindCreateProjectRequest createBody <;> rfl
  · unfold DeleteProjectAccesses
    cases st.projectStore id <;> rfl
  · unfold AddContainerToProjectAccesses
    cases attachBody with
    | error e => rfl
    | ok c =>
      dsimp only
      split_ifs
      · rfl
      · cases hp : st.projectStore id with
        | none => rfl
        | some p =>
          cases docker with
          | none => rfl
          | some d =>
            dsimp only
            cases d.connectContainerToNetwork c p.networkID <;> rfl
  · unfold DeployProjectAccesses
    cases st.projectStore id <;> rfl
  · unfold deployCompletionAccesses
    cases st.projectStore id with
    | none => rfl
    | some p =>
      dsimp only
      cases p.lastDeploy <;> rfl

/-- `UpdateProject` on a stored project with a well-formed body writes fields of the
stored project before it takes the write lock. -/
theorem UpdateProject_writes_unlocked (st : State) (id : String) (p : Project)
    (req : UpdateProjectRequest) (h : st.projectStore id = some p) :
    writesLocked false (UpdateProjectAccesses st id (.ok req)) = false := by
  unfold UpdateProjectAccesses
  rw [h]
  dsimp only
  split_ifs <;> rfl

/-- `GetProject` on a stored project writes `Containers` with no lock held whenever
the listing of the runtime succeeds. -/
theorem GetProject_writes_unlocked (st : State) (id : String) (p : Project)
    (d : DockerClient) (cs : List ContainerInfo) (h : st.projectStore id = some p)
    (hl : d.listContainers p.id = some (.ok cs)) :
    writesLocked false (GetProjectAccesses st id (some d)) = false := by
  unfold GetProjectAccesses
  rw [h]
  dsimp only
  rw [hl]
  rfl

set_option maxRecDepth 100000 in
/-- C25 (divergence): on the registry that holds `demo`, `GetProject` with a working
runtime assigns `Containers` after it released the read lock, and `UpdateProject`
assigns the fields of the stored project between releasing the read lock and taking
the write lock: both write with no lock held.  The other handlers on the same
registry write only under the write lock. -/
theorem C25_unlocked_writes :
    GetProjectAccesses demoState "ab12cd34" (some workingDocker)
      = [.rLock, .readMap, .rUnlock, .writeField "Containers"] ∧
    writesLocked false (GetProjectAccesses demoState "ab12cd34" (some workingDocker))
      = false ∧
    UpdateProjectAccesses demoState "ab12cd34" (.ok retitleRequest)
      = [.rLock, .readMap, .rUnlock, .writeField "Name", .writeField "Description",
          .writeField "SSL", .writeField "Resources", .writeField "UpdatedAt",
          .lock, .writeMap, .unlock] ∧
    writesLocked false (UpdateProjectAccesses demoState "ab12cd34" (.ok retitleRequest))
      = false ∧
    writesLocked false (CreateProjectAccesses (.ok demoRequest)) = true ∧
    writesLocked false (DeleteProjectAccesses demoState "ab12cd34") = true ∧
    writesLocked false
      (AddContainerToProjectAccesses (some workingDocker) demoState "ab12cd34" (.ok "c1"))
      = true ∧
    writesLocked false (DeployProjectAccesses demoState "ab12cd34") = true ∧
    writesLocked false (deployCompletionAccesses demoDeploying "ab12cd34") = true := by
  decide

/-! ### Trimming -/

theorem dropWhile_append_all {p : Char → Bool} (a b : List Char) (h : ∀ x ∈ a, p x = true) :
    (a ++ b).dropWhile p = b.dropWhile p := by
  induction a with
  | nil => rfl
  | cons c a ih =>
    have hc : p c = true := h c (by simp)
    rw [List.cons_append, List.dropWhile_cons, if_pos hc]
    exact ih (fun x hx => h x (by simp [hx]))

theorem dropWhile_append_ex {p : Char → Bool} (a b : List Char)
    (h : ∃ x ∈ a, p x = false) : (a ++ b).dropWhile p = a.dropWhile p ++ b := by
  induction a with
  | nil =>
    obtain ⟨x, hx, _⟩ := h
    cases hx
  | cons c a ih =>
    by_cases hc : p c = true
    · obtain ⟨x, hx, hpx⟩ := h
      have hxa : x ∈ a := by
        rcases List.mem_cons.mp hx with rfl | hx
        · rw [hc] at hpx
          cases hpx
        · exact hx
      rw [List.cons_append, List.dropWhile_cons, if_pos hc, List.dropWhile_cons, if_pos hc]
      exact ih ⟨x, hxa, hpx⟩
    · rw [List.cons_append, List.dropWhile_cons, if_neg hc, List.dropWhile_cons, if_neg hc]
      rfl

theorem dropWhile_all {p : Char → Bool} (a : List Char) (h : ∀ x ∈ a, p x = true) :
    a.dropWhile p = [] := by
  have := dropWhile_append_all a [] h
  simpa using this

theorem dropWhile_twice {p : Char → Bool} (a : List Char) :
    (a.dropWhile p).dropWhile p = a.dropWhile p := by
  induction a with
  | nil => rfl
  | cons c a ih =>
    by_cases hc : p c = true
    · rw [List.dropWhile_cons, if_pos hc]
      exact ih
    · rw [List.dropWhile_cons, if_neg hc, List.dropWhile_cons, if_neg hc]

theorem trimSpaceChars_eq (cs : List Char) :
    trimSpaceChars cs = trimRight (cs.dropWhile isSpace) := rfl

theorem trimRight_append_all (a b : List Char) (h : ∀ x ∈ b, isSpace x = true) :
    trimRight (a ++ b) = trimRight a := by
  unfold trimRight
  rw [List.reverse_append, dropWhile_append_all _ _ (fun x hx => h x (List.mem_reverse.mp hx))]

theorem trimRight_append_ex (a b : List Char) (h : ∃ x ∈ b, isSpace x = false) :
    trimRight (a ++ b) = a ++ trimRight b := by
  unfold trimRight
  obtain ⟨x, hx, hpx⟩ := h
  rw [List.reverse_append, dropWhile_append_ex _ _ ⟨x, List.mem_reverse.mpr hx, hpx⟩,
    List.reverse_append, List.reverse_reverse]

theorem trimRight_all (b : List Char) (h : ∀ x ∈ b, isSpace x = true) : trimRight b = [] := by
  have := trimRight_append_all [] b h
  simpa [trimRight] using this

theorem trimRight_single (c : Char) (h : isSpace c = false) : trimRight [c] = [c] := by
  simp [trimRight, List.dropWhile_cons, h]

theorem trimRight_twice (a : List Char) : trimRight (trimRight a) = trimRight a := by
  unfold trimRight
  rw [List.reverse_reverse, dropWhile_twice]

/-- Trimming at the left and at the right commute. -/
theorem dropWhile_trimRight (x : List Char) :
    (trimRight x).dropWhile isSpace = trimRight (x.dropWhile isSpace) := by
  induction x with
  | nil => rfl
  | cons c cs ih =>
    by_cases hall : ∀ y ∈ cs, isSpace y = true
    · have h1 : trimRight (c :: cs) = trimRight [c] := trimRight_append_all [c] cs hall
      by_cases hc : isSpace c = true
      · have h2 : trimRight [c] = [] := trimRight_all [c] (by simpa using hc)
        rw [h1, h2, List.dropWhile_cons, if_pos hc, dropWhile_all cs hall]
        rfl
      · have hc' : isSpace c = false := by simpa using hc
        rw [List.dropWhile_cons, if_neg hc, h1, trimRight_single c hc', List.dropWhile_cons,
          if_neg hc]
    · have hex : ∃ y ∈ cs, isSpace y = false := by
        by_contra hno
        exact hall (fun y hy => by
          by_contra hy'
          exact hno ⟨y, hy, by simpa using hy'⟩)
      have h1 : trimRight (c :: cs) = c :: trimRight cs := trimRight_append_ex [c] cs hex
      by_cases hc : isSpace c = true
      · rw [h1, List.dropWhile_cons, if_pos hc, List.dropWhile_cons, if_pos hc]
        exact ih
      · rw [h1, List.dropWhile_cons, if_neg hc, List.dropWhile_cons, if_neg hc, h1]

theorem trim_trimRight (x : List Char) : trimSpaceChars (trimRight x) = trimSpaceChars x := by
  rw [trimSpaceChars_eq, trimSpaceChars_eq, dropWhile_trimRight, trimRight_twice]

theorem trim_cons_space (c : Char) (x : List Char) (h : isSpace c = true) :
    trimSpaceChars (c :: x) = trimSpaceChars x := by
  rw [trimSpaceChars_eq, trimSpaceChars_eq, List.dropWhile_cons, if_pos h]

theorem trim_append_space (a : List Char) (c : Char) (h : isSpace c = true) :
    trimSpaceChars (a ++ [c]) = trimSpaceChars a := by
  rw [trimSpaceChars_eq, trimSpaceChars_eq, ← dropWhile_trimRight, ← dropWhile_trimRight,
    trimRight_append_all a [c] (by simpa using h)]

theorem trim_dropCR (q : List Char) : trimSpaceChars (dropCR q) = trimSpaceChars q := by
  unfold dropCR
  split_ifs with hlast
  · have hq : q.dropLast ++ ['\r'] = q := List.dropLast_append_getLast? '\r' (by simp [hlast])
    conv_rhs => rw [← hq]
    rw [trim_append_space _ _ (by decide)]
  · rfl

/-- The trimmed form of the line `key = value` for a key that starts with a
character that is no white space. -/
theorem trim_new (h : Char) (k v : List Char) (hh : isSpace h = false) :
    trimSpaceChars ((h :: k) ++ ' ' :: '=' :: ' ' :: v)
      = (h :: k) ++ ' ' :: '=' :: trimRight (' ' :: v) := by
  have hsplit : (h :: k) ++ ' ' :: '=' :: ' ' :: v = ((h :: k) ++ [' ', '=']) ++ (' ' :: v) := by
    simp
  have hkeep : trimRight ((h :: k) ++ [' ', '=']) = (h :: k) ++ [' ', '='] := by
    have : (h :: k) ++ [' ', '='] = ((h :: k) ++ [' ']) ++ ['='] := by simp
    rw [this, trimRight_append_ex _ ['='] ⟨'=', by simp, by decide⟩,
      trimRight_single '=' (by decide)]
  have hhead : ((h :: k) ++ ' ' :: '=' :: ' ' :: v).dropWhile isSpace
      = (h :: k) ++ ' ' :: '=' :: ' ' :: v := by
    rw [List.cons_append, List.dropWhile_cons, if_neg (by simp [hh])]
  rw [trimSpaceChars_eq, hhead, hsplit]
  by_cases hall : ∀ y ∈ ' ' :: v, isSpace y = true
  · rw [trimRight_append_all _ _ hall, hkeep, trimRight_all _ hall]
  · have hex : ∃ y ∈ ' ' :: v, isSpace y = false := by
      by_contra hno
      exact hall (fun y hy => by
        by_contra hy'
        exact hno ⟨y, hy, by simpa using hy'⟩)
    rw [trimRight_append_ex _ _ hex]
    simp

theorem cutAt_append (sep : Char) (a b : List Char) (h : sep ∉ a) :
    cutAt sep (a ++ sep :: b) = some (a, b) := by
  induction a with
  | nil => simp [cutAt]
  | cons c a ih =>
    have hc : c ≠ sep := fun e => h (by simp [e])
    have ha : sep ∉ a := fun e => h (by simp [e])
    simp [cutAt, hc, ih ha]

theorem splitChars_ne_nil (sep : Char) (cs : List Char) : splitChars sep cs ≠ [] := by
  induction cs with
  | nil => simp [splitChars]
  | cons c cs ih =>
    unfold splitChars
    split_ifs
    · simp
    · cases hs : splitChars sep cs <;> simp

theorem splitChars_mem (sep : Char) (cs : List Char) :
    ∀ p ∈ splitChars sep cs, sep ∉ p := by
  induction cs with
  | nil =>
    intro p hp
    simp [splitChars] at hp
    simp [hp]
  | cons c cs ih =>
    intro p hp
    unfold splitChars at hp
    split_ifs at hp with hc
    · rcases List.mem_cons.mp hp with rfl | hp
      · simp
      · exact ih p hp
    · cases hs : splitChars sep cs with
      | nil =>
        rw [hs] at hp
        simp at hp
        subst hp
        simpa using fun e => hc e.symm
      | cons q qs =>
        rw [hs] at hp ih
        simp only [List.mem_cons] at hp
        rcases hp with rfl | hp
        · have hq := ih q (by simp)
          simp only [List.mem_cons, not_or]
          exact ⟨fun e => hc e.symm, hq⟩
        · exact ih p (by simp [hp])

theorem splitChars_joinLines (ls : List (List Char)) (hne : ls ≠ [])
    (h : ∀ l ∈ ls, '\n' ∉ l) : splitChars '\n' (joinLines ls) = ls := by
  induction ls with
  | nil => exact absurd rfl hne
  | cons l rest ih =>
    cases rest with
    | nil => simpa [joinLines] using splitChars_not_mem '\n' l (h l (by simp))
    | cons l2 rest =>
      have hl : '\n' ∉ l := h l (by simp)
      have hrest := ih (by simp) (fun x hx => h x (by simp [hx]))
      show splitChars '\n' (l ++ '\n' :: joinLines (l2 :: rest)) = _
      rw [splitChars_append _ _ _ hl, hrest]

/-! ### INI files -/

theorem map_mk_data (ls : List String) : (ls.map String.data).map String.mk = ls := by
  induction ls with
  | nil => rfl
  | cons l ls ih => simp [ih]

theorem splitLines_ne_nil (content : String) : splitLines content ≠ [] := by
  unfold splitLines
  simpa using splitChars_ne_nil '\n' content.data

theorem splitLines_mem (content : String) : ∀ l ∈ splitLines content, '\n' ∉ l.data := by
  intro l hl
  unfold splitLines at hl
  obtain ⟨p, hp, rfl⟩ := List.mem_map.mp hl
  exact splitChars_mem '\n' content.data p hp

theorem splitLines_Join (ls : List String) (hne : ls ≠ [])
    (h : ∀ l ∈ ls, '\n' ∉ l.data) : splitLines (Join ls) = ls := by
  unfold splitLines Join
  rw [splitChars_joinLines (ls.map String.data) (by simpa using hne)
    (by
      intro l hl
      obtain ⟨x, hx, rfl⟩ := List.mem_map.mp hl
      exact h x hx)]
  exact map_mk_data ls

theorem new_data (key value : String) :
    (key ++ " = " ++ value).data = key.data ++ ' ' :: '=' :: ' ' :: value.data := by
  simp [String.data_append]

theorem TrimSpace_dropCR (l : String) : TrimSpace (String.mk (dropCR l.data)) = TrimSpace l := by
  unfold TrimSpace
  rw [trim_dropCR]

theorem iniMatches_dropCR (key l : String) :
    iniMatches key (String.mk (dropCR l.data)) = iniMatches key l := by
  unfold iniMatches
  rw [TrimSpace_dropCR]

theorem iniMatches_empty (key : String) (c : Char) (cs : List Char)
    (hk : key.data = c :: cs) : iniMatches key "" = false := by
  have h1 : (key ++ " ").data = c :: (cs ++ [' ']) := by simp [String.data_append, hk]
  have h2 : (key ++ "=").data = c :: (cs ++ ['=']) := by simp [String.data_append, hk]
  have h3 : (TrimSpace "").data = [] := by decide
  simp [iniMatches, HasPrefix, h1, h2, h3, List.isPrefixOf]

/-- A scanned line whose trimmed form is that of the line `key = value` ends the
loop of `getINIValue` with the trimmed value. -/
theorem getINIValueLoop_hit (key value d text : String) (rest : List String)
    (c : Char) (cs : List Char) (hk : key.data = c :: cs) (hc : isSpace c = false)
    (heq : '=' ∉ key.data)
    (ht : TrimSpace text = TrimSpace (key ++ " = " ++ value)) :
    getINIValueLoop key d (text :: rest) = TrimSpace value := by
  have htrim : TrimSpace (key ++ " = " ++ value)
      = String.mk ((key.data ++ [' ']) ++ '=' :: trimRight (' ' :: value.data)) := by
    unfold TrimSpace
    rw [new_data, hk, trim_new c cs value.data hc]
    simp
  have hmatch : iniMatches key text = true := by
    unfold iniMatches HasPrefix
    rw [ht, htrim]
    have : (key ++ " ").data = key.data ++ [' '] := by simp [String.data_append]
    rw [this]
    simp [List.isPrefixOf_iff_prefix]
  have hcut : splitEq2 (TrimSpace text)
      = [String.mk (key.data ++ [' ']), String.mk (trimRight (' ' :: value.data))] := by
    unfold splitEq2
    rw [ht, htrim]
    have hno : '=' ∉ key.data ++ [' '] := by
      simp only [List.mem_append, List.mem_singleton, not_or]
      exact ⟨heq, by decide⟩
    rw [cutAt_append '=' _ _ hno]
  unfold getINIValueLoop
  rw [if_pos hmatch, hcut]
  show TrimSpace (String.mk (trimRight (' ' :: value.data))) = TrimSpace value
  unfold TrimSpace
  rw [trim_trimRight, trim_cons_space ' ' _ (by decide)]

theorem getINIValueLoop_miss (key d text : String) (rest : List String)
    (h : iniMatches key text = false) :
    getINIValueLoop key d (text :: rest) = getINIValueLoop key d rest := by
  rw [getINIValueLoop, if_neg (by simp [h])]

/-- The loop of `getINIValue` over lines that are the line `key = value` or do not
match the key, with at least one of the former. -/
theorem getINIValueLoop_spec (key value d : String) (c : Char) (cs : List Char)
    (hk : key.data = c :: cs) (hc : isSpace c = false) (heq : '=' ∉ key.data)
    (Q : List String)
    (hQ : ∀ q ∈ Q, q = key ++ " = " ++ value ∨ iniMatches key q = false)
    (hin : key ++ " = " ++ value ∈ Q) :
    getINIValueLoop key d (Q.map (fun l => String.mk (dropCR l.data))) = TrimSpace value := by
  induction Q with
  | nil => cases hin
  | cons q Q ih =>
    rw [List.map_cons]
    by_cases hq : q = key ++ " = " ++ value
    · exact getINIValueLoop_hit key value d _ _ c cs hk hc heq
        (by rw [TrimSpace_dropCR, hq])
    · have hmiss : iniMatches key q = false := by
        rcases hQ q (by simp) with h | h
        · exact absurd h hq
        · exact h
      rw [getINIValueLoop_miss key d _ _ (by rw [iniMatches_dropCR]; exact hmiss)]
      refine ih (fun x hx => hQ x (by simp [hx])) ?_
      rcases List.mem_cons.mp hin with h | h
      · exact absurd h.symm hq
      · exact h

theorem utf8Bytes_length (c : Char) : 1 ≤ (utf8Bytes c).length := by
  unfold utf8Bytes
  dsimp only
  split_ifs <;> simp

theorem bytes_length_ge (cs : List Char) :
    cs.length ≤ ((cs.map utf8Bytes).flatten).length := by
  induction cs with
  | nil => simp
  | cons c cs ih =>
    have := utf8Bytes_length c
    simp only [List.map_cons, List.flatten_cons, List.length_append, List.length_cons]
    omega

/-- The lines `setINIValue` writes. -/
theorem setINIValue_lines (content key value : String)
    (hkn : '\n' ∉ key.data) (hv : '\n' ∉ value.data) :
    ∃ out, setINIValue (.ok content) key value = .ok out ∧
      splitLines out =
        (splitLines content).map
            (fun l => if iniMatches key l then key ++ " = " ++ value else l) ++
          (if (splitLines content).any (iniMatches key) then [] else [key ++ " = " ++ value]) := by
  have hnew : '\n' ∉ (key ++ " = " ++ value).data := by
    rw [new_data]
    simp only [List.mem_append, List.mem_cons, not_or]
    exact ⟨hkn, by decide, by decide, by decide, hv⟩
  have hmap : ∀ l ∈ (splitLines content).map
      (fun l => if iniMatches key l then key ++ " = " ++ value else l), '\n' ∉ l.data := by
    intro l hl
    obtain ⟨x, hx, rfl⟩ := List.mem_map.mp hl
    split_ifs
    · exact hnew
    · exact splitLines_mem content x hx
  have hne : (splitLines content).map
      (fun l => if iniMatches key l then key ++ " = " ++ value else l) ≠ [] := by
    simpa using splitLines_ne_nil content
  unfold setINIValue
  dsimp only
  by_cases hfound : (splitLines content).any (iniMatches key) = true
  · refine ⟨_, rfl, ?_⟩
    rw [if_pos hfound, if_pos hfound, List.append_nil]
    exact splitLines_Join _ hne hmap
  · refine ⟨_, rfl, ?_⟩
    rw [if_neg hfound, if_neg hfound]
    refine splitLines_Join _ (by simp) ?_
    intro l hl
    rcases List.mem_append.mp hl with h | h
    · exact hmap l h
    · rw [List.mem_singleton.mp h]
      exact hnew

theorem scanLines_of_lines (out : String) (lines : List String)
    (hsplit : splitLines out = lines)
    (hfit : ∀ l ∈ lines, (bytesOf l).length < MaxScanTokenSize) :
    scanLines out =
      (if lines.getLast? = some "" then lines.dropLast else lines).map
        (fun l => String.mk (dropCR l.data)) := by
  unfold scanLines
  dsimp only
  rw [hsplit]
  congr 1
  rw [List.takeWhile_eq_self_iff]
  intro l hl
  have hmem : l ∈ lines := by
    split_ifs at hl
    · exact List.mem_of_mem_dropLast hl
    · exact hl
  simpa using hfit l hmem

theorem mem_dropFinalEmpty (lines : List String) (x : String) (hx : x ∈ lines)
    (hne : x ≠ "") : x ∈ (if lines.getLast? = some "" then lines.dropLast else lines) := by
  split_ifs with h
  · have hL : lines.dropLast ++ [""] = lines :=
      List.dropLast_append_getLast? "" (by simp [h])
    rw [← hL] at hx
    rcases List.mem_append.mp hx with h1 | h1
    · exact h1
    · exact absurd (List.mem_singleton.mp h1) hne
  · exact hx

theorem mem_of_mem_dropFinalEmpty (lines : List String) (x : String)
    (hx : x ∈ (if lines.getLast? = some "" then lines.dropLast else lines)) : x ∈ lines := by
  split_ifs at hx
  · exact List.mem_of_mem_dropLast hx
  · exact hx

/-- With a value too long for the buffer of the scanner, the lookup after
`setINIValue` on an empty file returns the default. -/
theorem getINIValue_too_long (key value d : String) (c : Char) (cs : List Char)
    (hk : key.data = c :: cs) (hkn : '\n' ∉ key.data) (hv : '\n' ∉ value.data)
    (hlong : MaxScanTokenSize ≤ value.data.length) :
    getINIValue (setINIValue (.ok "") key value) key d = d := by
  have hempty := iniMatches_empty key c cs hk
  obtain ⟨out, hset, hlines⟩ := setINIValue_lines "" key value hkn hv
  have hs : splitLines "" = [""] := by decide
  rw [hs] at hlines
  simp only [List.map_cons, List.map_nil, List.any_cons, List.any_nil, hempty, Bool.or_false,
    Bool.false_eq_true, if_false, List.singleton_append] at hlines
  have hnewlen : ¬ (bytesOf (key ++ " = " ++ value)).length < MaxScanTokenSize := by
    have h1 := bytes_length_ge (key ++ " = " ++ value).data
    have h2 : value.data.length ≤ (key ++ " = " ++ value).data.length := by
      rw [new_data]
      simp only [List.length_append, List.length_cons]
      omega
    unfold bytesOf
    omega
  have hnew : key ++ " = " ++ value ≠ "" := by
    intro h
    have := congrArg String.data h
    rw [new_data, hk] at this
    cases this
  have hscan : scanLines out = [""] := by
    unfold scanLines
    dsimp only
    rw [hlines]
    have hlast : ¬ (["", key ++ " = " ++ value].getLast? = some "") := by
      simpa using hnew
    rw [if_neg hlast]
    have h0 : (bytesOf "").length < MaxScanTokenSize := by decide
    simp [List.takeWhile_cons, h0, hnewlen]
    decide
  rw [hset]
  unfold getINIValue
  dsimp only
  rw [hscan, getINIValueLoop_miss key d "" [] hempty]
  rfl

theorem trim_replicate (n : Nat) (x : Char) (hx : isSpace x = false) :
    trimSpaceChars (List.replicate n x) = List.replicate n x := by
  cases n with
  | zero => rfl
  | succ n =>
    have h1 : (List.replicate (n + 1) x).dropWhile isSpace = List.replicate (n + 1) x := by
      rw [List.replicate_succ, List.dropWhile_cons, if_neg (by simp [hx])]
    rw [trimSpaceChars_eq, h1]
    unfold trimRight
    rw [List.reverse_replicate, h1, List.reverse_replicate]

/-- The claim fails for a value too long for the buffer of the scanner: after
`setINIValue` writes the key `k` with a value of 65536 characters `x` (no line break)
to an empty file, `getINIValue` returns the default `d`, not the value. -/
theorem C29_counterexample :
    '\n' ∉ longValue.data ∧ TrimSpace longValue = longValue ∧ longValue ≠ "d" ∧
    getINIValue (setINIValue (.ok "") "k" longValue) "k" "d" = "d" := by
  have hdata : longValue.data = List.replicate MaxScanTokenSize 'x' := rfl
  have hlen : longValue.data.length = MaxScanTokenSize := by
    rw [hdata, List.length_replicate]
  have hnl : '\n' ∉ longValue.data := by
    rw [hdata]
    intro h
    exact absurd (List.eq_of_mem_replicate h) (by decide)
  refine ⟨hnl, ?_, ?_, ?_⟩
  · unfold TrimSpace
    rw [hdata, trim_replicate _ _ (by decide)]
    rfl
  · intro h
    have h1 := congrArg (fun s => s.data.length) h
    dsimp only at h1
    rw [hlen] at h1
    exact absurd h1 (by decide)
  · exact getINIValue_too_long "k" longValue "d" 'k' [] rfl (by decide) hnl (by rw [hlen])

/-- C29 (amended): for every file content whose lines are shorter than 65536 bytes,
every key that starts with a character that is no white space and has no `=` and no
line break, and every value without a line break for which the line `key = value` is
shorter than 65536 bytes, looking the key up with `getINIValue` in the content
produced by `setINIValue` returns the value with surrounding white space trimmed;
`setINIValue` replaces every line whose trimmed form starts with the key followed by
a space or `=`, appends the line `key = value` when there is none, and leaves every
other line unchanged. -/
theorem C29_ini_round_trip (content key value defaultValue : String) (c : Char)
    (cs : List Char) (hk : key.data = c :: cs) (hc : isSpace c = false)
    (heq : '=' ∉ key.data) (hkn : '\n' ∉ key.data) (hv : '\n' ∉ value.data)
    (hfit : ∀ l ∈ splitLines content, (bytesOf l).length < MaxScanTokenSize)
    (hnewfit : (bytesOf (key ++ " = " ++ value)).length < MaxScanTokenSize) :
    ∃ out, setINIValue (.ok content) key value = .ok out ∧
      getINIValue (.ok out) key defaultValue = TrimSpace value ∧
      splitLines out =
        (splitLines content).map
            (fun l => if iniMatches key l then key ++ " = " ++ value else l) ++
          (if (splitLines content).any (iniMatches key) then []
            else [key ++ " = " ++ value]) := by
  obtain ⟨out, hset, hlines⟩ := setINIValue_lines content key value hkn hv
  refine ⟨out, hset, ?_, hlines⟩
  have hnew : key ++ " = " ++ value ≠ "" := by
    intro h
    have := congrArg String.data h
    rw [new_data, hk] at this
    cases this
  have hQ : ∀ q ∈ splitLines out,
      (q = key ++ " = " ++ value ∨ iniMatches key q = false) ∧
        (bytesOf q).length < MaxScanTokenSize := by
    intro q hq
    rw [hlines] at hq
    rcases List.mem_append.mp hq with h | h
    · obtain ⟨x, hx, rfl⟩ := List.mem_map.mp h
      by_cases hm : iniMatches key x = true
      · rw [if_pos hm]
        exact ⟨Or.inl rfl, hnewfit⟩
      · rw [if_neg hm]
        exact ⟨Or.inr (by simpa using hm), hfit x hx⟩
    · split_ifs at h
      · cases h
      · rw [List.mem_singleton.mp h]
        exact ⟨Or.inl rfl, hnewfit⟩
  have hin : key ++ " = " ++ value ∈ splitLines out := by
    rw [hlines]
    by_cases hfound : (splitLines content).any (iniMatches key) = true
    · obtain ⟨x, hx, hm⟩ := List.any_eq_true.mp hfound
      exact List.mem_append_left _ (List.mem_map.mpr ⟨x, hx, by rw [if_pos hm]⟩)
    · rw [if_neg hfound]
      exact List.mem_append_right _ (List.mem_singleton.mpr rfl)
  unfold getINIValue
  dsimp only
  rw [scanLines_of_lines out _ rfl (fun l hl => (hQ l hl).2)]
  exact getINIValueLoop_spec key value defaultValue c cs hk hc heq _
    (fun q hq => (hQ q (mem_of_mem_dropFinalEmpty _ q hq)).1)
    (mem_dropFinalEmpty _ _ hin hnew)

set_option maxRecDepth 1000000 in
/-- Witness for C29: setting `memory_limit` to ` 256M ` in a small INI file with a
commented and an active `memory_limit` line. -/
theorem C29_ini_round_trip_witness :
    ∃ out, setINIValue (.ok sampleINI) "memory_limit" " 256M " = .ok out ∧
      getINIValue (.ok out) "memory_limit" "64M" = TrimSpace " 256M " ∧
      splitLines out =
        (splitLines sampleINI).map
            (fun l => if iniMatches "memory_limit" l then "memory_limit" ++ " = " ++ " 256M "
              else l) ++
          (if (splitLines sampleINI).any (iniMatches "memory_limit") then []
            else ["memory_limit" ++ " = " ++ " 256M "]) :=
  C29_ini_round_trip sampleINI "memory_limit" " 256M " "64M" 'm' "emory_limit".data
    (by decide) (by decide) (by decide) (by decide) (by decide) (by decide) (by decide)

end BizPanel
